import Mathlib

/-! # STM32 OTA flasher: Intel HEX ingest, page assembly and bootloader frames

A shallow embedding of `stm32flash.cpp`.

* Bytes, characters and machine integers are natural numbers; `uint32_t`
  arithmetic is taken modulo `2^32`, `uint8_t` / `unsigned char` modulo `256`.
* C arrays (`pagebuf`, `stm32_buf`, `bootloader_info`) are total maps `Nat → Nat`;
  the code never indexes them out of bounds on the paths modelled here.
* The serial link is the pair `tx` (every byte handed to `Serial.write`, oldest
  first) and `rx` (the outcome of each coming `stm32_serial_poll` call: `none`
  is a timeout, `some b` the byte read). Bytes thrown away by the drain loop of
  `stm32_write_cmd` are not polls and so are not part of `rx`.
* The file is the list of its bytes; `none` stands for a file that cannot be
  opened.
* The HTML log (`http_send`), `yield` and timing are not modelled.
-/

namespace STM32

/-! ## Constants -/

def STM32_ACK : Nat := 0x79
def STM32_INFO_READ_MEMORY_CMD_IDX : Nat := 4
def STM32_INFO_WRITE_MEMORY_CMD_IDX : Nat := 6
def STM32_BUFLEN : Nat := 256
def PAGESIZE : Nat := 256
def LINE_BUFSIZE : Nat := 256

/-- Number of values of a `uint32_t`. -/
def U32 : Nat := 4294967296

/-- Subtraction of two `uint32_t` values (wraps around). -/
def sub32 (a b : Nat) : Nat := (a % U32 + U32 - b % U32) % U32

/-- Bitwise complement of a byte, as stored in a `uint8_t`. -/
def not8 (c : Nat) : Nat := 255 - c % 256

/-- Array store `a[i] = v`. -/
def upd (a : Nat → Nat) (i v : Nat) : Nat → Nat := fun j => if j = i then v else a j

/-- The first `n` cells `a[0..n)` of an array. -/
def slice (a : Nat → Nat) (n : Nat) : List Nat := (List.range n).map a

/-- XOR of `acc` with every element of the list (the checksum loops). -/
def xorAll (acc : Nat) (l : List Nat) : Nat := l.foldl (fun s b => s ^^^ b) acc

/-! ## `htoi` -/

/-- Value of one character inside the loop of `htoi`: hex digits give their value,
every other character gives 0. -/
def hexval (x : Nat) : Nat :=
  if 48 ≤ x ∧ x ≤ 57 then x - 48
  else if 65 ≤ x ∧ x ≤ 70 then x - 55
  else if 97 ≤ x ∧ x ≤ 102 then x - 87
  else 0

/-- The loop of `htoi`: `sum <<= 4; sum += x` on a `uint16_t`, for `i = 0 .. max_digits-1`.
`buf` is the text the pointer points at; reading past it yields the terminator 0. -/
def htoiLoop (buf : List Nat) : Nat → Nat → Nat → Nat
  | 0, _, sum => sum
  | n + 1, i, sum => htoiLoop buf n (i + 1) ((sum * 16 % 65536 + hexval (buf.getD i 0 % 256)) % 65536)

/-- Model of `htoi (buf, max_digits)`. The loop condition tests `*buf`, the first
character, on every round, so a leading NUL yields 0. -/
def htoi (buf : List Nat) (max_digits : Nat) : Nat :=
  if buf.getD 0 0 = 0 then 0 else htoiLoop buf max_digits 0 0

/-- The macro `hex2toi(pp)`. -/
def hex2toi (buf : List Nat) : Nat := htoi buf 2

/-! ## Process-wide state and the serial link -/

/-- The globals `bootloader_info` and `stm32_buf` together with the serial link. `wlog` is a
ghost field: one entry `(address, image[0..len))` for every call of
`stm32_write_memory` that passes its length guard, i.e. every write command that
reaches the wire. `rlog` is the same for `stm32_read_memory`: one entry `(address, len)`
for every call, each of which sends its command. -/
structure Globals where
  bootloader_info : Nat → Nat
  stm32_buf : Nat → Nat
  tx : List Nat
  rx : List (Option Nat)
  wlog : List (Nat × List Nat)
  rlog : List (Nat × Nat)

/-- Model of `stm32_serial_poll`: the next outcome of the link; `-1` on timeout. -/
def stm32_serial_poll (g : Globals) : Int × Globals :=
  match g.rx with
  | [] => (-1, g)
  | none :: r => (-1, { g with rx := r })
  | some ch :: r => (((ch % 256 : Nat) : Int), { g with rx := r })

/-- Model of `wait_for_ack`: 0 when the next byte is ACK, `-1` otherwise. -/
def wait_for_ack (g : Globals) : Int × Globals :=
  let p := stm32_serial_poll g
  if p.1 < 0 then (-1, p.2)
  else if p.1 ≠ (STM32_ACK : Int) then (-1, p.2)
  else (0, p.2)

/-- Model of `Serial.write (stm32_buf, n)`. -/
def serial_write_buf (g : Globals) (n : Nat) : Globals :=
  { g with tx := g.tx ++ slice g.stm32_buf n }

/-- Model of `stm32_write_cmd`. -/
def stm32_write_cmd (g : Globals) (cmd : Nat) : Globals :=
  let g := { g with stm32_buf := upd g.stm32_buf 0 (cmd % 256) }
  let g := { g with stm32_buf := upd g.stm32_buf 1 (not8 cmd) }
  serial_write_buf g 2

/-- The five stores that build the address frame in `stm32_buf[0..4]`. -/
def set_address (g : Globals) (address : Nat) : Globals :=
  let b := g.stm32_buf
  let b := upd b 0 ((address >>> 24) &&& 0xFF)
  let b := upd b 1 ((address >>> 16) &&& 0xFF)
  let b := upd b 2 ((address >>> 8) &&& 0xFF)
  let b := upd b 3 (address &&& 0xFF)
  let b := upd b 4 (b 0 ^^^ b 1 ^^^ b 2 ^^^ b 3)
  { g with stm32_buf := b }

/-- The receive loop of `stm32_read_memory`: `n` bytes still to come, `i` the index. -/
def readLoop : Nat → Nat → Globals → Int × Globals
  | 0, _, g => (0, g)
  | n + 1, i, g =>
    let p := stm32_serial_poll g
    if p.1 < 0 then (-1, p.2)
    else readLoop n (i + 1)
      (if i < STM32_BUFLEN then { p.2 with stm32_buf := upd p.2.stm32_buf i p.1.toNat } else p.2)

/-- Model of `stm32_read_memory (address, len)`. -/
def stm32_read_memory (g : Globals) (address len : Nat) : Int × Globals :=
  let g := { g with rlog := g.rlog ++ [(address, len)] }
  let g := stm32_write_cmd g (g.bootloader_info STM32_INFO_READ_MEMORY_CMD_IDX)
  let a := wait_for_ack g
  if a.1 < 0 then (-1, a.2) else
  let g := serial_write_buf (set_address a.2 address) 5
  let a := wait_for_ack g
  if a.1 < 0 then (-1, a.2) else
  let g := { a.2 with stm32_buf := upd a.2.stm32_buf 0 (sub32 len 1 % 256) }
  let g := { g with stm32_buf := upd g.stm32_buf 1 (not8 (g.stm32_buf 0)) }
  let g := serial_write_buf g 2
  let a := wait_for_ack g
  if a.1 < 0 then (-1, a.2) else
  let r := readLoop len 0 a.2
  if r.1 < 0 then (-1, r.2) else ((len : Int), r.2)

/-- Model of `stm32_write_memory (image, address, len)`. -/
def stm32_write_memory (g : Globals) (image : Nat → Nat) (address len : Nat) : Int × Globals :=
  if len > 256 then (-1, g) else
  let g := { g with wlog := g.wlog ++ [(address, slice image len)] }
  let g := stm32_write_cmd g (g.bootloader_info STM32_INFO_WRITE_MEMORY_CMD_IDX)
  let a := wait_for_ack g
  if a.1 < 0 then (-1, a.2) else
  let g := serial_write_buf (set_address a.2 address) 5
  let a := wait_for_ack g
  if a.1 < 0 then (-1, a.2) else
  let g := { a.2 with stm32_buf := upd a.2.stm32_buf 0 (sub32 len 1 % 256) }
  let sum := g.stm32_buf 0
  let g := serial_write_buf g 1
  let sum := xorAll sum (slice image len)
  let g := { g with tx := g.tx ++ slice image len }
  let g := { g with stm32_buf := upd g.stm32_buf 0 (sum % 256) }
  let g := serial_write_buf g 1
  let a := wait_for_ack g
  if a.1 < 0 then (-1, a.2) else (0, a.2)

/-! ## `stm32_flash_image` -/

/-- The locals of `stm32_flash_image` that the page assembly works on, plus the
globals: page buffer, page base, current byte address, the write counters and the
return code. -/
structure Page where
  g : Globals
  pagebuf : Nat → Nat
  pageaddr : Nat
  pageidx : Nat
  bytes_written : Nat
  pages_written : Nat
  errors : Nat
  rtc : Int

/-- The state of `stm32_flash_image`: the page state, the remaining locals and the
global `start_address`. `items` is a ghost field: the `(absolute address, byte)` pairs
stored into the page buffer so far, in order. -/
structure Flash where
  p : Page
  address_min : Nat
  address_max : Nat
  last_address : Nat
  ulba : Nat
  start_address : Nat
  bytes_read : Nat
  eof_record_found : Bool
  line : Nat
  items : List (Nat × Nat)

/-- Write, read back and compare `pagebuf[0 .. pageidx - pageaddr)` (the body shared by
both flush sites). The flag is `true` when the code leaves through `rtc = -1; break`. -/
def write_verify (p : Page) : Page × Bool :=
  let len := sub32 p.pageidx p.pageaddr
  let w := stm32_write_memory p.g p.pagebuf p.pageaddr len
  if w.1 < 0 then ({ p with g := w.2, rtc := -1 }, true) else
  let r := stm32_read_memory w.2 p.pageaddr len
  if r.1 < 0 then ({ p with g := r.2, rtc := -1 }, true) else
  if slice p.pagebuf len ≠ slice r.2.stm32_buf len then
    ({ p with g := r.2, errors := p.errors + 1, rtc := -1 }, true)
  else ({ p with g := r.2, bytes_written := (p.bytes_written + len) % U32 }, false)

/-- The block guarded by `if (pageaddr != 0xffffffff)` at a page crossing. -/
def flush_page (do_flash : Bool) (p : Page) : Page × Bool :=
  if do_flash then
    let v := write_verify p
    if v.2 then v else ({ v.1 with pages_written := (v.1.pages_written + 1) % U32 }, false)
  else ({ p with pages_written := (p.pages_written + 1) % U32 }, false)

/-- The page part of one round of the data-record loop, for the byte `ch` whose
address `ulba + drlo + dri` is `a`: set `pageidx`, flush and restart the page when
`pageidx - pageaddr >= PAGESIZE`, store the byte. -/
def page_byte (do_flash : Bool) (a ch : Nat) (p : Page) : Page × Bool :=
  let p := { p with pageidx := a }
  let r : Page × Bool :=
    if sub32 p.pageidx p.pageaddr ≥ PAGESIZE then
      let f := if p.pageaddr ≠ 0xffffffff then flush_page do_flash p else (p, false)
      if f.2 then f else ({ f.1 with pageaddr := a, pagebuf := fun _ => 0xFF }, false)
    else (p, false)
  if r.2 then r
  else ({ r.1 with pagebuf := upd r.1.pagebuf (sub32 r.1.pageidx r.1.pageaddr) ch }, false)

/-- One round of the data-record loop for the byte `ch` at index `dri`. -/
def data_byte (do_flash : Bool) (drlo dri ch : Nat) (s : Flash) : Flash × Bool :=
  let a := (s.ulba + drlo + dri) % U32
  let r := page_byte do_flash a ch s.p
  if r.2 then ({ s with p := r.1 }, true) else
  let s := { s with p := r.1, items := s.items ++ [(a, ch)] }
  let s := if do_flash then s else { s with last_address := a }
  let s := if s.address_min > a then { s with address_min := a } else s
  let s := if s.address_max < a then { s with address_max := a } else s
  (s, false)

/-- The `for (dri = 0; dri < datalen; dri++)` loop of a data record over the decoded
bytes; the last component is the running `sum`. -/
def data_loop (do_flash : Bool) (drlo : Nat) : List Nat → Nat → Flash → Nat → Flash × Bool × Nat
  | [], _, s, sum => (s, false, sum)
  | ch :: rest, dri, s, sum =>
    let r := data_byte do_flash drlo dri ch s
    if r.2 then (r.1, true, sum) else data_loop do_flash drlo rest (dri + 1) r.1 (sum + ch)

/-- The page part of the End-of-File record: flush the last page when
`pageidx - pageaddr > 0`. -/
def eof_flush (do_flash : Bool) (p : Page) : Page :=
  if sub32 p.pageidx p.pageaddr > 0 then
    let p := { p with pageidx := (p.pageidx + 1) % U32 }
    if do_flash then
      let v := write_verify p
      if v.2 then v.1 else
      { v.1 with pageidx := 0, pagebuf := fun _ => 0xFF,
                 pages_written := (v.1.pages_written + 1) % U32 }
    else { p with pages_written := (p.pages_written + 1) % U32 }
  else p

/-- The End-of-File record; the line loop is left with `break` afterwards. -/
def eof_record (do_flash : Bool) (s : Flash) : Flash :=
  { s with eof_record_found := true, p := eof_flush do_flash s.p }

/-- The loop `x <<= 8; x |= ch` of the type 4 and type 5 records on a `uint32_t`. -/
def shift_in (data : List Nat) : Nat := data.foldl (fun u ch => (u * 256 % U32) ||| ch) 0

/-- The checksum test that closes a record, `sum = (0x100 - (sum & 0xff)) & 0xff;
if (sum != chcksum)`: `true` when the line is refused. -/
def checksum_fails (sum chcksum : Nat) : Bool := (256 - sum % 256) % 256 ≠ chcksum

/-- The exit `rtc = -1; break`. -/
def Flash.fail (s : Flash) : Flash × Bool := ({ s with p := { s.p with rtc := -1 } }, true)

/-- The body of a line whose length matches its length field, on the decoded fields:
`drlo` the 16-bit offset, `rectype` the record type, `sum` the header sum
`datalen + addrh + addrl + rectype`, `data` the bytes `ch` the record loop decodes,
`chcksum` the byte decoded behind them. The flag is `true` when the code leaves the
line loop with `break`. -/
def process_record (do_flash : Bool) (s : Flash) (drlo rectype sum : Nat) (data : List Nat)
    (chcksum : Nat) : Flash × Bool :=
  if rectype = 0 then
    let r := data_loop do_flash drlo data 0 s sum
    if r.1.p.rtc = -1 then (r.1, true)
    else if checksum_fails r.2.2 chcksum then r.1.fail
    else (r.1, false)
  else if rectype = 1 then (eof_record do_flash s, true)
  else if rectype = 4 then
    if drlo = 0 then
      let s := { s with ulba := (shift_in data <<< 16) % U32 }
      if checksum_fails (sum + data.sum) chcksum then s.fail else (s, false)
    else s.fail
  else if rectype = 5 then
    if drlo = 0 then
      let s := { s with start_address := shift_in data }
      if checksum_fails (sum + data.sum) chcksum then s.fail else (s, false)
    else s.fail
  else s.fail

/-- The field `datalen` of a line: `hex2toi (linebuf + 1)` in an `unsigned char`. -/
def rec_datalen (linebuf : List Nat) : Nat := hex2toi (linebuf.drop 1) % 256

/-- The field `addrh` of a line. -/
def rec_addrh (linebuf : List Nat) : Nat := hex2toi (linebuf.drop 3) % 256

/-- The field `addrl` of a line. -/
def rec_addrl (linebuf : List Nat) : Nat := hex2toi (linebuf.drop 5) % 256

/-- The offset `drlo = (addrh << 8 | addrl)` of a line. -/
def rec_drlo (linebuf : List Nat) : Nat := (rec_addrh linebuf <<< 8) ||| rec_addrl linebuf

/-- The field `rectype` of a line. -/
def rec_type (linebuf : List Nat) : Nat := hex2toi (linebuf.drop 7) % 256

/-- The byte `ch` decoded at `dataptr = linebuf + 9 + 2 * dri` in round `dri` of a
record loop. -/
def data_at (linebuf : List Nat) (dri : Nat) : Nat := hex2toi (linebuf.drop (9 + 2 * dri)) % 256

/-- The decoded bytes `ch` of the rounds `dri = 0 .. datalen-1`. -/
def rec_data (linebuf : List Nat) : List Nat :=
  (List.range (rec_datalen linebuf)).map (data_at linebuf)

/-- The byte `chcksum`, decoded at `dataptr` behind the data. -/
def rec_chcksum (linebuf : List Nat) : Nat := data_at linebuf (rec_datalen linebuf)

/-- One non-empty line `linebuf[0..len)` of the file. The flag is `true` when the
code leaves the line loop with `break`. -/
def process_line (do_flash : Bool) (s : Flash) (linebuf : List Nat) : Flash × Bool :=
  if linebuf.getD 0 0 = 58 ∧ linebuf.length ≥ 11 then
    if linebuf.length = 9 + 2 * rec_datalen linebuf + 2 then
      process_record do_flash s (rec_drlo linebuf) (rec_type linebuf)
        (rec_datalen linebuf + rec_addrh linebuf + rec_addrl linebuf + rec_type linebuf)
        (rec_data linebuf) (rec_chcksum linebuf)
    else s.fail
  else s.fail

/-- The character loop that fills `linebuf`, run over the whole file: `'\r'` is
dropped, `'\n'` closes a line, and a line keeps its first `LINE_BUFSIZE - 1`
characters. `acc` is `linebuf[0..idx)`. What is left when the file ends is the last
line (empty when the file ended with a newline). -/
def file_lines : List Nat → List Nat → List (List Nat)
  | [], acc => [acc]
  | ch :: rest, acc =>
    if ch ≠ 13 then
      if ch = 10 then acc :: file_lines rest []
      else if acc.length < LINE_BUFSIZE - 1 then file_lines rest (acc ++ [ch])
      else file_lines rest acc
    else file_lines rest acc

/-- The statements `line++; bytes_read += idx;` that open the body of the line loop. -/
def Flash.count_line (s : Flash) (idx : Nat) : Flash :=
  { s with line := s.line + 1, bytes_read := (s.bytes_read + idx) % U32 }

/-- The `while (f.available ())` loop over the lines of the file: an empty line
(`idx == 0`) ends it, as does a `break` of the line body. -/
def line_loop (do_flash : Bool) : List (List Nat) → Flash → Flash
  | [], s => s
  | linebuf :: rest, s =>
    if linebuf.length = 0 then s else
    let r := process_line do_flash (s.count_line linebuf.length) linebuf
    if r.2 then r.1 else line_loop do_flash rest r.1

/-- The page state at entry of `stm32_flash_image`; `pagebuf` is not initialised by
the code, so its contents `pagebuf0` are whatever the stack holds. -/
def Page.init (g : Globals) (pagebuf0 : Nat → Nat) : Page :=
  { g := g, pagebuf := pagebuf0, pageaddr := 0xffffffff, pageidx := 0,
    bytes_written := 0, pages_written := 0, errors := 0, rtc := 0 }

/-- The state at entry of `stm32_flash_image`; `start_address0` is the value the
global `start_address` holds at that moment. -/
def Flash.init (g : Globals) (pagebuf0 : Nat → Nat) (start_address0 : Nat) : Flash :=
  { p := Page.init g pagebuf0, address_min := 0xffffffff, address_max := 0,
    last_address := 0, ulba := 0, start_address := start_address0, bytes_read := 0,
    eof_record_found := false, line := 0, items := [] }

/-- The test after the line loop: the check pass fails when no EOF record was seen. -/
def finish (do_flash : Bool) (s : Flash) : Flash :=
  if do_flash then s
  else if s.p.rtc = 0 ∧ s.eof_record_found = false then { s with p := { s.p with rtc := -1 } }
  else s

/-- Model of `stm32_flash_image (fname, do_flash)`; the C function returns the field
`p.rtc` of the result. `file` is `none` when the file cannot be opened. -/
def stm32_flash_image (g : Globals) (pagebuf0 : Nat → Nat) (start_address0 : Nat)
    (file : Option (List Nat)) (do_flash : Bool) : Flash :=
  match file with
  | none => { Flash.init g pagebuf0 start_address0 with p := { Page.init g pagebuf0 with rtc := -1 } }
  | some text => finish do_flash (line_loop do_flash (file_lines text []) (Flash.init g pagebuf0 start_address0))

/-- The check pass and the write pass on an existing file, with what the code leaves
open fixed: the page buffer starts as `pagebuf0`, `start_address` as 0. -/
def check_pass (g : Globals) (pagebuf0 : Nat → Nat) (text : List Nat) : Flash :=
  stm32_flash_image g pagebuf0 0 (some text) false

/-- The write pass on an existing file (see `check_pass`). -/
def write_pass (g : Globals) (pagebuf0 : Nat → Nat) (text : List Nat) : Flash :=
  stm32_flash_image g pagebuf0 0 (some text) true

/-- The sum the checksum rule speaks of, `datalen + addr_hi + addr_lo + type + sum of
the data bytes + checksum byte`, on the fields as the code decodes them from a line. -/
def line_sum (linebuf : List Nat) : Nat :=
  rec_datalen linebuf + rec_addrh linebuf + rec_addrl linebuf + rec_type linebuf
    + (rec_data linebuf).sum + rec_chcksum linebuf

/-! ## Test inputs -/

/-- The bytes of a text. -/
def bytes (s : String) : List Nat := s.toList.map Char.toNat

/-- Globals after a GET that reported the usual opcodes, with the given poll outcomes
still to come and nothing transmitted yet. -/
def globals0 (rx : List (Option Nat)) : Globals :=
  { bootloader_info := fun i =>
      [0x22, 0x00, 0x01, 0x02, 0x11, 0x21, 0x31, 0x43, 0x63, 0x73, 0x82, 0x92].getD i 0,
    stm32_buf := fun _ => 0, tx := [], rx := rx, wlog := [], rlog := [] }

/-- The outcomes of `n` polls that are each answered by ACK. -/
def acks (n : Nat) : List (Option Nat) := List.replicate n (some STM32_ACK)

/-- Scenario S1. -/
def hexS1 : List Nat :=
  bytes ":020000040800F2\n:080000000102030405060708D4\n:00000001FF\n"

/-- The poll outcomes of a target that answers one page: ACK for each of the three
stages of the write, ACK for each of the three stages of the read, then the bytes
`back` as the data read back. -/
def page_replies (back : List Nat) : List (Option Nat) := acks 6 ++ back.map some

/-- Scenario S2: one record of 16 bytes at `0x080000F8`. -/
def hexS2 : List Nat :=
  bytes ":020000040800F2\n:1000F8000102030405060708090A0B0C0D0E0F1070\n:00000001FF\n"

/-- Scenario S3: 17 bytes at `0x08000000`. -/
def hexS3 : List Nat :=
  bytes ":020000040800F2\n:110000000102030405060708090A0B0C0D0E0F101156\n:00000001FF\n"

/-- Scenario S4: S1 with the checksum byte of its data line changed from `D4` to `D5`. -/
def hexS4 : List Nat :=
  bytes ":020000040800F2\n:080000000102030405060708D5\n:00000001FF\n"

/-- The data line of S4. -/
def lineS4 : List Nat := bytes ":080000000102030405060708D5"

/-- One data byte at `0x08000000`. -/
def hexOneByte : List Nat :=
  bytes ":020000040800F2\n:0100000001FE\n:00000001FF\n"

/-- Four bytes at `0x08000000`, then four bytes at `0x08000200`. -/
def hexGap : List Nat :=
  bytes ":020000040800F2\n:0400000001020304F2\n:0402000005060708E0\n:00000001FF\n"

/-- Four bytes at address 0, no type-4 record. -/
def hexLow : List Nat :=
  bytes ":0400000001020304F2\n:00000001FF\n"

/-- The shape of S1 at the 256-aligned address 0: a type-4 record with upper address
`0x0000`, eight bytes at offset 0, the EOF record. -/
def hexZero : List Nat :=
  bytes ":020000040000FA\n:080000000102030405060708D4\n:00000001FF\n"

/-- Four bytes at `0x08000004`. -/
def hexUnaligned : List Nat :=
  bytes ":020000040800F2\n:0400040001020304EE\n:00000001FF\n"

/-! ## Predicates used by the invariants -/

/-- The page invariant between two data bytes: the current byte lies in the window
of the page, `pageidx - pageaddr < PAGESIZE`. -/
def InWindow (p : Page) : Prop := sub32 p.pageidx p.pageaddr < PAGESIZE

/-- The page base is the address of a data byte stored so far, or the initial marker
`0xffffffff`. -/
def BaseKnown (s : Flash) : Prop :=
  s.p.pageaddr = 0xffffffff ∨ ∃ c, (s.p.pageaddr, c) ∈ s.items

/-- What holds of a logged write `w = (address, payload)` given the data bytes `items`
stored so far: between 1 and 256 bytes, and an address that is the address of one of
the data bytes, or the initial marker `0xffffffff`. -/
def GoodWrite (items : List (Nat × Nat)) (w : Nat × List Nat) : Prop :=
  1 ≤ w.2.length ∧ w.2.length ≤ 256 ∧ (w.1 = 0xffffffff ∨ ∃ c, (w.1, c) ∈ items)

/-- State `t` comes after state `s`: the stored data bytes and the logged writes have
only grown, every new write is good, and the page base is known. -/
def Reach (s t : Flash) : Prop :=
  (∃ its, t.items = s.items ++ its) ∧
  (∃ ext, t.p.g.wlog = s.p.g.wlog ++ ext ∧ ∀ w ∈ ext, GoodWrite t.items w) ∧
  BaseKnown t

/-! ## Definitions for the contiguous image -/

/-- The bytes `d` at consecutive addresses from `A`: `(A, d0), (A+1, d1), ...`. -/
def contig (A : Nat) : List Nat → List (Nat × Nat)
  | [] => []
  | b :: rest => (A, b) :: contig (A + 1) rest

/-- The bytes `d` cut into blocks of 256 from address `A`: block `j` has the base
`A + 256 * j` and holds `d[256 * j .. 256 * j + 256)`; the last block is shorter when
`d` ends inside it. -/
def pages (A : Nat) (d : List Nat) : List (Nat × List Nat) :=
  (List.range ((d.length + 255) / 256)).map fun j => (A + 256 * j, (d.drop (256 * j)).take 256)

/-- The poll outcomes of a target that ACKs every stage and reads back what was
written, for the writes `ws` in order. -/
def ideal_replies (ws : List (Nat × List Nat)) : List (Option Nat) :=
  (ws.map fun w => page_replies w.2).flatten

/-- The page part of the data loops run over a sequence of `(address, byte)` pairs,
up to the first `break`. -/
def asm_fold (do_flash : Bool) : List (Nat × Nat) → Page → Page × Bool
  | [], p => (p, false)
  | x :: rest, p =>
    let q := page_byte do_flash x.1 x.2 p
    if q.2 then q else asm_fold do_flash rest q.1

/-- The `(address, byte)` pairs of the rounds `dri, dri + 1, ...` of a data record. -/
def rec_items (ulba drlo : Nat) : Nat → List Nat → List (Nat × Nat)
  | _, [] => []
  | dri, ch :: rest => ((ulba + drlo + dri) % U32, ch) :: rec_items ulba drlo (dri + 1) rest

/-- What the write pass leaves of the page state `p` once the data bytes `new` and
the EOF record have been processed. -/
def after_items (new : List (Nat × Nat)) (p : Page) : Page :=
  if (asm_fold true new p).2 then (asm_fold true new p).1
  else eof_flush true (asm_fold true new p).1

/-- A two-page image: 260 bytes `(7 * i + 3) % 256` at `0x08000000`, in records of 32 bytes. -/
def hexTwoPages : List Nat :=
  bytes (":020000040800F2\n" ++
    ":20000000030A11181F262D343B424950575E656C737A81888F969DA4ABB2B9C0C7CED5DCF0\n" ++
    ":20002000E3EAF1F8FF060D141B222930373E454C535A61686F767D848B9299A0A7AEB5BCD0\n" ++
    ":20004000C3CAD1D8DFE6EDF4FB020910171E252C333A41484F565D646B727980878E959CB0\n" ++
    ":20006000A3AAB1B8BFC6CDD4DBE2E9F0F7FE050C131A21282F363D444B525960676E757C90\n" ++
    ":20008000838A91989FA6ADB4BBC2C9D0D7DEE5ECF3FA01080F161D242B323940474E555C70\n" ++
    ":2000A000636A71787F868D949BA2A9B0B7BEC5CCD3DAE1E8EFF6FD040B121920272E353C50\n" ++
    ":2000C000434A51585F666D747B828990979EA5ACB3BAC1C8CFD6DDE4EBF2F900070E151C30\n" ++
    ":2000E000232A31383F464D545B626970777E858C939AA1A8AFB6BDC4CBD2D9E0E7EEF5FC10\n" ++
    ":04010000030A1118C5\n" ++
    ":00000001FF\n")

/-- The data bytes of `hexTwoPages`. -/
def dataTwoPages : List Nat := (List.range 260).map fun i => (7 * i + 3) % 256

/-- Globals for `hexTwoPages`: the target answers both pages without error. -/
def globalsTwoPages : Globals :=
  globals0 (ideal_replies (pages 0x08000000 dataTwoPages))

/-! ## Frames as the protocol describes them -/

/-- The address frame: the four bytes of `a`, most significant first, then their XOR. -/
def addr_frame (a : Nat) : List Nat :=
  [(a >>> 24) &&& 0xFF, (a >>> 16) &&& 0xFF, (a >>> 8) &&& 0xFF, a &&& 0xFF,
   ((a >>> 24) &&& 0xFF) ^^^ ((a >>> 16) &&& 0xFF) ^^^ ((a >>> 8) &&& 0xFF) ^^^ (a &&& 0xFF)]

/-- What a write of the block `data` to address `a` puts on the wire when every stage
is ACKed: the command `w` and its complement, the address frame, then `N-1`, the `N`
data bytes and the XOR of `N-1` and all data bytes. -/
def write_frame (w a : Nat) (data : List Nat) : List Nat :=
  [w % 256, not8 w] ++ addr_frame a ++ [data.length - 1] ++ data ++ [xorAll (data.length - 1) data]

/-- What a read of `len` bytes from address `a` puts on the wire when every stage is
ACKed: the command `r` and its complement, the address frame, then `len-1` and its
complement. -/
def read_frame (r a len : Nat) : List Nat :=
  [r % 256, not8 r] ++ addr_frame a ++ [len - 1, not8 (len - 1)]

/-! ## Missing answers -/

/-- The next poll does not deliver an ACK: the link is silent, or the byte that comes is
not `0x79`. -/
def no_ack (rx : List (Option Nat)) : Prop :=
  match rx with
  | some c :: _ => c % 256 ≠ STM32_ACK
  | _ => True

/-- The next poll delivers no byte at all (timeout). -/
def no_byte (rx : List (Option Nat)) : Prop :=
  match rx with
  | some _ :: _ => False
  | _ => True

/-! ## Shapes of lines -/

/-- The format test and the length test of a line both pass: it begins with `':'` and
its length is `11 + 2 * datalen`, `datalen` being its length field. -/
def is_record (linebuf : List Nat) : Bool :=
  decide (linebuf.getD 0 0 = 58 ∧ linebuf.length = 11 + 2 * rec_datalen linebuf)

/-- The line is an End-of-File record: it passes both tests and its type field is 1. -/
def is_eof_record (linebuf : List Nat) : Bool :=
  is_record linebuf && decide (rec_type linebuf = 1)

/-- Scenario S5: S1 without its End-of-File line. -/
def hexS5 : List Nat := bytes ":020000040800F2\n:080000000102030405060708D4\n"

/-- S1 with the checksum byte of its End-of-File line changed from `FF` to `00`. -/
def hexEofSum : List Nat :=
  bytes ":020000040800F2\n:080000000102030405060708D4\n:0000000100\n"

/-- A line of 259 characters: a data record of 122 bytes at offset 0 with its checksum,
255 characters in all, followed by `0000`. -/
def longLine : List Nat :=
  bytes (":7A00000001080F161D242B323940474E555C636A71787F868D949BA2A9B0B7BEC5CCD3DAE1E8EF" ++
    "F6FD040B121920272E353C434A51585F666D747B828990979EA5ACB3BAC1C8CFD6DDE4EBF2F90007" ++
    "0E151C232A31383F464D545B626970777E858C939AA1A8AFB6BDC4CBD2D9E0E7EEF5FC030A11181F" ++
    "262D343B424950390000")

/-- The line `longLine` followed by the End-of-File record. -/
def hexLongLine : List Nat := longLine ++ bytes "\n:00000001FF\n"

/-- A record of type 2 (extended segment address), then the End-of-File record. -/
def hexType2 : List Nat := bytes ":020000021000EC\n:00000001FF\n"

/-- S1 with a record of type 3 (start segment address) behind its data line. -/
def hexType3 : List Nat :=
  bytes ":020000040800F2\n:080000000102030405060708D4\n:0400000300003800C1\n:00000001FF\n"

/-! ## The addressing rule on the lines of a file -/

/-- The `(absolute address, byte)` pairs that the addressing rule assigns to the lines of
a file, up to its End-of-File record, `ulba` being the upper base in force: a type-4
record with the two data bytes `b0 b1` makes the upper base `(b0 << 24) | (b1 << 16)`,
and byte `i` of a data record with offset `drlo` goes to `((ulba | drlo) + i) mod 2^32`.
The rule says nothing about a type-4 record with another number of data bytes: `none`. -/
def spec_place (ulba : Nat) : List (List Nat) → Option (List (Nat × Nat))
  | [] => some []
  | l :: rest =>
    if rec_type l = 1 then some []
    else if rec_type l = 4 then
      if rec_datalen l = 2 then
        spec_place ((data_at l 0 <<< 24) ||| (data_at l 1 <<< 16)) rest
      else none
    else if rec_type l = 0 then
      (spec_place ulba rest).map (fun t =>
        (List.range (rec_datalen l)).map
          (fun i => (((ulba ||| rec_drlo l) + i) % U32, data_at l i)) ++ t)
    else spec_place ulba rest

/-- One byte at offset `0x0020` before any type-4 record, two bytes at offset `0x0010`
under the upper address `0x0800`, two bytes at offset `0xFFFE` under `0x2000`. -/
def hexAbs : List Nat :=
  bytes (":0100200009D6\n:020000040800F2\n:020010000102EB\n:020000042000DA\n" ++
    ":02FFFE00AABB9C\n:00000001FF\n")

/-- Four bytes at `0x08000100`, then four bytes at `0x08000000`. -/
def hexBack : List Nat :=
  bytes ":020000040800F2\n:0401000001020304F1\n:0400000005060708E2\n:00000001FF\n"

/-! ## The order of the transmitted commands -/

/-- Two page addresses in a row: unless the first plus 256 reaches `0xFFFFFFFF`, the
second is the first plus 256. -/
def Step256 (a b : Nat) : Prop := a + 256 < 0xffffffff → b = a + 256

/-- The commands logged since the logs were `w0` and `r0`: the page addresses of the
writes go in steps of 256, and the reads have the addresses of the writes, in the same
order, the last write possibly without its read. -/
def Ordered (w0 : List (Nat × List Nat)) (r0 : List (Nat × Nat)) (g : Globals) : Prop :=
  ∃ ext rext, g.wlog = w0 ++ ext ∧ g.rlog = r0 ++ rext ∧
    List.Chain' Step256 (ext.map Prod.fst) ∧ rext.map Prod.fst <+: ext.map Prod.fst

/-- The invariant of the write pass between two data bytes: every write so far has been
read back, and the open page lies one step behind the last write. -/
def Running (w0 : List (Nat × List Nat)) (r0 : List (Nat × Nat)) (p : Page) : Prop :=
  p.pageaddr < U32 ∧
  ∃ ext rext, p.g.wlog = w0 ++ ext ∧ p.g.rlog = r0 ++ rext ∧
    List.Chain' Step256 (ext.map Prod.fst) ∧ rext.map Prod.fst = ext.map Prod.fst ∧
    ∀ a ∈ (ext.map Prod.fst).getLast?, Step256 a p.pageaddr

/-- A file whose data wrap around `2^32`: one byte at `0xFFFFFF00`, then four bytes at
address 0, which is `0xFFFFFF00 + 256` modulo `2^32`. -/
def hexWrap : List Nat :=
  bytes ":02000004FFFFFC\n:01FF0000AA56\n:020000040000FA\n:0400000001020304F2\n:00000001FF\n"

/-- A target that answers both pages of `hexWrap` without error: the page at
`0xFFFFFF00` reads back as the byte `AA` and 255 bytes `FF`. -/
def globalsWrap : Globals :=
  globals0 (page_replies (0xAA :: List.replicate 255 0xFF) ++ page_replies [1, 2, 3, 4])

/-! ## `stm32_get`, `stm32_write_unprotect`, `stm32_erase`, `stm32_ext_erase` -/

def STM32_BEGIN : Nat := 0x7F
def STM32_CMD_GET : Nat := 0x00
def STM32_CMD_ERASE : Nat := 0x43
def STM32_CMD_EXT_ERASE : Nat := 0x44
def STM32_INFO_BOOTLOADER_VERSION_IDX : Nat := 0
def STM32_INFO_ERASE_CMD_IDX : Nat := 7
def STM32_INFO_WRITE_UNPROTECT_CMD_IDX : Nat := 9
def STM32_INFO_SIZE : Nat := 12
def N_RETRIES : Nat := 4

/-- The receive loop of `stm32_get` with `buf = bootloader_info`: `n` bytes still to
come, `i` the index; a byte is stored only while `i < maxlen`. -/
def getLoop (maxlen : Nat) : Nat → Nat → Globals → Int × Globals
  | 0, _, g => (0, g)
  | n + 1, i, g =>
    let p := stm32_serial_poll g
    if p.1 < 0 then (-1, p.2)
    else getLoop maxlen n (i + 1)
      (if i < maxlen then
        { p.2 with bootloader_info := upd p.2.bootloader_info i (p.1.toNat % 256) }
       else p.2)

/-- Model of `stm32_get (bootloader_info, maxlen)`: the number of payload bytes on
success, `-1` on failure. -/
def stm32_get (g : Globals) (maxlen : Nat) : Int × Globals :=
  let g := stm32_write_cmd g STM32_CMD_GET
  let a := wait_for_ack g
  if a.1 < 0 then (-1, a.2) else
  let n := stm32_serial_poll a.2
  if n.1 < 0 then (-1, n.2) else
  let n_bytes := n.1.toNat + 1
  let r := getLoop maxlen n_bytes 0 n.2
  if r.1 < 0 then (-1, r.2) else
  let a := wait_for_ack r.2
  if a.1 < 0 then (-1, a.2) else ((n_bytes : Int), a.2)

/-- Model of `stm32_write_unprotect`. -/
def stm32_write_unprotect (g : Globals) : Int × Globals :=
  let g := stm32_write_cmd g (g.bootloader_info STM32_INFO_WRITE_UNPROTECT_CMD_IDX)
  let a := wait_for_ack g
  if a.1 < 0 then (-1, a.2) else
  let a := wait_for_ack a.2
  if a.1 < 0 then (-1, a.2) else (0, a.2)

/-- The page loop of `stm32_erase`: `n` page numbers still to send, `i` the index, `sum`
the running checksum in a `uint8_t`. -/
def eraseLoop (pagenumbers : Nat → Nat) : Nat → Nat → Globals → Nat → Globals × Nat
  | 0, _, g, sum => (g, sum)
  | n + 1, i, g, sum =>
    let g := { g with stm32_buf := upd g.stm32_buf 0 (pagenumbers i % 256) }
    let g := serial_write_buf g 1
    eraseLoop pagenumbers n (i + 1) g (sum ^^^ (pagenumbers i % 256))

/-- Model of `stm32_erase (pagenumbers, n_pages)`; `n_pages` is a `uint16_t`,
`real_pages` a `uint8_t`. -/
def stm32_erase (g : Globals) (pagenumbers : Nat → Nat) (n_pages : Nat) : Int × Globals :=
  if n_pages > 256 then (-1, g) else
  let g := stm32_write_cmd g (g.bootloader_info STM32_INFO_ERASE_CMD_IDX)
  let a := wait_for_ack g
  if a.1 < 0 then (-1, a.2) else
  let real_pages := n_pages % 256
  let n_pages := ((n_pages + 65535) % 65536) &&& 0xFF
  let g := { a.2 with stm32_buf := upd a.2.stm32_buf 0 n_pages }
  let g := serial_write_buf g 1
  let r : Globals × Nat :=
    if real_pages = 0 then (g, not8 (g.stm32_buf 0))
    else eraseLoop pagenumbers real_pages 0 g (g.stm32_buf 0)
  let g := { r.1 with stm32_buf := upd r.1.stm32_buf 0 r.2 }
  let g := serial_write_buf g 1
  let a := wait_for_ack g
  if a.1 < 0 then (-1, a.2) else (0, a.2)

/-- The page loop of `stm32_ext_erase` over 16-bit page numbers. -/
def extEraseLoop (pagenumbers : Nat → Nat) : Nat → Nat → Globals → Nat → Globals × Nat
  | 0, _, g, sum => (g, sum)
  | n + 1, i, g, sum =>
    let g := { g with stm32_buf := upd g.stm32_buf 0 ((pagenumbers i % 65536) >>> 8) }
    let g := { g with stm32_buf := upd g.stm32_buf 1 (pagenumbers i % 256) }
    let sum := sum ^^^ (g.stm32_buf 0 ^^^ g.stm32_buf 1)
    let g := serial_write_buf g 2
    extEraseLoop pagenumbers n (i + 1) g sum

/-- Model of `stm32_ext_erase (pagenumbers, n_pages)`; `n_pages` and `real_pages` are
`uint16_t`. -/
def stm32_ext_erase (g : Globals) (pagenumbers : Nat → Nat) (n_pages : Nat) : Int × Globals :=
  let g := stm32_write_cmd g (g.bootloader_info STM32_INFO_ERASE_CMD_IDX)
  let a := wait_for_ack g
  if a.1 < 0 then (-1, a.2) else
  let real_pages := n_pages % 65536
  let n_pages := (n_pages + 65535) % 65536
  if n_pages = 0xFFFF ∨ n_pages = 0xFFFE ∨ n_pages = 0xFFFD then
    let g := { a.2 with stm32_buf := upd a.2.stm32_buf 0 (n_pages >>> 8) }
    let g := { g with stm32_buf := upd g.stm32_buf 1 (n_pages &&& 0xFF) }
    let g := { g with stm32_buf := upd g.stm32_buf 2 (g.stm32_buf 0 ^^^ g.stm32_buf 1) }
    let g := serial_write_buf g 3
    let a := wait_for_ack g
    if a.1 < 0 then (-1, a.2) else (0, a.2)
  else if n_pages ≤ 0xFFF0 then
    let g := { a.2 with stm32_buf := upd a.2.stm32_buf 0 (n_pages >>> 8) }
    let g := { g with stm32_buf := upd g.stm32_buf 1 (n_pages &&& 0xFF) }
    let g := serial_write_buf g 2
    let r := extEraseLoop pagenumbers real_pages 0 g (g.stm32_buf 0 ^^^ g.stm32_buf 1)
    let g := { r.1 with stm32_buf := upd r.1.stm32_buf 0 r.2 }
    let g := serial_write_buf g 1
    let a := wait_for_ack g
    if a.1 < 0 then (-1, a.2) else (0, a.2)
  else (-1, a.2)

/-! ## `stm32_bootloader` -/

/-- The loop `for (i = 0; i < N_RETRIES; i++)` that sends `0x7F` and polls once, `n`
rounds still to go. The flag is `true` when the loop is left by `break`, that is with
`i < N_RETRIES`. -/
def enter_loop : Nat → Globals → Bool × Globals
  | 0, g => (false, g)
  | n + 1, g =>
    let g := { g with tx := g.tx ++ [STM32_BEGIN] }
    let p := stm32_serial_poll g
    if p.1 = (STM32_ACK : Int) then (true, p.2) else enter_loop n p.2

/-- The block `if (do_unprotect) ... else rtc = 0;`: write-unprotect and, when that
succeeded, the second entry loop, whose outcome only selects a log message. -/
def unprotect_block (g : Globals) (do_unprotect : Bool) : Int × Globals :=
  if do_unprotect then
    let w := stm32_write_unprotect g
    if w.1 ≥ 0 then (w.1, (enter_loop N_RETRIES w.2).2) else w
  else (0, g)

/-- The erase block: dispatch on `bootloader_info[STM32_INFO_ERASE_CMD_IDX]`. -/
def erase_block (g : Globals) : Int × Globals :=
  if g.bootloader_info STM32_INFO_ERASE_CMD_IDX = STM32_CMD_ERASE then
    stm32_erase g (fun _ => 0) 0
  else if g.bootloader_info STM32_INFO_ERASE_CMD_IDX = STM32_CMD_EXT_ERASE then
    stm32_ext_erase g (fun _ => 0) 0
  else (-1, g)

/-- What `stm32_bootloader` leaves behind: its return value, the globals with the
serial link, and the global `start_address`. -/
structure Job where
  rtc : Int
  g : Globals
  start_address : Nat

/-- The three blocks guarded by `if (rtc >= 0)` that end `stm32_bootloader`: the check
pass, the erase, the write pass. `pb1` and `pb2` are the initial contents of `pagebuf`
in the two calls of `stm32_flash_image`. -/
def flash_blocks (rtc : Int) (g : Globals) (pb1 pb2 : Nat → Nat) (sa : Nat)
    (file : Option (List Nat)) : Job :=
  let j : Job :=
    if rtc ≥ 0 then
      let c := stm32_flash_image g pb1 sa file false
      { rtc := c.p.rtc, g := c.p.g, start_address := c.start_address }
    else { rtc := rtc, g := g, start_address := sa }
  let j : Job :=
    if j.rtc ≥ 0 then
      let e := erase_block j.g
      { j with rtc := e.1, g := e.2 }
    else j
  if j.rtc ≥ 0 then
    let w := stm32_flash_image j.g pb2 j.start_address file true
    { rtc := w.p.rtc, g := w.p.g, start_address := w.start_address }
  else j

/-- Model of `stm32_bootloader (fname, do_unprotect)`; `sa` is the value of the global
`start_address` at entry. -/
def stm32_bootloader (g : Globals) (pb1 pb2 : Nat → Nat) (sa : Nat)
    (file : Option (List Nat)) (do_unprotect : Bool) : Job :=
  let e := enter_loop N_RETRIES g
  if e.1 = false then { rtc := -1, g := e.2, start_address := sa } else
  let gt := stm32_get e.2 STM32_INFO_SIZE
  if gt.1 < 0 then { rtc := gt.1, g := gt.2, start_address := sa } else
  let u := unprotect_block gt.2 do_unprotect
  flash_blocks u.1 u.2 pb1 pb2 sa file

/-- The loop `while (stm32_serial_poll (1000, 0) >= 0)` of `stm32_activate_bootloader`
on the poll outcomes still to come: bytes are dropped up to the first timeout. -/
def flush_input : List (Option Nat) → List (Option Nat)
  | [] => []
  | none :: r => r
  | some _ :: r => flush_input r

/-- Model of `stm32_flash_from_local (fname)`, without the GPIO lines. -/
def stm32_flash_from_local (g : Globals) (pb1 pb2 : Nat → Nat) (sa : Nat)
    (file : Option (List Nat)) : Job :=
  stm32_bootloader { g with rx := flush_input g.rx } pb1 pb2 sa file true

/-- Model of `stm32_check_hex_file (fname)`: the value of `stm32_flash_image` is dropped;
what remains are the globals. -/
def stm32_check_hex_file (g : Globals) (pagebuf0 : Nat → Nat) (sa : Nat)
    (file : Option (List Nat)) : Globals × Nat :=
  ((stm32_flash_image g pagebuf0 sa file false).p.g,
   (stm32_flash_image g pagebuf0 sa file false).start_address)

/-- The globals when the job starts: `bootloader_info` all zero, nothing transmitted,
the poll outcomes `rx` still to come. -/
def globalsBoot (rx : List (Option Nat)) : Globals :=
  { bootloader_info := fun _ => 0, stm32_buf := fun _ => 0, tx := [], rx := rx,
    wlog := [], rlog := [] }

/-- The answer of a target to GET: ACK, the count byte, the payload, ACK. -/
def get_reply (payload : List Nat) : List (Option Nat) :=
  [some STM32_ACK, some (payload.length - 1)] ++ payload.map some ++ [some STM32_ACK]

/-- The usual GET payload: version 2.2 and the opcodes, with the classic erase. -/
def payload43 : List Nat := [0x22, 0x00, 0x01, 0x02, 0x11, 0x21, 0x31, 0x43, 0x63, 0x73, 0x82, 0x92]

/-- The usual GET payload with the extended erase. -/
def payload44 : List Nat := [0x31, 0x00, 0x01, 0x02, 0x11, 0x21, 0x31, 0x44, 0x63, 0x73, 0x82, 0x92]

/-- The next poll delivers the byte ACK. -/
def acked (rx : List (Option Nat)) : Bool :=
  match rx with
  | some c :: _ => decide (c % 256 = STM32_ACK)
  | _ => false

/-- Globals after a GET that reported the extended erase, with the given poll outcomes
still to come and nothing transmitted yet. -/
def globals44 (rx : List (Option Nat)) : Globals :=
  { globals0 rx with bootloader_info := fun i => payload44.getD i 0 }

/-- The globals with the bytes `t` put in front of the transmitted ones. -/
def retx (t : List Nat) (g : Globals) : Globals := { g with tx := t ++ g.tx }

/-- The page state with the bytes `t` put in front of the transmitted ones. -/
def Page.retx (t : List Nat) (p : Page) : Page := { p with g := STM32.retx t p.g }

/-- The state of `stm32_flash_image` with the bytes `t` put in front of the transmitted
ones. -/
def Flash.retx (t : List Nat) (s : Flash) : Flash := { s with p := s.p.retx t }

/-- The outcome of the job with the bytes `t` put in front of the transmitted ones. -/
def Job.retx (t : List Nat) (j : Job) : Job := { j with g := STM32.retx t j.g }

/-- The poll outcomes that an entry loop of `n` attempts consumes, as a predicate on the
list `A`: every outcome but the last is not ACK, and the last one is ACK or is the
outcome of attempt `n`. -/
def reentry_answers : Nat → List (Option Nat) → Bool
  | 0, A => A.isEmpty
  | _ + 1, [] => false
  | n + 1, a :: A => if acked [a] then A.isEmpty else reentry_answers n A

/-- Poll outcomes of a target that answers the entry and GET (extended erase), then
`more`. -/
def target44 (more : List (Option Nat)) : List (Option Nat) :=
  some STM32_ACK :: (get_reply payload44 ++ more)

/-- The globals after the write and the read-back of the page `q`. -/
def after_read (q : Page) : Globals :=
  (stm32_read_memory
    (stm32_write_memory q.g q.pagebuf q.pageaddr (sub32 q.pageidx q.pageaddr)).2
    q.pageaddr (sub32 q.pageidx q.pageaddr)).2

/-- The flush of the page `q` gets through the write and the read, and the bytes read
back differ from the page payload. -/
def Mismatch (q : Page) : Prop :=
  ¬ (stm32_write_memory q.g q.pagebuf q.pageaddr (sub32 q.pageidx q.pageaddr)).1 < 0 ∧
  ¬ (stm32_read_memory
      (stm32_write_memory q.g q.pagebuf q.pageaddr (sub32 q.pageidx q.pageaddr)).2
      q.pageaddr (sub32 q.pageidx q.pageaddr)).1 < 0 ∧
  slice q.pagebuf (sub32 q.pageidx q.pageaddr) ≠
    slice (after_read q).stm32_buf (sub32 q.pageidx q.pageaddr)

/-- The page state `p` is the one in which a verify mismatch at a page leaves the pass:
that page `q` with one more error, `rtc = -1`, and the link as the read-back left it. -/
def StoppedAt (e0 : Nat) (p : Page) : Prop :=
  ∃ q : Page, q.errors = e0 ∧ Mismatch q ∧
    p = { q with g := after_read q, errors := q.errors + 1, rtc := -1 }

/-- Four bytes at `0x08000000` and four bytes at `0x08000100`: two pages. -/
def hexTwoShort : List Nat :=
  bytes ":020000040800F2\n:0400000001020304F2\n:0401000005060708E1\n:00000001FF\n"

/-- A target that answers the first page of `hexTwoShort` with a read-back whose fourth
byte is 0 instead of 4, and would answer the second page without error. -/
def globalsMismatch : Globals :=
  globals0 (page_replies ([1, 2, 3, 0] ++ List.replicate 252 0xFF) ++ page_replies [5, 6, 7, 8])

/-- A page of four bytes `1, 2, 3, 4` at `0x08000000`, about to be flushed, on a link
with the poll outcomes `rx` to come. -/
def pageFour (rx : List (Option Nat)) : Page :=
  { g := globals0 rx, pagebuf := fun i => [1, 2, 3, 4].getD i 0xFF, pageaddr := 0x08000000,
    pageidx := 0x08000004, bytes_written := 256, pages_written := 1, errors := 0, rtc := 0 }

/-- A type-4 record with the offset field `0x0001`, then the End-of-File record. -/
def hexElaOffset : List Nat := bytes ":020001040800F1\n:00000001FF\n"

/-- S1 with a type-5 record with the offset field `0x0010` behind its data line. -/
def hexSlaOffset : List Nat :=
  bytes ":020000040800F2\n:080000000102030405060708D4\n:04001005080000C11E\n:00000001FF\n"

/-- A data record that declares 123 bytes (`0x7B`) and carries them, with its checksum:
257 characters. -/
def line123 : List Nat :=
  bytes (":7B00000001060B10151A1F24292E33383D42474C51565B60656A6F74797E83888D92979CA1A6ABB" ++
    "0B5BABFC4C9CED3D8DDE2E7ECF1F6FB00050A0F14191E23282D32373C41464B50555A5F64696E737" ++
    "87D82878C91969BA0A5AAAFB4B9BEC3C8CDD2D7DCE1E6EBF0F5FAFF04090E13181D22272C31363B4" ++
    "0454A4F54595E637F")

/-- The record `line123` on a line of its own, then the End-of-File record. -/
def hex123 : List Nat := line123 ++ bytes "\n:00000001FF\n"

/-- A line that declares 255 data bytes and carries one, then the End-of-File record. -/
def hexDeclares255 : List Nat := bytes ":FF00000001\n:00000001FF\n"

/-- The text without its carriage returns. -/
def strip_cr (text : List Nat) : List Nat := text.filter (fun ch => decide (ch ≠ 13))

/-- S1 with `"\r\n"` line ends and a carriage return inside its data line. -/
def hexS1Cr : List Nat :=
  bytes ":020000040800F2\r\n:0800000001020304\r05060708D4\r\n:00000001FF\r\n"

/-- A GET payload whose erase entry is `0x45`, neither of the two erase opcodes. -/
def payloadNoErase : List Nat :=
  [0x31, 0x00, 0x01, 0x02, 0x11, 0x21, 0x31, 0x45, 0x63, 0x73, 0x82, 0x92]

/-- A file that holds the End-of-File record only. -/
def hexEofOnly : List Nat := bytes ":00000001FF\n"

/-- A type-4 record and the End-of-File record: no data. -/
def hexNoData : List Nat := bytes ":020000040800F2\n:00000001FF\n"

/-- A page buffer as the stack may hold it: `0xA5`, `0x5A`, then zeros. -/
def stackbuf : Nat → Nat := fun i => [0xA5, 0x5A].getD i 0

/-- Three bytes `11 22 33` at the address `0x000000FE`, no type-4 record. -/
def hexLowEdge : List Nat := bytes ":0300FE0011223399\n:00000001FF\n"

/-- A type-4 record that declares and carries one data byte `08`, four data bytes at
offset 0, and the End-of-File record. -/
def hexEla1 : List Nat := bytes ":0100000408F3\n:0400000001020304F2\n:00000001FF\n"

/-- The same with a type-4 record without data bytes. -/
def hexEla0 : List Nat := bytes ":00000004FC\n:0400000001020304F2\n:00000001FF\n"

/-- The same with a type-4 record of three data bytes `01 08 00`. -/
def hexEla3 : List Nat := bytes ":03000004010800F0\n:0400000001020304F2\n:00000001FF\n"

/-- The character `'0'` for every character other than NUL that `htoi` reads as the
digit 0 (the non-hex characters and `'0'` itself); every other character unchanged. -/
def read_as_zero (c : Nat) : Nat := if hexval (c % 256) = 0 ∧ c ≠ 0 then 48 else c

/-- The line with `read_as_zero` applied to every character behind the first. -/
def zero_fill (l : List Nat) : List Nat := l.take 1 ++ (l.drop 1).map read_as_zero

/-- S1 with the last data byte written `G8` instead of `08`. -/
def hexNonHex : List Nat :=
  bytes ":020000040800F2\n:0800000001020304050607G8D4\n:00000001FF\n"

/-- The page base in force after the data bytes `items` have been stored, as the test
`pageidx - pageaddr >= PAGESIZE` of the data loop moves it: it starts as the marker
`0xffffffff`, and a byte whose address lies 256 or more (in `uint32_t`) from the base
in force makes its own address the base. -/
def base_after (items : List (Nat × Nat)) : Nat :=
  items.foldl (fun b x => if PAGESIZE ≤ sub32 x.1 b then x.1 else b) 0xffffffff

/-- The invariant of the line loop on the page base: the base is the one `base_after`
computes from the bytes stored so far, and every write logged since the log was `w0`
carries the base that was in force after some initial part of these bytes. -/
def Track (w0 : List (Nat × List Nat)) (s : Flash) : Prop :=
  s.p.pageaddr = base_after s.items ∧
  ∃ ext, s.p.g.wlog = w0 ++ ext ∧
    ∀ w ∈ ext, ∃ pre post, s.items = pre ++ post ∧ w.1 = base_after pre

/-! # Theorems -/

/-! ## The check pass never leaves a data loop early -/

theorem page_byte_check (a ch : Nat) (p : Page) :
    (page_byte false a ch p).2 = false ∧ (page_byte false a ch p).1.rtc = p.rtc ∧
      (page_byte false a ch p).1.g = p.g := by
  unfold page_byte flush_page
  simp only [Bool.false_eq_true, if_false]
  split_ifs <;> simp

theorem data_byte_check (drlo dri ch : Nat) (s : Flash) :
    (data_byte false drlo dri ch s).2 = false ∧ (data_byte false drlo dri ch s).1.p.rtc = s.p.rtc ∧
      (data_byte false drlo dri ch s).1.line = s.line := by
  have h := page_byte_check ((s.ulba + drlo + dri) % U32) ch s.p
  unfold data_byte
  simp only [h.1, Bool.false_eq_true, if_false]
  refine ⟨trivial, ?_, ?_⟩ <;> split_ifs <;> simp [h.2.1]

theorem data_loop_check (drlo : Nat) (data : List Nat) :
    ∀ (dri : Nat) (s : Flash) (sum : Nat),
      (data_loop false drlo data dri s sum).2.1 = false ∧
      (data_loop false drlo data dri s sum).2.2 = sum + data.sum ∧
      (data_loop false drlo data dri s sum).1.p.rtc = s.p.rtc ∧
      (data_loop false drlo data dri s sum).1.line = s.line := by
  induction data with
  | nil => intro dri s sum; simp [data_loop]
  | cons ch rest ih =>
    intro dri s sum
    have h := data_byte_check drlo dri ch s
    have h2 := ih (dri + 1) (data_byte false drlo dri ch s).1 (sum + ch)
    simp only [data_loop, h.1, Bool.false_eq_true, if_false, List.sum_cons]
    refine ⟨h2.1, ?_, ?_, ?_⟩
    · rw [h2.2.1]; omega
    · rw [h2.2.2.1, h.2.1]
    · rw [h2.2.2.2, h.2.2]

theorem checksum_fails_eq_false (sum chcksum : Nat) (h : chcksum < 256) :
    checksum_fails sum chcksum = false ↔ (sum + chcksum) % 256 = 0 := by
  unfold checksum_fails
  simp only [ne_eq, decide_not, Bool.not_eq_false', decide_eq_true_eq]
  omega

theorem data_at_lt (linebuf : List Nat) (dri : Nat) : data_at linebuf dri < 256 :=
  Nat.mod_lt _ (by norm_num)

/-- In the check pass a record of type 0, 4 or 5 that does not end the line loop has a
sum that is 0 modulo 256. -/
theorem process_record_check_ok (s : Flash) (drlo rectype sum : Nat) (data : List Nat)
    (chcksum : Nat) (hc : chcksum < 256) (htype : rectype = 0 ∨ rectype = 4 ∨ rectype = 5)
    (h : (process_record false s drlo rectype sum data chcksum).2 = false) :
    (sum + data.sum + chcksum) % 256 = 0 := by
  unfold process_record at h
  rcases htype with h0 | h0 | h0 <;> subst h0
  · have hd := data_loop_check drlo data 0 s sum
    simp only [if_true] at h
    by_cases h1 : (data_loop false drlo data 0 s sum).1.p.rtc = -1
    · simp [h1] at h
    · by_cases h2 : checksum_fails (data_loop false drlo data 0 s sum).2.2 chcksum = true
      · simp [h1, h2, Flash.fail] at h
      · rw [hd.2.1] at h2
        exact (checksum_fails_eq_false _ _ hc).1 (by simpa using h2)
  · norm_num at h
    split_ifs at h with h1 h2
    · simp [Flash.fail] at h
    · exact (checksum_fails_eq_false _ _ hc).1 (by simpa using h2)
    · simp [Flash.fail] at h
  · norm_num at h
    split_ifs at h with h1 h2
    · simp [Flash.fail] at h
    · exact (checksum_fails_eq_false _ _ hc).1 (by simpa using h2)
    · simp [Flash.fail] at h

/-- In the check pass every exit of a record of type 0, 4 or 5 through `break` has
`rtc = -1`, and the line counter is not touched. -/
theorem process_record_check_break (s : Flash) (drlo rectype sum : Nat) (data : List Nat)
    (chcksum : Nat) (htype : rectype = 0 ∨ rectype = 4 ∨ rectype = 5)
    (h : (process_record false s drlo rectype sum data chcksum).2 = true) :
    (process_record false s drlo rectype sum data chcksum).1.p.rtc = -1 ∧
    (process_record false s drlo rectype sum data chcksum).1.line = s.line := by
  unfold process_record at h ⊢
  rcases htype with h0 | h0 | h0 <;> subst h0
  · have hd := data_loop_check drlo data 0 s sum
    simp only [if_true] at h ⊢
    split_ifs at h ⊢ with h1 h2
    · exact ⟨h1, hd.2.2.2⟩
    · exact ⟨rfl, hd.2.2.2⟩
  · norm_num at h ⊢
    split_ifs at h ⊢ with h1 h2 <;> simp_all [Flash.fail]
  · norm_num at h ⊢
    split_ifs at h ⊢ with h1 h2 <;> simp_all [Flash.fail]

theorem line_checksum (s : Flash) (linebuf : List Nat) (rest : List (List Nat))
    (hcolon : linebuf.getD 0 0 = 58)
    (hlen : linebuf.length = 11 + 2 * rec_datalen linebuf)
    (htype : rec_type linebuf = 0 ∨ rec_type linebuf = 4 ∨ rec_type linebuf = 5) :
    ((process_line false s linebuf).2 = false → line_sum linebuf % 256 = 0) ∧
    (line_sum linebuf % 256 ≠ 0 →
      (line_loop false (linebuf :: rest) s).p.rtc = -1 ∧
      (line_loop false (linebuf :: rest) s).line = s.line + 1) := by
  have h11 : linebuf.length ≥ 11 := by omega
  have hl : linebuf.length = 9 + 2 * rec_datalen linebuf + 2 := by omega
  have hpl : ∀ t : Flash, process_line false t linebuf =
      process_record false t (rec_drlo linebuf) (rec_type linebuf)
        (rec_datalen linebuf + rec_addrh linebuf + rec_addrl linebuf + rec_type linebuf)
        (rec_data linebuf) (rec_chcksum linebuf) := by
    intro t
    unfold process_line
    rw [if_pos ⟨hcolon, h11⟩, if_pos hl]
  have key : ∀ t : Flash, (process_line false t linebuf).2 = false →
      line_sum linebuf % 256 = 0 := by
    intro t ht
    rw [hpl] at ht
    exact process_record_check_ok t _ _ _ _ _ (data_at_lt _ _) htype ht
  refine ⟨key s, fun hbad => ?_⟩
  have hne : ¬ linebuf.length = 0 := by omega
  simp only [line_loop, hne, if_false]
  have htl : (s.count_line linebuf.length).line = s.line + 1 := rfl
  cases hb : (process_line false (s.count_line linebuf.length) linebuf).2 with
  | false => exact absurd (key _ hb) hbad
  | true =>
    simp only [if_true]
    rw [hpl] at hb ⊢
    have := process_record_check_break _ _ _ _ _ _ htype hb
    exact ⟨this.1, by rw [this.2, htl]⟩

/-! ## Line checksum (C10) -/

/-- Witness of `line_checksum` on scenario S4: the data line of S1 with checksum byte
`D5` is a length-consistent type-0 line whose sum is not 0 modulo 256; the check pass
fails there, at line 2. -/
theorem line_checksum_witness :
    lineS4.getD 0 0 = 58 ∧ lineS4.length = 11 + 2 * rec_datalen lineS4 ∧
    rec_type lineS4 = 0 ∧ line_sum lineS4 % 256 ≠ 0 ∧
    (line_loop false [lineS4, bytes ":00000001FF", []]
        (line_loop false [bytes ":020000040800F2"]
          (Flash.init (globals0 []) (fun _ => 0) 0))).p.rtc = -1 ∧
    (line_loop false [lineS4, bytes ":00000001FF", []]
        (line_loop false [bytes ":020000040800F2"]
          (Flash.init (globals0 []) (fun _ => 0) 0))).line = 1 + 1 ∧
    (check_pass (globals0 []) (fun _ => 0) hexS4).p.rtc = -1 ∧
    (check_pass (globals0 []) (fun _ => 0) hexS4).line = 2 :=
  ⟨by decide, by decide, by decide, by decide,
   ((line_checksum (line_loop false [bytes ":020000040800F2"]
      (Flash.init (globals0 []) (fun _ => 0) 0)) lineS4 [bytes ":00000001FF", []]
      (by decide) (by decide) (Or.inl (by decide))).2 (by decide)).1,
   ((line_checksum (line_loop false [bytes ":020000040800F2"]
      (Flash.init (globals0 []) (fun _ => 0) 0)) lineS4 [bytes ":00000001FF", []]
      (by decide) (by decide) (Or.inl (by decide))).2 (by decide)).2,
   by decide, by decide⟩

/-! ## Evaluations at concrete files -/

/-- C2, at the 256-aligned address 0: the file has the shape of S1 with upper address
`0x0000`. The check pass accepts it, but no page is opened for the eight bytes: they
land at `pagebuf[1..8]`, and the EOF flush sends one write of 9 bytes to address
`0xFFFFFFFF` whose first byte is the uninitialised `pagebuf[0]` (here 0), instead of
`31 CE, 00 00 00 00 00, 07 01 .. 08 0F`. For S1 itself, at `0x08000000`, the trace is
the one of the scenario (followed by the read command of the verify step). -/
theorem single_page_at_zero :
    (check_pass (globals0 []) (fun _ => 0) hexZero).p.rtc = 0 ∧
    (write_pass (globals0 (page_replies [0, 1, 2, 3, 4, 5, 6, 7, 8])) (fun _ => 0) hexZero).p.g.tx =
      [0x31, 0xCE, 0xFF, 0xFF, 0xFF, 0xFF, 0x00, 0x08, 0, 1, 2, 3, 4, 5, 6, 7, 8, 0x00,
       0x11, 0xEE, 0xFF, 0xFF, 0xFF, 0xFF, 0x00, 0x08, 0xF7] ∧
    (write_pass (globals0 (page_replies [1, 2, 3, 4, 5, 6, 7, 8])) (fun _ => 0) hexS1).p.g.tx =
      [0x31, 0xCE, 0x08, 0x00, 0x00, 0x00, 0x08, 0x07, 1, 2, 3, 4, 5, 6, 7, 8, 0x0F,
       0x11, 0xEE, 0x08, 0x00, 0x00, 0x00, 0x08, 0x07, 0xF8] := by
  decide

/-- C4, scenario S3: 17 data bytes at `0x08000000` are written as one write of length
17 (length byte `0x10` on the wire), not 20; nothing is rounded up to a multiple of 4. -/
theorem misaligned_tail_not_rounded :
    (write_pass (globals0 (page_replies (List.range' 1 17))) (fun _ => 0) hexS3).p.g.wlog =
      [(0x08000000, List.range' 1 17)] ∧
    (write_pass (globals0 (page_replies (List.range' 1 17))) (fun _ => 0) hexS3).p.g.tx.take 8 =
      [0x31, 0xCE, 0x08, 0x00, 0x00, 0x00, 0x08, 0x10] ∧
    (write_pass (globals0 (page_replies (List.range' 1 17))) (fun _ => 0) hexS3).p.rtc = 0 := by
  decide

/-- C6: a file whose last page holds exactly one data byte (here the only byte, at
`0x08000000`). The check pass accepts the file and the byte is stored in the page
buffer, but at the EOF record `pageidx - pageaddr` is 0, so nothing is flushed: no
byte is transmitted, no write is issued, and the write pass still returns 0. -/
theorem one_byte_page_not_flushed :
    (check_pass (globals0 []) (fun _ => 0) hexOneByte).p.rtc = 0 ∧
    (write_pass (globals0 (page_replies [1])) (fun _ => 0) hexOneByte).items = [(0x08000000, 1)] ∧
    (write_pass (globals0 (page_replies [1])) (fun _ => 0) hexOneByte).p.g.wlog = [] ∧
    (write_pass (globals0 (page_replies [1])) (fun _ => 0) hexOneByte).p.g.tx = [] ∧
    (write_pass (globals0 (page_replies [1])) (fun _ => 0) hexOneByte).p.pages_written = 0 ∧
    (write_pass (globals0 (page_replies [1])) (fun _ => 0) hexOneByte).p.rtc = 0 := by
  decide

/-- C7: four bytes at `0x08000000`, then four bytes at `0x08000200`. The check pass
accepts the file. In the write pass the first byte of the second record asks for a
flush of `pageidx - pageaddr = 0x200` bytes, which `stm32_write_memory` refuses: the
write pass returns `-1` without transmitting a byte, although every poll would have
been answered as an error-free target answers. -/
theorem gap_fails_write_pass :
    (check_pass (globals0 []) (fun _ => 0) hexGap).p.rtc = 0 ∧
    (write_pass (globals0 (page_replies [1, 2, 3, 4] ++ page_replies [5, 6, 7, 8])) (fun _ => 0)
      hexGap).p.rtc = -1 ∧
    (write_pass (globals0 (page_replies [1, 2, 3, 4] ++ page_replies [5, 6, 7, 8])) (fun _ => 0)
      hexGap).p.g.tx = [] ∧
    (write_pass (globals0 (page_replies [1, 2, 3, 4] ++ page_replies [5, 6, 7, 8])) (fun _ => 0)
      hexGap).p.g.rx = page_replies [1, 2, 3, 4] ++ page_replies [5, 6, 7, 8] := by
  decide

/-- C8: four bytes at address 0. No page is opened (and the buffer is not filled with
`0xFF`) for a first byte below `0xFF`; the EOF flush writes 5 bytes to `0xFFFFFFFF`,
and payload position 0, which no data record addressed, holds the uninitialised
`pagebuf[0]`, not `0xFF`: 0 when the stack held zeros, `0xA5` when it held `0xA5`. -/
theorem unaddressed_byte_not_filled :
    (check_pass (globals0 []) (fun _ => 0) hexLow).p.rtc = 0 ∧
    (write_pass (globals0 (page_replies [0, 1, 2, 3, 4])) (fun _ => 0) hexLow).items =
      [(0, 1), (1, 2), (2, 3), (3, 4)] ∧
    (write_pass (globals0 (page_replies [0, 1, 2, 3, 4])) (fun _ => 0) hexLow).p.g.wlog =
      [(0xFFFFFFFF, [0, 1, 2, 3, 4])] ∧
    (write_pass (globals0 (page_replies [0xA5, 1, 2, 3, 4])) (fun _ => 0xA5) hexLow).p.g.wlog =
      [(0xFFFFFFFF, [0xA5, 1, 2, 3, 4])] := by
  decide

/-- C3, counterexample: four bytes at `0x08000004` are written with the write address
`0x08000004`, which is not a multiple of 256. -/
theorem write_address_not_aligned :
    (write_pass (globals0 (page_replies [1, 2, 3, 4])) (fun _ => 0) hexUnaligned).p.g.wlog =
      [(0x08000004, [1, 2, 3, 4])] ∧ 0x08000004 % 256 ≠ 0 := by
  decide

/-- C9, counterexample: for scenario S2 the write pass emits one write, at the page
base `0x080000F8`, and not the two writes at `0x08000000` and `0x08000100`. -/
theorem cross_page_record_not_split :
    (write_pass (globals0 (page_replies (List.range' 1 16))) (fun _ => 0) hexS2).p.g.wlog.map
      Prod.fst = [0x080000F8] ∧
    (write_pass (globals0 (page_replies (List.range' 1 16))) (fun _ => 0) hexS2).p.g.wlog.map
      Prod.fst ≠ [0x08000000, 0x08000100] := by
  decide

/-! ## Frame lemmas for the serial primitives -/

@[simp] theorem slice_length (a : Nat → Nat) (n : Nat) : (slice a n).length = n := by
  simp [slice]

@[simp] theorem poll_wlog (g : Globals) : (stm32_serial_poll g).2.wlog = g.wlog := by
  unfold stm32_serial_poll; split <;> rfl

@[simp] theorem poll_info (g : Globals) :
    (stm32_serial_poll g).2.bootloader_info = g.bootloader_info := by
  unfold stm32_serial_poll; split <;> rfl

@[simp] theorem ack_wlog (g : Globals) : (wait_for_ack g).2.wlog = g.wlog := by
  unfold wait_for_ack; simp only []; split_ifs <;> simp

@[simp] theorem ack_info (g : Globals) :
    (wait_for_ack g).2.bootloader_info = g.bootloader_info := by
  unfold wait_for_ack; simp only []; split_ifs <;> simp

@[simp] theorem write_cmd_wlog (g : Globals) (c : Nat) : (stm32_write_cmd g c).wlog = g.wlog := rfl

@[simp] theorem write_cmd_info (g : Globals) (c : Nat) :
    (stm32_write_cmd g c).bootloader_info = g.bootloader_info := rfl

@[simp] theorem write_cmd_rx (g : Globals) (c : Nat) : (stm32_write_cmd g c).rx = g.rx := rfl

theorem readLoop_frame (n : Nat) : ∀ (i : Nat) (g : Globals),
    (readLoop n i g).2.wlog = g.wlog ∧ (readLoop n i g).2.bootloader_info = g.bootloader_info := by
  induction n with
  | zero => intro i g; simp [readLoop]
  | succ n ih =>
    intro i g
    simp only [readLoop]
    split_ifs with h1 h2
    · simp
    · have := ih (i + 1) { (stm32_serial_poll g).2 with
        stm32_buf := upd (stm32_serial_poll g).2.stm32_buf i (stm32_serial_poll g).1.toNat }
      simpa using this
    · have := ih (i + 1) (stm32_serial_poll g).2
      simpa using this

theorem read_memory_frame (g : Globals) (address len : Nat) :
    (stm32_read_memory g address len).2.wlog = g.wlog ∧
    (stm32_read_memory g address len).2.bootloader_info = g.bootloader_info := by
  unfold stm32_read_memory
  simp only []
  split_ifs <;> simp [serial_write_buf, set_address, readLoop_frame]

theorem write_memory_frame (g : Globals) (image : Nat → Nat) (address len : Nat) :
    (stm32_write_memory g image address len).2.bootloader_info = g.bootloader_info ∧
    (stm32_write_memory g image address len).2.wlog =
      if len > 256 then g.wlog else g.wlog ++ [(address, slice image len)] := by
  unfold stm32_write_memory
  simp only []
  split_ifs <;> simp [serial_write_buf, set_address]

/-! ## Where the page functions log writes -/

theorem write_verify_fields (p : Page) :
    (write_verify p).1.pageaddr = p.pageaddr ∧ (write_verify p).1.pageidx = p.pageidx ∧
    (write_verify p).1.pagebuf = p.pagebuf ∧
    (write_verify p).1.g.wlog =
      if sub32 p.pageidx p.pageaddr > 256 then p.g.wlog
      else p.g.wlog ++ [(p.pageaddr, slice p.pagebuf (sub32 p.pageidx p.pageaddr))] := by
  have hw := write_memory_frame p.g p.pagebuf p.pageaddr (sub32 p.pageidx p.pageaddr)
  have hr := read_memory_frame (stm32_write_memory p.g p.pagebuf p.pageaddr
    (sub32 p.pageidx p.pageaddr)).2 p.pageaddr (sub32 p.pageidx p.pageaddr)
  unfold write_verify
  simp only []
  split_ifs <;> simp_all

/-- A flush logs at most one write; it carries the page base and as many bytes as
`pageidx - pageaddr`, which is then at most 256. -/
theorem write_verify_log (p : Page) :
    ∃ ext, (write_verify p).1.g.wlog = p.g.wlog ++ ext ∧
      ∀ w ∈ ext, w.1 = p.pageaddr ∧ w.2.length = sub32 p.pageidx p.pageaddr ∧
        w.2.length ≤ 256 := by
  rw [(write_verify_fields p).2.2.2]
  split_ifs with h
  · exact ⟨[], by simp, by simp⟩
  · refine ⟨[(p.pageaddr, slice p.pagebuf (sub32 p.pageidx p.pageaddr))], rfl, ?_⟩
    intro w hw
    simp only [List.mem_singleton] at hw
    subst hw
    simp only [slice_length, true_and]
    omega

theorem flush_page_log (do_flash : Bool) (p : Page) :
    (flush_page do_flash p).1.pageaddr = p.pageaddr ∧
    (flush_page do_flash p).1.pageidx = p.pageidx ∧
    ∃ ext, (flush_page do_flash p).1.g.wlog = p.g.wlog ++ ext ∧
      ∀ w ∈ ext, w.1 = p.pageaddr ∧ w.2.length = sub32 p.pageidx p.pageaddr ∧
        w.2.length ≤ 256 := by
  have hf := write_verify_fields p
  have hl := write_verify_log p
  unfold flush_page
  cases do_flash with
  | false => exact ⟨rfl, rfl, [], by simp, by simp⟩
  | true =>
    simp only [if_true]
    split_ifs
    · exact ⟨hf.1, hf.2.1, hl⟩
    · exact ⟨hf.1, hf.2.1, hl⟩

theorem sub32_self (a : Nat) : sub32 a a = 0 := by
  unfold sub32 U32; omega

/-- One data byte: every write logged on the way carries the old page base and exactly
256 bytes; without `break` the byte lies in the window of the page, whose base is the
old one or the address of this byte. -/
theorem page_byte_log (do_flash : Bool) (a ch : Nat) (p : Page) :
    (∃ ext, (page_byte do_flash a ch p).1.g.wlog = p.g.wlog ++ ext ∧
      ∀ w ∈ ext, w.1 = p.pageaddr ∧ w.2.length = 256) ∧
    ((page_byte do_flash a ch p).2 = false →
      InWindow (page_byte do_flash a ch p).1 ∧
      ((page_byte do_flash a ch p).1.pageaddr = p.pageaddr ∨
        (page_byte do_flash a ch p).1.pageaddr = a)) ∧
    ((page_byte do_flash a ch p).2 = true → (page_byte do_flash a ch p).1.pageaddr = p.pageaddr) := by
  obtain ⟨hfa, hfi, ext, hext, hgood⟩ := flush_page_log do_flash { p with pageidx := a }
  unfold page_byte InWindow
  simp only [PAGESIZE] at *
  by_cases hwin : sub32 a p.pageaddr ≥ 256
  · simp only [hwin, if_true]
    by_cases hmark : p.pageaddr = 0xffffffff
    · simp only [hmark, ne_eq, not_true_eq_false, if_false, Bool.false_eq_true]
      refine ⟨⟨[], by simp, by simp⟩, ?_, ?_⟩ <;> simp [sub32_self]
    · simp only [ne_eq, hmark, not_false_eq_true, if_true]
      have hgood' : ∀ w ∈ ext, w.1 = p.pageaddr ∧ w.2.length = 256 := by
        intro w hw
        obtain ⟨h1, h2, h3⟩ := hgood w hw
        exact ⟨h1, by omega⟩
      by_cases hbrk : (flush_page do_flash { p with pageidx := a }).2 = true
      · simp only [hbrk, if_true]
        exact ⟨⟨ext, hext, hgood'⟩, fun h => absurd h (by simp), fun _ => hfa⟩
      · simp only [hbrk, if_false, Bool.false_eq_true]
        refine ⟨⟨ext, hext, hgood'⟩, ?_, ?_⟩ <;> simp [sub32_self, hfi]
  · simp only [hwin, if_false, Bool.false_eq_true]
    refine ⟨⟨[], by simp, by simp⟩, ?_, ?_⟩
    · intro _
      exact ⟨by simpa using hwin, by simp⟩
    · simp

/-- The EOF flush, from a state whose current byte lies in the window of the page:
every write logged carries the page base and between 1 and 256 bytes. -/
theorem eof_flush_log (do_flash : Bool) (p : Page) (hwin : InWindow p) :
    (eof_flush do_flash p).pageaddr = p.pageaddr ∧
    ∃ ext, (eof_flush do_flash p).g.wlog = p.g.wlog ++ ext ∧
      ∀ w ∈ ext, w.1 = p.pageaddr ∧ 1 ≤ w.2.length ∧ w.2.length ≤ 256 := by
  unfold InWindow PAGESIZE at hwin
  unfold eof_flush
  by_cases hpos : sub32 p.pageidx p.pageaddr > 0
  · simp only [hpos, if_true]
    have hf := write_verify_fields { p with pageidx := (p.pageidx + 1) % U32 }
    obtain ⟨ext, hext, hgood⟩ := write_verify_log { p with pageidx := (p.pageidx + 1) % U32 }
    have hlen : sub32 ((p.pageidx + 1) % U32) p.pageaddr = sub32 p.pageidx p.pageaddr + 1 := by
      unfold sub32 U32 at *; omega
    have hgood' : ∀ w ∈ ext, w.1 = p.pageaddr ∧ 1 ≤ w.2.length ∧ w.2.length ≤ 256 := by
      intro w hw
      obtain ⟨h1, h2, h3⟩ := hgood w hw
      simp only at h1 h2
      exact ⟨h1, by omega, h3⟩
    cases do_flash with
    | false => exact ⟨rfl, [], by simp, by simp⟩
    | true =>
      simp only [if_true]
      split_ifs
      · exact ⟨hf.1, ext, hext, hgood'⟩
      · exact ⟨hf.1, ext, hext, hgood'⟩
  · simp only [hpos, if_false]
    exact ⟨trivial, [], by simp, by simp⟩

/-! ## The invariant of the line loop -/

theorem GoodWrite.mono {items its : List (Nat × Nat)} {w : Nat × List Nat}
    (h : GoodWrite items w) : GoodWrite (items ++ its) w := by
  obtain ⟨h1, h2, h3⟩ := h
  refine ⟨h1, h2, ?_⟩
  rcases h3 with h3 | ⟨c, hc⟩
  · exact Or.inl h3
  · exact Or.inr ⟨c, List.mem_append_left _ hc⟩

theorem Reach.refl {s : Flash} (hb : BaseKnown s) : Reach s s :=
  ⟨⟨[], by simp⟩, ⟨[], by simp, by simp⟩, hb⟩

theorem Reach.trans {s t u : Flash} (h1 : Reach s t) (h2 : Reach t u) : Reach s u := by
  obtain ⟨⟨i1, hi1⟩, ⟨e1, he1, hg1⟩, _⟩ := h1
  obtain ⟨⟨i2, hi2⟩, ⟨e2, he2, hg2⟩, hb2⟩ := h2
  refine ⟨⟨i1 ++ i2, by rw [hi2, hi1, List.append_assoc]⟩,
    ⟨e1 ++ e2, by rw [he2, he1, List.append_assoc], ?_⟩, hb2⟩
  intro w hw
  rcases List.mem_append.1 hw with hw | hw
  · rw [hi2]; exact (hg1 w hw).mono
  · exact hg2 w hw

/-- A step that leaves the stored bytes, the logged writes and the page base alone. -/
theorem Reach.of_same {s t : Flash} (hb : BaseKnown s) (h1 : t.items = s.items)
    (h2 : t.p.g.wlog = s.p.g.wlog) (h3 : t.p.pageaddr = s.p.pageaddr) : Reach s t := by
  refine ⟨⟨[], by simp [h1]⟩, ⟨[], by simp [h2], by simp⟩, ?_⟩
  unfold BaseKnown at *
  rw [h3, h1]; exact hb

theorem data_byte_fields (do_flash : Bool) (drlo dri ch : Nat) (s : Flash) :
    (data_byte do_flash drlo dri ch s).2 = (page_byte do_flash ((s.ulba + drlo + dri) % U32) ch s.p).2 ∧
    (data_byte do_flash drlo dri ch s).1.p = (page_byte do_flash ((s.ulba + drlo + dri) % U32) ch s.p).1 ∧
    (data_byte do_flash drlo dri ch s).1.items =
      (if (page_byte do_flash ((s.ulba + drlo + dri) % U32) ch s.p).2 then s.items
       else s.items ++ [((s.ulba + drlo + dri) % U32, ch)]) ∧
    (data_byte do_flash drlo dri ch s).1.ulba = s.ulba ∧
    (data_byte do_flash drlo dri ch s).1.eof_record_found = s.eof_record_found ∧
    (data_byte do_flash drlo dri ch s).1.line = s.line := by
  unfold data_byte
  simp only []
  split_ifs <;> simp_all

theorem data_byte_reach (do_flash : Bool) (drlo dri ch : Nat) (s : Flash) (hb : BaseKnown s) :
    Reach s (data_byte do_flash drlo dri ch s).1 ∧
    ((data_byte do_flash drlo dri ch s).2 = false → InWindow (data_byte do_flash drlo dri ch s).1.p) := by
  obtain ⟨h2, hp, hi, -, -, -⟩ := data_byte_fields do_flash drlo dri ch s
  obtain ⟨⟨ext, hext, hgood⟩, hnb, hbr⟩ :=
    page_byte_log do_flash ((s.ulba + drlo + dri) % U32) ch s.p
  have hgw : ∀ w ∈ ext, GoodWrite s.items w := by
    intro w hw
    obtain ⟨ha, hl⟩ := hgood w hw
    refine ⟨by omega, by omega, ?_⟩
    rw [ha]; exact hb
  cases hbrk : (page_byte do_flash ((s.ulba + drlo + dri) % U32) ch s.p).2 with
  | true =>
    rw [hbrk] at h2 hi
    simp only [if_true] at hi
    refine ⟨⟨⟨[], by simp [hi]⟩, ⟨ext, by rw [hp, hext], ?_⟩, ?_⟩, ?_⟩
    · rw [hi]; exact hgw
    · unfold BaseKnown; rw [hp, hi, hbr hbrk]; exact hb
    · rw [h2]; simp
  | false =>
    rw [hbrk] at h2 hi
    simp only [Bool.false_eq_true, if_false] at hi
    obtain ⟨hwin, hbase⟩ := hnb hbrk
    refine ⟨⟨⟨_, hi⟩, ⟨ext, by rw [hp, hext], ?_⟩, ?_⟩, ?_⟩
    · intro w hw; rw [hi]; exact (hgw w hw).mono
    · unfold BaseKnown; rw [hp, hi]
      rcases hbase with hbase | hbase
      · rw [hbase]
        rcases hb with hb | ⟨c, hc⟩
        · exact Or.inl hb
        · exact Or.inr ⟨c, List.mem_append_left _ hc⟩
      · rw [hbase]
        exact Or.inr ⟨ch, by simp⟩
    · intro _; rw [hp]; exact hwin

theorem data_loop_reach (do_flash : Bool) (drlo : Nat) (data : List Nat) :
    ∀ (dri : Nat) (s : Flash) (sum : Nat), BaseKnown s → InWindow s.p →
      Reach s (data_loop do_flash drlo data dri s sum).1 ∧
      ((data_loop do_flash drlo data dri s sum).2.1 = false →
        InWindow (data_loop do_flash drlo data dri s sum).1.p) := by
  induction data with
  | nil => intro dri s sum hb hw; exact ⟨Reach.refl hb, fun _ => hw⟩
  | cons ch rest ih =>
    intro dri s sum hb hw
    obtain ⟨hr, hwin⟩ := data_byte_reach do_flash drlo dri ch s hb
    simp only [data_loop]
    cases hbrk : (data_byte do_flash drlo dri ch s).2 with
    | true => simp only [if_true]; exact ⟨hr, by simp⟩
    | false =>
      simp only [Bool.false_eq_true, if_false]
      obtain ⟨hr2, hwin2⟩ := ih (dri + 1) (data_byte do_flash drlo dri ch s).1 (sum + ch) hr.2.2
        (hwin hbrk)
      exact ⟨hr.trans hr2, hwin2⟩

/-! ## `break` and `rtc` -/

theorem write_verify_rtc (p : Page) :
    ((write_verify p).2 = true → (write_verify p).1.rtc = -1) ∧
    ((write_verify p).2 = false → (write_verify p).1.rtc = p.rtc) := by
  unfold write_verify
  simp only []
  split_ifs <;> simp

theorem flush_page_rtc (do_flash : Bool) (p : Page) :
    ((flush_page do_flash p).2 = true → (flush_page do_flash p).1.rtc = -1) ∧
    ((flush_page do_flash p).2 = false → (flush_page do_flash p).1.rtc = p.rtc) := by
  have h := write_verify_rtc p
  unfold flush_page
  simp only []
  split_ifs with h1 h2
  · exact ⟨fun _ => h.1 h2, fun h3 => absurd h2 (by simp [h3])⟩
  · refine ⟨by simp, fun _ => ?_⟩
    simpa using h.2 (by simpa using h2)
  · simp

theorem page_byte_in (do_flash : Bool) (a ch : Nat) (p : Page)
    (h : sub32 a p.pageaddr < PAGESIZE) :
    page_byte do_flash a ch p =
      ({ p with pageidx := a, pagebuf := upd p.pagebuf (sub32 a p.pageaddr) ch }, false) := by
  unfold page_byte
  simp [Nat.not_le.2 h]

theorem page_byte_first (do_flash : Bool) (a ch : Nat) (p : Page)
    (h : PAGESIZE ≤ sub32 a p.pageaddr) (hm : p.pageaddr = 0xffffffff) :
    page_byte do_flash a ch p =
      ({ p with pageidx := a, pageaddr := a, pagebuf := upd (fun _ => 0xFF) (sub32 a a) ch },
        false) := by
  have h' : PAGESIZE ≤ sub32 a 4294967295 := by rw [hm] at h; exact h
  unfold page_byte
  simp [h', hm]

theorem page_byte_cross_fail (do_flash : Bool) (a ch : Nat) (p : Page)
    (h : PAGESIZE ≤ sub32 a p.pageaddr) (hm : p.pageaddr ≠ 0xffffffff)
    (hf : (flush_page do_flash { p with pageidx := a }).2 = true) :
    page_byte do_flash a ch p = flush_page do_flash { p with pageidx := a } := by
  unfold page_byte
  simp [h, hm, hf]

theorem page_byte_cross_ok (do_flash : Bool) (a ch : Nat) (p : Page)
    (h : PAGESIZE ≤ sub32 a p.pageaddr) (hm : p.pageaddr ≠ 0xffffffff)
    (hf : (flush_page do_flash { p with pageidx := a }).2 = false) :
    page_byte do_flash a ch p =
      ({ (flush_page do_flash { p with pageidx := a }).1 with
          pageaddr := a,
          pagebuf := upd (fun _ => 0xFF)
            (sub32 (flush_page do_flash { p with pageidx := a }).1.pageidx a) ch }, false) := by
  unfold page_byte
  simp [h, hm, hf]

theorem page_byte_rtc (do_flash : Bool) (a ch : Nat) (p : Page) :
    ((page_byte do_flash a ch p).2 = true → (page_byte do_flash a ch p).1.rtc = -1) ∧
    ((page_byte do_flash a ch p).2 = false → (page_byte do_flash a ch p).1.rtc = p.rtc) := by
  have h := flush_page_rtc do_flash { p with pageidx := a }
  by_cases h1 : sub32 a p.pageaddr < PAGESIZE
  · rw [page_byte_in do_flash a ch p h1]; simp
  · have h1' : PAGESIZE ≤ sub32 a p.pageaddr := Nat.not_lt.1 h1
    by_cases hm : p.pageaddr = 0xffffffff
    · rw [page_byte_first do_flash a ch p h1' hm]; simp
    · cases hf : (flush_page do_flash { p with pageidx := a }).2 with
      | true =>
        rw [page_byte_cross_fail do_flash a ch p h1' hm hf]
        exact ⟨fun _ => h.1 hf, fun h5 => absurd hf (by simp [h5])⟩
      | false =>
        rw [page_byte_cross_ok do_flash a ch p h1' hm hf]
        exact ⟨by simp, fun _ => h.2 hf⟩

theorem data_loop_rtc (do_flash : Bool) (drlo : Nat) (data : List Nat) :
    ∀ (dri : Nat) (s : Flash) (sum : Nat),
      ((data_loop do_flash drlo data dri s sum).2.1 = true →
        (data_loop do_flash drlo data dri s sum).1.p.rtc = -1) ∧
      ((data_loop do_flash drlo data dri s sum).2.1 = false →
        (data_loop do_flash drlo data dri s sum).1.p.rtc = s.p.rtc ∧
        (data_loop do_flash drlo data dri s sum).2.2 = sum + data.sum) := by
  induction data with
  | nil => intro dri s sum; simp [data_loop]
  | cons ch rest ih =>
    intro dri s sum
    obtain ⟨h2, hp, -⟩ := data_byte_fields do_flash drlo dri ch s
    have hr := page_byte_rtc do_flash ((s.ulba + drlo + dri) % U32) ch s.p
    simp only [data_loop]
    cases hbrk : (data_byte do_flash drlo dri ch s).2 with
    | true =>
      simp only [if_true]
      exact ⟨fun _ => by rw [hp]; exact hr.1 (by rw [← h2]; exact hbrk), by simp⟩
    | false =>
      simp only [Bool.false_eq_true, if_false]
      have ih' := ih (dri + 1) (data_byte do_flash drlo dri ch s).1 (sum + ch)
      refine ⟨ih'.1, fun h => ?_⟩
      obtain ⟨h3, h4⟩ := ih'.2 h
      refine ⟨?_, ?_⟩
      · rw [h3, hp]; exact hr.2 (by rw [← h2]; exact hbrk)
      · rw [h4, List.sum_cons]; omega

theorem fail_reach {s t : Flash} (h : Reach s t) : Reach s t.fail.1 :=
  h.trans (Reach.of_same h.2.2 rfl rfl rfl)

theorem eof_record_reach (do_flash : Bool) (s : Flash) (hb : BaseKnown s) (hw : InWindow s.p) :
    Reach s (eof_record do_flash s) := by
  obtain ⟨ha, ext, hext, hgood⟩ := eof_flush_log do_flash s.p hw
  refine ⟨⟨[], by simp [eof_record]⟩, ⟨ext, hext, ?_⟩, ?_⟩
  · intro w hw'
    obtain ⟨h1, h2, h3⟩ := hgood w hw'
    refine ⟨h2, h3, ?_⟩
    rw [h1]; exact hb
  · unfold BaseKnown
    show (eof_flush do_flash s.p).pageaddr = _ ∨ ∃ c, ((eof_flush do_flash s.p).pageaddr, c) ∈ s.items
    rw [ha]; exact hb

/-! ## The branches of `process_record` -/

theorem process_record_data (do_flash : Bool) (s : Flash) (drlo sum : Nat) (data : List Nat)
    (chcksum : Nat) :
    process_record do_flash s drlo 0 sum data chcksum =
      if (data_loop do_flash drlo data 0 s sum).1.p.rtc = -1 then
        ((data_loop do_flash drlo data 0 s sum).1, true)
      else if checksum_fails (data_loop do_flash drlo data 0 s sum).2.2 chcksum then
        (data_loop do_flash drlo data 0 s sum).1.fail
      else ((data_loop do_flash drlo data 0 s sum).1, false) := rfl

theorem process_record_eof (do_flash : Bool) (s : Flash) (drlo sum : Nat) (data : List Nat)
    (chcksum : Nat) :
    process_record do_flash s drlo 1 sum data chcksum = (eof_record do_flash s, true) := rfl

theorem process_record_ela (do_flash : Bool) (s : Flash) (drlo sum : Nat) (data : List Nat)
    (chcksum : Nat) :
    process_record do_flash s drlo 4 sum data chcksum =
      if drlo = 0 then
        if checksum_fails (sum + data.sum) chcksum then
          Flash.fail { s with ulba := (shift_in data <<< 16) % U32 }
        else ({ s with ulba := (shift_in data <<< 16) % U32 }, false)
      else s.fail := rfl

theorem process_record_sla (do_flash : Bool) (s : Flash) (drlo sum : Nat) (data : List Nat)
    (chcksum : Nat) :
    process_record do_flash s drlo 5 sum data chcksum =
      if drlo = 0 then
        if checksum_fails (sum + data.sum) chcksum then
          Flash.fail { s with start_address := shift_in data }
        else ({ s with start_address := shift_in data }, false)
      else s.fail := rfl

theorem process_record_other (do_flash : Bool) (s : Flash) (drlo rectype sum : Nat)
    (data : List Nat) (chcksum : Nat) (h0 : rectype ≠ 0) (h1 : rectype ≠ 1) (h4 : rectype ≠ 4)
    (h5 : rectype ≠ 5) :
    process_record do_flash s drlo rectype sum data chcksum = s.fail := by
  unfold process_record
  simp [h0, h1, h4, h5]

theorem process_record_reach (do_flash : Bool) (s : Flash) (drlo rectype sum : Nat)
    (data : List Nat) (chcksum : Nat) (hb : BaseKnown s) (hw : InWindow s.p) :
    Reach s (process_record do_flash s drlo rectype sum data chcksum).1 ∧
    ((process_record do_flash s drlo rectype sum data chcksum).2 = false →
      InWindow (process_record do_flash s drlo rectype sum data chcksum).1.p) := by
  have hself : Reach s s := Reach.refl hb
  by_cases h0 : rectype = 0
  · subst h0
    obtain ⟨hd, hdw⟩ := data_loop_reach do_flash drlo data 0 s sum hb hw
    have hdr := (data_loop_rtc do_flash drlo data 0 s sum).1
    rw [process_record_data]
    split_ifs with h1 h2
    · exact ⟨hd, fun h => absurd h (by simp)⟩
    · exact ⟨fail_reach hd, fun h => absurd h (by simp [Flash.fail])⟩
    · refine ⟨hd, fun _ => hdw ?_⟩
      cases hb' : (data_loop do_flash drlo data 0 s sum).2.1 with
      | false => rfl
      | true => exact absurd (hdr hb') h1
  by_cases h1 : rectype = 1
  · subst h1
    rw [process_record_eof]
    exact ⟨eof_record_reach do_flash s hb hw, fun h => absurd h (by simp)⟩
  by_cases h4 : rectype = 4
  · subst h4
    have hulba : Reach s { s with ulba := (shift_in data <<< 16) % U32 } :=
      Reach.of_same hb rfl rfl rfl
    rw [process_record_ela]
    split_ifs
    · exact ⟨fail_reach hulba, fun h => absurd h (by simp [Flash.fail])⟩
    · exact ⟨hulba, fun _ => hw⟩
    · exact ⟨fail_reach hself, fun h => absurd h (by simp [Flash.fail])⟩
  by_cases h5 : rectype = 5
  · subst h5
    have hstart : Reach s { s with start_address := shift_in data } :=
      Reach.of_same hb rfl rfl rfl
    rw [process_record_sla]
    split_ifs
    · exact ⟨fail_reach hstart, fun h => absurd h (by simp [Flash.fail])⟩
    · exact ⟨hstart, fun _ => hw⟩
    · exact ⟨fail_reach hself, fun h => absurd h (by simp [Flash.fail])⟩
  rw [process_record_other do_flash s drlo rectype sum data chcksum h0 h1 h4 h5]
  exact ⟨fail_reach hself, fun h => absurd h (by simp [Flash.fail])⟩

theorem process_line_reach (do_flash : Bool) (s : Flash) (linebuf : List Nat)
    (hb : BaseKnown s) (hw : InWindow s.p) :
    Reach s (process_line do_flash s linebuf).1 ∧
    ((process_line do_flash s linebuf).2 = false →
      InWindow (process_line do_flash s linebuf).1.p) := by
  unfold process_line
  split_ifs
  · exact process_record_reach do_flash s _ _ _ _ _ hb hw
  · exact ⟨fail_reach (Reach.refl hb), fun h => absurd h (by simp [Flash.fail])⟩
  · exact ⟨fail_reach (Reach.refl hb), fun h => absurd h (by simp [Flash.fail])⟩

theorem line_loop_reach (do_flash : Bool) (lines : List (List Nat)) :
    ∀ s : Flash, BaseKnown s → InWindow s.p → Reach s (line_loop do_flash lines s) := by
  induction lines with
  | nil => intro s hb _; exact Reach.refl hb
  | cons linebuf rest ih =>
    intro s hb hw
    have hc : Reach s (s.count_line linebuf.length) := Reach.of_same hb rfl rfl rfl
    obtain ⟨hr, hwin⟩ := process_line_reach do_flash (s.count_line linebuf.length) linebuf
      hc.2.2 hw
    simp only [line_loop]
    split_ifs with h0 h1
    · exact Reach.refl hb
    · exact hc.trans hr
    · exact (hc.trans hr).trans (ih _ hr.2.2 (hwin (by simpa using h1)))

theorem init_base_known (g : Globals) (pagebuf0 : Nat → Nat) (start_address0 : Nat) :
    BaseKnown (Flash.init g pagebuf0 start_address0) := Or.inl rfl

theorem init_in_window (g : Globals) (pagebuf0 : Nat → Nat) (start_address0 : Nat) :
    InWindow (Flash.init g pagebuf0 start_address0).p := by
  show sub32 0 0xffffffff < PAGESIZE
  decide

/-- Every run of `stm32_flash_image` on an existing file: the writes logged are the
old ones followed by good ones. -/
theorem flash_image_reach (g : Globals) (pagebuf0 : Nat → Nat) (start_address0 : Nat)
    (text : List Nat) (do_flash : Bool) :
    Reach (Flash.init g pagebuf0 start_address0)
      (stm32_flash_image g pagebuf0 start_address0 (some text) do_flash) := by
  have h := line_loop_reach do_flash (file_lines text []) _
    (init_base_known g pagebuf0 start_address0) (init_in_window g pagebuf0 start_address0)
  unfold stm32_flash_image finish
  simp only []
  split_ifs
  · exact h
  · exact h.trans (Reach.of_same h.2.2 rfl rfl rfl)
  · exact h

/-! ## Write addresses and write lengths (C3, C5) -/

/-- C5: for every HEX file, every initial buffer content and every sequence of poll
outcomes (every target behaviour), each write command that the write pass lets past
the length guard of `stm32_write_memory`, that is each one that reaches the wire,
carries between 1 and 256 bytes; and a call with a length above 256 returns `-1` with
the serial state untouched, so not one byte of it is sent. -/
theorem write_length_range (g : Globals) (pagebuf0 : Nat → Nat) (text : List Nat) :
    (∃ ext, (write_pass g pagebuf0 text).p.g.wlog = g.wlog ++ ext ∧
      ∀ w ∈ ext, 1 ≤ w.2.length ∧ w.2.length ≤ 256) ∧
    (∀ (g' : Globals) (image : Nat → Nat) (address len : Nat), 256 < len →
      stm32_write_memory g' image address len = (-1, g')) := by
  constructor
  · obtain ⟨-, ⟨ext, hext, hgood⟩, -⟩ := flash_image_reach g pagebuf0 0 text true
    exact ⟨ext, hext, fun w hw => ⟨(hgood w hw).1, (hgood w hw).2.1⟩⟩
  · intro g' image address len hlen
    unfold stm32_write_memory
    simp [hlen]

/-- Witness of `write_length_range`: scenario S1 answered by an error-free target, and
a call of `stm32_write_memory` with 257 bytes. -/
theorem write_length_range_witness :
    (∃ ext, (write_pass (globals0 (page_replies [1, 2, 3, 4, 5, 6, 7, 8])) (fun _ => 0) hexS1).p.g.wlog
        = (globals0 (page_replies [1, 2, 3, 4, 5, 6, 7, 8])).wlog ++ ext ∧
      ∀ w ∈ ext, 1 ≤ w.2.length ∧ w.2.length ≤ 256) ∧
    256 < 257 ∧
    stm32_write_memory (globals0 []) (fun _ => 0) 0x08000000 257 = (-1, globals0 []) :=
  ⟨(write_length_range (globals0 (page_replies [1, 2, 3, 4, 5, 6, 7, 8])) (fun _ => 0) hexS1).1,
   by decide,
   (write_length_range (globals0 []) (fun _ => 0) hexS1).2 (globals0 []) (fun _ => 0) 0x08000000 257
     (by decide)⟩

/-! ## The serial primitives when the target answers -/

theorem wait_for_ack_ok (g : Globals) (r : List (Option Nat)) (h : g.rx = some STM32_ACK :: r) :
    wait_for_ack g = (0, { g with rx := r }) := by
  unfold wait_for_ack stm32_serial_poll
  rw [h]
  simp [STM32_ACK]

theorem write_memory_ok (g : Globals) (image : Nat → Nat) (address len : Nat)
    (r : List (Option Nat)) (hlen : len ≤ 256) (h : g.rx = acks 3 ++ r) :
    (stm32_write_memory g image address len).1 = 0 ∧
    (stm32_write_memory g image address len).2.rx = r := by
  have h' : g.rx = some STM32_ACK :: some STM32_ACK :: some STM32_ACK :: r := by
    rw [h]; rfl
  unfold stm32_write_memory
  rw [if_neg (by omega)]
  simp only []
  rw [wait_for_ack_ok _ (some STM32_ACK :: some STM32_ACK :: r) (by simp [h'])]
  simp only [lt_self_iff_false, if_false]
  rw [wait_for_ack_ok _ (some STM32_ACK :: r) (by simp [serial_write_buf, set_address])]
  simp only [lt_self_iff_false, if_false]
  rw [wait_for_ack_ok _ r (by simp [serial_write_buf])]
  simp

theorem readLoop_ok (back : List Nat) : ∀ (i : Nat) (g : Globals) (r : List (Option Nat)),
    g.rx = back.map some ++ r → (∀ b ∈ back, b < 256) → i + back.length ≤ STM32_BUFLEN →
    (readLoop back.length i g).1 = 0 ∧ (readLoop back.length i g).2.rx = r ∧
    (List.range' i back.length).map (readLoop back.length i g).2.stm32_buf = back ∧
    ∀ k < i, (readLoop back.length i g).2.stm32_buf k = g.stm32_buf k := by
  induction back with
  | nil => intro i g r h _ _; simpa [readLoop] using h
  | cons b rest ih =>
    intro i g r h hb hi
    have hb256 : b < 256 := hb b (by simp)
    have hpoll : stm32_serial_poll g = ((b : Int), { g with rx := rest.map some ++ r }) := by
      unfold stm32_serial_poll
      rw [h]
      simp [Nat.mod_eq_of_lt hb256]
    simp only [List.length_cons] at hi ⊢
    have hi' : i < STM32_BUFLEN := by omega
    simp only [readLoop, hpoll, hi', if_true]
    have hneg : ¬ ((b : Int) < 0) := by omega
    rw [if_neg hneg]
    obtain ⟨h1, h2, h3, h4⟩ := ih (i + 1)
      { ({ g with rx := rest.map some ++ r } : Globals) with
        stm32_buf := upd g.stm32_buf i (b : Int).toNat } r rfl
      (fun x hx => hb x (by simp [hx])) (by omega)
    refine ⟨h1, h2, ?_, ?_⟩
    · rw [List.range'_succ, List.map_cons, h3, h4 i (by omega)]
      simp [upd]
    · intro k hk
      rw [h4 k (by omega)]
      simp [upd, Nat.ne_of_lt hk]

theorem read_tail_ok (g : Globals) (back : List Nat) (r : List (Option Nat))
    (hlen : back.length ≤ 256) (hb : ∀ b ∈ back, b < 256) (h : g.rx = back.map some ++ r) :
    ¬ (if (readLoop back.length 0 g).1 < 0 then ((-1 : Int), (readLoop back.length 0 g).2)
        else ((back.length : Int), (readLoop back.length 0 g).2)).1 < 0 ∧
    (if (readLoop back.length 0 g).1 < 0 then ((-1 : Int), (readLoop back.length 0 g).2)
        else ((back.length : Int), (readLoop back.length 0 g).2)).2.rx = r ∧
    slice (if (readLoop back.length 0 g).1 < 0 then ((-1 : Int), (readLoop back.length 0 g).2)
        else ((back.length : Int), (readLoop back.length 0 g).2)).2.stm32_buf back.length = back := by
  obtain ⟨h1, h2, h3, -⟩ := readLoop_ok back 0 g r h hb (by simpa [STM32_BUFLEN] using hlen)
  rw [if_neg (by rw [h1]; decide)]
  refine ⟨by simp, h2, ?_⟩
  rw [slice, List.range_eq_range']
  exact h3

theorem read_memory_ok (g : Globals) (address : Nat) (back : List Nat) (r : List (Option Nat))
    (hlen : back.length ≤ 256) (hb : ∀ b ∈ back, b < 256)
    (h : g.rx = acks 3 ++ (back.map some ++ r)) :
    ¬ (stm32_read_memory g address back.length).1 < 0 ∧
    (stm32_read_memory g address back.length).2.rx = r ∧
    slice (stm32_read_memory g address back.length).2.stm32_buf back.length = back := by
  have h' : g.rx = some STM32_ACK :: some STM32_ACK :: some STM32_ACK :: (back.map some ++ r) := by
    rw [h]; rfl
  unfold stm32_read_memory
  simp only []
  rw [wait_for_ack_ok _ (some STM32_ACK :: some STM32_ACK :: (back.map some ++ r)) (by simp [h'])]
  simp only [lt_self_iff_false, if_false]
  rw [wait_for_ack_ok _ (some STM32_ACK :: (back.map some ++ r))
    (by simp [serial_write_buf, set_address])]
  simp only [lt_self_iff_false, if_false]
  rw [wait_for_ack_ok _ (back.map some ++ r) (by simp [serial_write_buf])]
  simp only [lt_self_iff_false, if_false]
  exact read_tail_ok _ back r hlen hb rfl

/-! ## A flush answered by an error-free target -/

theorem acks_six : acks 6 = acks 3 ++ acks 3 := rfl

theorem write_verify_ok (p : Page) (cur : List Nat) (tail : List (Option Nat))
    (hcur : slice p.pagebuf (sub32 p.pageidx p.pageaddr) = cur) (hn : cur.length ≤ 256)
    (hb : ∀ b ∈ cur, b < 256) (hrx : p.g.rx = page_replies cur ++ tail) :
    (write_verify p).2 = false ∧ (write_verify p).1.g.rx = tail ∧
    (write_verify p).1.g.wlog = p.g.wlog ++ [(p.pageaddr, cur)] ∧
    (write_verify p).1.rtc = p.rtc := by
  have hlen : sub32 p.pageidx p.pageaddr = cur.length := by rw [← hcur, slice_length]
  have hrx' : p.g.rx = acks 3 ++ (acks 3 ++ (cur.map some ++ tail)) := by
    rw [hrx, page_replies, acks_six]; simp
  obtain ⟨hw1, hw2⟩ := write_memory_ok p.g p.pagebuf p.pageaddr cur.length _ hn hrx'
  obtain ⟨hr1, hr2, hr3⟩ := read_memory_ok
    (stm32_write_memory p.g p.pagebuf p.pageaddr cur.length).2 p.pageaddr cur tail hn hb hw2
  have hf := (write_verify_fields p).2.2.2
  have hrtc := write_verify_rtc p
  have hbrk : (write_verify p).2 = false := by
    unfold write_verify
    simp only [hlen]
    rw [if_neg (by rw [hw1]; decide), if_neg hr1]
    rw [hlen] at hcur
    simp [hr3, hcur]
  refine ⟨hbrk, ?_, ?_, hrtc.2 hbrk⟩
  · unfold write_verify
    simp only [hlen]
    rw [if_neg (by rw [hw1]; decide), if_neg hr1]
    rw [hlen] at hcur
    simp [hr3, hcur, hr2]
  · rw [hf, if_neg (by omega), hcur]

/-! ## Blocks of 256 bytes -/

theorem pages_single (B : Nat) (cur : List Nat) (h1 : 1 ≤ cur.length) (h2 : cur.length ≤ 256) :
    pages B cur = [(B, cur)] := by
  have hk : (cur.length + 255) / 256 = 1 := by omega
  unfold pages
  rw [hk]
  simp [List.range_succ, List.take_of_length_le h2]

theorem pages_cons (B : Nat) (cur rest : List Nat) (h : cur.length = 256) :
    pages B (cur ++ rest) = (B, cur) :: pages (B + 256) rest := by
  have hk : ((cur ++ rest).length + 255) / 256 = (rest.length + 255) / 256 + 1 := by
    rw [List.length_append, h]; omega
  unfold pages
  rw [hk, List.range_succ_eq_map, List.map_cons, List.map_map]
  congr 1
  · have : List.take 256 (cur ++ rest) = cur := by
      rw [← h]; exact List.take_left' rfl
    simp [this]
  · apply List.map_congr_left
    intro j _
    simp only [Function.comp, Nat.succ_eq_add_one]
    have hd : List.drop (256 * (j + 1)) (cur ++ rest) = List.drop (256 * j) rest := by
      have : 256 * (j + 1) = cur.length + 256 * j := by rw [h]; ring
      rw [this, List.drop_append]
    rw [hd]
    congr 1
    ring

theorem slice_upd_succ (a : Nat → Nat) (m x : Nat) :
    slice (upd a m x) (m + 1) = slice a m ++ [x] := by
  unfold slice
  rw [List.range_succ, List.map_append]
  congr 1
  · apply List.map_congr_left
    intro i hi
    have : i ≠ m := Nat.ne_of_lt (List.mem_range.1 hi)
    simp [upd, this]
  · simp [upd]
/-! ## Contiguous data through the page assembly -/

theorem after_items_cons (a ch : Nat) (new : List (Nat × Nat)) (p : Page)
    (h : (page_byte true a ch p).2 = false) :
    after_items ((a, ch) :: new) p = after_items new (page_byte true a ch p).1 ∧
    (asm_fold true ((a, ch) :: new) p).2 = (asm_fold true new (page_byte true a ch p).1).2 := by
  unfold after_items
  simp [asm_fold, h]

theorem ideal_replies_cons (w : Nat × List Nat) (ws : List (Nat × List Nat)) :
    ideal_replies (w :: ws) = page_replies w.2 ++ ideal_replies ws := by
  simp [ideal_replies]

theorem flush_page_ok (p : Page) (h : (write_verify p).2 = false) :
    flush_page true p =
      ({ (write_verify p).1 with
          pages_written := ((write_verify p).1.pages_written + 1) % U32 }, false) := by
  unfold flush_page
  simp [h]

/-- A data byte that crosses out of a full page, the flush being answered without
error: the page is logged and a fresh page starts at the byte. -/
theorem page_byte_cross_target (p : Page) (a ch : Nat) (cur : List Nat)
    (tail : List (Option Nat)) (hsub : sub32 a p.pageaddr = 256)
    (hm : p.pageaddr ≠ 0xffffffff) (hcur : slice p.pagebuf 256 = cur)
    (hb : ∀ b ∈ cur, b < 256) (hrx : p.g.rx = page_replies cur ++ tail) :
    ∃ q : Page, page_byte true a ch p = (q, false) ∧ q.pageaddr = a ∧ q.pageidx = a ∧
      slice q.pagebuf 1 = [ch] ∧ q.g.rx = tail ∧
      q.g.wlog = p.g.wlog ++ [(p.pageaddr, cur)] ∧ q.rtc = p.rtc := by
  have hlen : cur.length = 256 := by rw [← hcur, slice_length]
  obtain ⟨hv1, hv2, hv3, hv4⟩ := write_verify_ok { p with pageidx := a } cur tail
    (by simp only [hsub]; exact hcur) (by omega) hb hrx
  have hf := write_verify_fields { p with pageidx := a }
  have hfl := flush_page_ok { p with pageidx := a } hv1
  have hq := page_byte_cross_ok true a ch p (by rw [hsub]; decide) hm (by rw [hfl])
  rw [hfl] at hq
  refine ⟨_, hq, rfl, hf.2.1, ?_, hv2, hv3, hv4⟩
  simp only [hf.2.1, sub32_self]
  rfl

/-- From a page that holds `cur` (its first `m` bytes), the bytes `rest` follow at
consecutive addresses and then the EOF record; the target answers every flush without
error. Then no data byte breaks, and the writes logged are the blocks of 256 bytes of
`cur ++ rest` from the page base. -/
theorem fill_pages (rest : List Nat) :
    ∀ (p : Page) (m : Nat) (cur : List Nat) (tail : List (Option Nat)),
      1 ≤ m → m ≤ 256 → p.pageidx = p.pageaddr + (m - 1) → slice p.pagebuf m = cur →
      p.pageaddr + m + rest.length ≤ U32 → (m + rest.length) % 256 ≠ 1 →
      (∀ b ∈ cur, b < 256) → (∀ b ∈ rest, b < 256) →
      p.g.rx = ideal_replies (pages p.pageaddr (cur ++ rest)) ++ tail →
      (asm_fold true (contig (p.pageaddr + m) rest) p).2 = false ∧
      (after_items (contig (p.pageaddr + m) rest) p).rtc = p.rtc ∧
      (after_items (contig (p.pageaddr + m) rest) p).g.wlog =
        p.g.wlog ++ pages p.pageaddr (cur ++ rest) ∧
      (after_items (contig (p.pageaddr + m) rest) p).g.rx = tail := by
  induction rest with
  | nil =>
    intro p m cur tail h1 h256 hidx hcur hfit hmod hbc _ hrx
    have hlen : cur.length = m := by rw [← hcur, slice_length]
    have hm2 : 2 ≤ m := by
      simp only [List.length_nil, Nat.add_zero] at hmod
      omega
    simp only [List.length_nil, Nat.add_zero, U32] at hfit
    have hsub : sub32 p.pageidx p.pageaddr = m - 1 := by
      rw [hidx]; unfold sub32 U32; omega
    have hsub' : sub32 ((p.pageidx + 1) % U32) p.pageaddr = m := by
      rw [hidx]; unfold sub32 U32; omega
    rw [List.append_nil, pages_single _ _ (by omega) (by omega)] at hrx ⊢
    rw [ideal_replies_cons] at hrx
    simp only [ideal_replies, List.map_nil, List.flatten_nil, List.append_nil] at hrx
    obtain ⟨hv1, hv2, hv3, hv4⟩ := write_verify_ok { p with pageidx := (p.pageidx + 1) % U32 } cur tail
      (by simp only [hsub']; exact hcur) (by omega) hbc hrx
    refine ⟨rfl, ?_⟩
    simp only [contig, after_items, asm_fold, Bool.false_eq_true, if_false]
    unfold eof_flush
    rw [if_pos (by omega)]
    simp only [if_true, hv1, Bool.false_eq_true, if_false]
    exact ⟨hv4, hv3, hv2⟩
  | cons x r ih =>
    intro p m cur tail h1 h256 hidx hcur hfit hmod hbc hbr hrx
    have hlen : cur.length = m := by rw [← hcur, slice_length]
    simp only [List.length_cons, U32] at hfit
    simp only [List.length_cons] at hmod
    simp only [contig]
    by_cases hm : m < 256
    · have hsub : sub32 (p.pageaddr + m) p.pageaddr = m := by
        unfold sub32 U32; omega
      have hq := page_byte_in true (p.pageaddr + m) x p (by rw [hsub]; exact hm)
      rw [hsub] at hq
      obtain ⟨ha1, ha2⟩ := after_items_cons (p.pageaddr + m) x (contig (p.pageaddr + m + 1) r) p
        (by rw [hq])
      rw [ha1, ha2, hq]
      have := ih { p with pageidx := p.pageaddr + m, pagebuf := upd p.pagebuf m x } (m + 1)
        (cur ++ [x]) tail (by omega) (by omega) (by simp) (by rw [slice_upd_succ, hcur])
        (by simp only [U32]; omega) (by omega)
        (by intro b hb; rcases List.mem_append.1 hb with hb | hb
            · exact hbc b hb
            · simp only [List.mem_singleton] at hb; rw [hb]; exact hbr x (by simp))
        (fun b hb => hbr b (by simp [hb]))
        (by simpa using hrx)
      simpa [Nat.add_assoc] using this
    · have hm' : m = 256 := by omega
      subst hm'
      have hsub : sub32 (p.pageaddr + 256) p.pageaddr = 256 := by
        unfold sub32 U32; omega
      rw [pages_cons _ _ _ hlen, ideal_replies_cons, List.append_assoc] at hrx
      obtain ⟨q, hq, hqa, hqi, hqb, hqrx, hqw, hqr⟩ := page_byte_cross_target p
        (p.pageaddr + 256) x cur _ hsub (by omega) hcur hbc hrx
      obtain ⟨ha1, ha2⟩ := after_items_cons (p.pageaddr + 256) x
        (contig (p.pageaddr + 256 + 1) r) p (by rw [hq])
      rw [ha1, ha2, hq]
      have := ih q 1 [x] tail (by omega) (by omega) (by rw [hqi, hqa]) hqb
        (by rw [hqa]; simp only [U32]; omega) (by omega)
        (by intro b hb; simp only [List.mem_singleton] at hb; rw [hb]; exact hbr x (by simp))
        (fun b hb => hbr b (by simp [hb]))
        (by rw [hqrx, hqa]; rfl)
      rw [hqa, hqw, hqr] at this
      rw [pages_cons _ _ _ hlen]
      simpa using this

/-- Contiguous data from address `A` (at least `0xFF`, so that the first byte opens a
page) through the page assembly of the write pass, followed by the EOF record, with a
target that answers every flush without error: the writes logged are the blocks of
256 bytes from `A`. The last block must not hold exactly one byte. -/
theorem contiguous_pages (g : Globals) (pagebuf0 : Nat → Nat) (A : Nat) (d : List Nat)
    (tail : List (Option Nat)) (hA : 255 ≤ A) (hfit : A + d.length ≤ U32) (hne : d ≠ [])
    (hmod : d.length % 256 ≠ 1) (hb : ∀ b ∈ d, b < 256)
    (hrx : g.rx = ideal_replies (pages A d) ++ tail) :
    (asm_fold true (contig A d) (Page.init g pagebuf0)).2 = false ∧
    (after_items (contig A d) (Page.init g pagebuf0)).rtc = 0 ∧
    (after_items (contig A d) (Page.init g pagebuf0)).g.wlog = g.wlog ++ pages A d ∧
    (after_items (contig A d) (Page.init g pagebuf0)).g.rx = tail := by
  cases d with
  | nil => exact absurd rfl hne
  | cons b r =>
    simp only [List.length_cons, U32] at hfit hmod
    have hsub : PAGESIZE ≤ sub32 A (Page.init g pagebuf0).pageaddr := by
      show 256 ≤ sub32 A 0xffffffff
      unfold sub32 U32; omega
    have hq := page_byte_first true A b (Page.init g pagebuf0) hsub rfl
    rw [sub32_self] at hq
    obtain ⟨ha1, ha2⟩ := after_items_cons A b (contig (A + 1) r) (Page.init g pagebuf0)
      (by rw [hq])
    simp only [contig]
    rw [ha1, ha2, hq]
    have := fill_pages r
      { Page.init g pagebuf0 with pageidx := A, pageaddr := A, pagebuf := upd (fun _ => 0xFF) 0 b }
      1 [b] tail (by omega) (by omega) rfl rfl (by simp only [U32]; omega) (by omega)
      (by intro x hx; simp only [List.mem_singleton] at hx; rw [hx]; exact hb b (by simp))
      (fun x hx => hb x (by simp [hx])) (by simpa using hrx)
    simpa [Page.init] using this

/-! ## The write pass follows the data bytes that the check pass saw -/

theorem asm_fold_append (do_flash : Bool) (xs ys : List (Nat × Nat)) :
    ∀ p : Page, asm_fold do_flash (xs ++ ys) p =
      if (asm_fold do_flash xs p).2 then asm_fold do_flash xs p
      else asm_fold do_flash ys (asm_fold do_flash xs p).1 := by
  induction xs with
  | nil => intro p; simp [asm_fold]
  | cons x rest ih =>
    intro p
    simp only [List.cons_append, asm_fold]
    split_ifs with h1 h2
    · rfl
    · exact (ih _).trans (if_pos h2)
    · exact (ih _).trans (if_neg h2)

theorem after_items_append (xs ys : List (Nat × Nat)) (p : Page) :
    after_items (xs ++ ys) p =
      if (asm_fold true xs p).2 then (asm_fold true xs p).1
      else after_items ys (asm_fold true xs p).1 := by
  unfold after_items
  rw [asm_fold_append]
  split_ifs <;> simp_all

/-- A data loop is the page assembly run over the `(address, byte)` pairs of the
record. -/
theorem data_loop_asm (do_flash : Bool) (drlo : Nat) (data : List Nat) :
    ∀ (dri : Nat) (s : Flash) (sum : Nat),
      (data_loop do_flash drlo data dri s sum).1.p =
        (asm_fold do_flash (rec_items s.ulba drlo dri data) s.p).1 ∧
      (data_loop do_flash drlo data dri s sum).2.1 =
        (asm_fold do_flash (rec_items s.ulba drlo dri data) s.p).2 ∧
      (data_loop do_flash drlo data dri s sum).1.ulba = s.ulba ∧
      (data_loop do_flash drlo data dri s sum).1.eof_record_found = s.eof_record_found ∧
      ((data_loop do_flash drlo data dri s sum).2.1 = false →
        (data_loop do_flash drlo data dri s sum).1.items =
          s.items ++ rec_items s.ulba drlo dri data) := by
  induction data with
  | nil => intro dri s sum; simp [data_loop, rec_items, asm_fold]
  | cons ch rest ih =>
    intro dri s sum
    obtain ⟨h2, hp, hi, hu, he, -⟩ := data_byte_fields do_flash drlo dri ch s
    simp only [data_loop, rec_items, asm_fold]
    cases hbrk : (data_byte do_flash drlo dri ch s).2 with
    | true =>
      rw [hbrk] at h2
      simp only [if_true, ← h2]
      exact ⟨hp, trivial, hu, he, fun h => absurd h (by simp)⟩
    | false =>
      rw [hbrk] at h2
      rw [← h2] at hi
      simp only [Bool.false_eq_true, if_false, ← h2] at hi ⊢
      obtain ⟨i1, i2, i3, i4, i5⟩ := ih (dri + 1) (data_byte do_flash drlo dri ch s).1 (sum + ch)
      rw [hu, hp] at i1 i2
      rw [hu] at i3 i5
      rw [he] at i4
      refine ⟨i1, i2, i3, i4, fun h => ?_⟩
      rw [i5 h, hi, List.append_assoc]
      rfl

theorem rec_items_snd (ulba drlo : Nat) (data : List Nat) :
    ∀ dri : Nat, ∀ x ∈ rec_items ulba drlo dri data, x.2 ∈ data := by
  induction data with
  | nil => intro dri x hx; simp [rec_items] at hx
  | cons ch rest ih =>
    intro dri x hx
    simp only [rec_items, List.mem_cons] at hx
    rcases hx with hx | hx
    · rw [hx]; simp
    · exact List.mem_cons_of_mem _ (ih (dri + 1) x hx)

/-- One record seen by both passes, from states that agree on `ulba`: when the check
pass leaves the line loop it has failed or met the EOF record, at which the write pass
flushes; when the check pass goes on, the write pass has run the page assembly over the
same new data bytes, and goes on too unless that broke. -/
theorem process_record_pair (c s : Flash) (drlo rectype sum : Nat) (data : List Nat)
    (chcksum : Nat) (hu : c.ulba = s.ulba) (hc : c.p.rtc = 0) (hs : s.p.rtc = 0)
    (he : c.eof_record_found = false) :
    ((process_record false c drlo rectype sum data chcksum).2 = true →
      (process_record false c drlo rectype sum data chcksum).1.p.rtc = -1 ∨
      ((process_record false c drlo rectype sum data chcksum).1.items = c.items ∧
       (process_record true s drlo rectype sum data chcksum).2 = true ∧
       (process_record true s drlo rectype sum data chcksum).1.p = after_items [] s.p)) ∧
    ((process_record false c drlo rectype sum data chcksum).2 = false →
      (process_record false c drlo rectype sum data chcksum).1.p.rtc = 0 ∧
      (process_record false c drlo rectype sum data chcksum).1.eof_record_found = false ∧
      ∃ its, (process_record false c drlo rectype sum data chcksum).1.items = c.items ++ its ∧
        (∀ x ∈ its, x.2 ∈ data) ∧
        (((asm_fold true its s.p).2 = true ∧
          (process_record true s drlo rectype sum data chcksum).2 = true ∧
          (process_record true s drlo rectype sum data chcksum).1.p = (asm_fold true its s.p).1) ∨
         ((asm_fold true its s.p).2 = false ∧
          (process_record true s drlo rectype sum data chcksum).2 = false ∧
          (process_record true s drlo rectype sum data chcksum).1.p = (asm_fold true its s.p).1 ∧
          (process_record true s drlo rectype sum data chcksum).1.ulba =
            (process_record false c drlo rectype sum data chcksum).1.ulba ∧
          (process_record true s drlo rectype sum data chcksum).1.p.rtc = 0))) := by
  by_cases h0 : rectype = 0
  · subst h0
    obtain ⟨c1, c2, c3, -⟩ := data_loop_check drlo data 0 c sum
    obtain ⟨-, -, c5, c6, c7⟩ := data_loop_asm false drlo data 0 c sum
    obtain ⟨s1, s2, s3, -, -⟩ := data_loop_asm true drlo data 0 s sum
    obtain ⟨s4, s5⟩ := data_loop_rtc true drlo data 0 s sum
    rw [← hu] at s1 s2
    rw [process_record_data, process_record_data]
    rw [if_neg (by rw [c3, hc]; decide), c2]
    cases hcs : checksum_fails (sum + data.sum) chcksum with
    | true =>
      simp only [if_true]
      exact ⟨fun _ => Or.inl rfl, fun h => absurd h (by simp [Flash.fail])⟩
    | false =>
      simp only [Bool.false_eq_true, if_false]
      refine ⟨fun h => absurd h (by simp), fun _ => ⟨by rw [c3, hc], by rw [c6, he],
        rec_items c.ulba drlo 0 data, c7 c1, rec_items_snd _ _ _ _, ?_⟩⟩
      cases hbrk : (data_loop true drlo data 0 s sum).2.1 with
      | true =>
        left
        rw [if_pos (s4 hbrk)]
        exact ⟨by rw [← s2, hbrk], rfl, s1⟩
      | false =>
        right
        obtain ⟨s6, s7⟩ := s5 hbrk
        rw [if_neg (by rw [s6, hs]; decide), s7, hcs]
        simp only [Bool.false_eq_true, if_false]
        exact ⟨by rw [← s2, hbrk], trivial, s1, by rw [s3, c5, hu], by rw [s6, hs]⟩
  by_cases h1 : rectype = 1
  · subst h1
    rw [process_record_eof, process_record_eof]
    refine ⟨fun _ => Or.inr ⟨rfl, rfl, ?_⟩, fun h => absurd h (by simp)⟩
    simp [eof_record, after_items, asm_fold]
  by_cases h4 : rectype = 4
  · subst h4
    rw [process_record_ela, process_record_ela]
    split_ifs with h5 h6
    · exact ⟨fun _ => Or.inl rfl, fun h => absurd h (by simp [Flash.fail])⟩
    · refine ⟨fun h => absurd h (by simp), fun _ => ⟨hc, he, [], by simp, by simp, Or.inr ?_⟩⟩
      exact ⟨rfl, rfl, rfl, rfl, hs⟩
    · exact ⟨fun _ => Or.inl rfl, fun h => absurd h (by simp [Flash.fail])⟩
  by_cases h5 : rectype = 5
  · subst h5
    rw [process_record_sla, process_record_sla]
    split_ifs with h5 h6
    · exact ⟨fun _ => Or.inl rfl, fun h => absurd h (by simp [Flash.fail])⟩
    · refine ⟨fun h => absurd h (by simp), fun _ => ⟨hc, he, [], by simp, by simp, Or.inr ?_⟩⟩
      exact ⟨rfl, rfl, rfl, hu.symm, hs⟩
    · exact ⟨fun _ => Or.inl rfl, fun h => absurd h (by simp [Flash.fail])⟩
  rw [process_record_other false c drlo rectype sum data chcksum h0 h1 h4 h5]
  exact ⟨fun _ => Or.inl rfl, fun h => absurd h (by simp [Flash.fail])⟩

theorem rec_data_lt (linebuf : List Nat) : ∀ b ∈ rec_data linebuf, b < 256 := by
  intro b hb
  simp only [rec_data, List.mem_map] at hb
  obtain ⟨i, _, hi⟩ := hb
  rw [← hi]
  exact data_at_lt linebuf i

/-- The statement of `process_record_pair` for a whole line. -/
theorem process_line_pair (c s : Flash) (linebuf : List Nat) (hu : c.ulba = s.ulba)
    (hc : c.p.rtc = 0) (hs : s.p.rtc = 0) (he : c.eof_record_found = false) :
    ((process_line false c linebuf).2 = true →
      (process_line false c linebuf).1.p.rtc = -1 ∨
      ((process_line false c linebuf).1.items = c.items ∧
       (process_line true s linebuf).2 = true ∧
       (process_line true s linebuf).1.p = after_items [] s.p)) ∧
    ((process_line false c linebuf).2 = false →
      (process_line false c linebuf).1.p.rtc = 0 ∧
      (process_line false c linebuf).1.eof_record_found = false ∧
      ∃ its, (process_line false c linebuf).1.items = c.items ++ its ∧
        (∀ x ∈ its, x.2 < 256) ∧
        (((asm_fold true its s.p).2 = true ∧
          (process_line true s linebuf).2 = true ∧
          (process_line true s linebuf).1.p = (asm_fold true its s.p).1) ∨
         ((asm_fold true its s.p).2 = false ∧
          (process_line true s linebuf).2 = false ∧
          (process_line true s linebuf).1.p = (asm_fold true its s.p).1 ∧
          (process_line true s linebuf).1.ulba = (process_line false c linebuf).1.ulba ∧
          (process_line true s linebuf).1.p.rtc = 0))) := by
  unfold process_line
  split_ifs with h1 h2
  · obtain ⟨hp1, hp2⟩ := process_record_pair c s (rec_drlo linebuf) (rec_type linebuf)
      (rec_datalen linebuf + rec_addrh linebuf + rec_addrl linebuf + rec_type linebuf)
      (rec_data linebuf) (rec_chcksum linebuf) hu hc hs he
    refine ⟨hp1, fun h => ?_⟩
    obtain ⟨q1, q2, its, q3, q4, q5⟩ := hp2 h
    exact ⟨q1, q2, its, q3, fun x hx => rec_data_lt linebuf _ (q4 x hx), q5⟩
  · exact ⟨fun _ => Or.inl rfl, fun h => absurd h (by simp [Flash.fail])⟩
  · exact ⟨fun _ => Or.inl rfl, fun h => absurd h (by simp [Flash.fail])⟩

/-- The write pass against the check pass over the same lines, from states that agree
on `ulba`: if the check pass ends with `rtc = 0` at an EOF record, then the page state
that the write pass ends with is the one the page assembly yields on the data bytes
`new` that the check pass stored, followed by the EOF flush. -/
theorem line_loop_pair (lines : List (List Nat)) :
    ∀ (c s : Flash), c.ulba = s.ulba → c.p.rtc = 0 → s.p.rtc = 0 →
      c.eof_record_found = false → (line_loop false lines c).p.rtc = 0 →
      (line_loop false lines c).eof_record_found = true →
      ∃ new, (line_loop false lines c).items = c.items ++ new ∧ (∀ x ∈ new, x.2 < 256) ∧
        (line_loop true lines s).p = after_items new s.p := by
  induction lines with
  | nil =>
    intro c s _ _ _ he _ hf
    simp only [line_loop] at hf
    rw [he] at hf
    exact absurd hf (by simp)
  | cons linebuf rest ih =>
    intro c s hu hc hs he hr hf
    simp only [line_loop] at hr hf ⊢
    by_cases hl : linebuf.length = 0
    · rw [if_pos hl] at hf
      rw [he] at hf
      exact absurd hf (by simp)
    · rw [if_neg hl] at hr hf ⊢
      rw [if_neg hl]
      obtain ⟨hp1, hp2⟩ := process_line_pair (c.count_line linebuf.length)
        (s.count_line linebuf.length) linebuf hu hc hs he
      cases hb : (process_line false (c.count_line linebuf.length) linebuf).2 with
      | true =>
        simp only [hb, if_true] at hr hf ⊢
        rcases hp1 hb with h | ⟨h1, h2, h3⟩
        · rw [h] at hr
          exact absurd hr (by decide)
        · refine ⟨[], by rw [h1]; simp [Flash.count_line], by simp, ?_⟩
          rw [h2]
          simp only [if_true]
          exact h3
      | false =>
        simp only [hb, Bool.false_eq_true, if_false] at hr hf ⊢
        obtain ⟨q1, q2, its, q3, q4, q5⟩ := hp2 hb
        have hits : (c.count_line linebuf.length).items = c.items := rfl
        rw [hits] at q3
        have hsp : (s.count_line linebuf.length).p = s.p := rfl
        rw [hsp] at q5
        rcases q5 with ⟨a1, a2, a3⟩ | ⟨a1, a2, a3, a4, a5⟩
        · obtain ⟨new, n1, n2, -⟩ := ih _ _ rfl q1 q1 q2 hr hf
          refine ⟨its ++ new, by rw [n1, q3, List.append_assoc], ?_, ?_⟩
          · intro x hx
            rcases List.mem_append.1 hx with hx | hx
            · exact q4 x hx
            · exact n2 x hx
          · rw [a2]
            simp only [if_true]
            rw [a3, after_items_append, if_pos a1]
        · obtain ⟨new, n1, n2, n3⟩ := ih _ _ a4.symm q1 a5 q2 hr hf
          refine ⟨its ++ new, by rw [n1, q3, List.append_assoc], ?_, ?_⟩
          · intro x hx
            rcases List.mem_append.1 hx with hx | hx
            · exact q4 x hx
            · exact n2 x hx
          · rw [a2]
            simp only [Bool.false_eq_true, if_false]
            rw [n3, a3, after_items_append, if_neg (by rw [a1]; simp)]

/-- For a file that the check pass accepts, the page state at the end of the write pass
is what the page assembly and the EOF flush yield on the data bytes that the check pass
stored; each of these bytes is below 256. -/
theorem write_pass_after_items (g : Globals) (pagebuf0 : Nat → Nat) (text : List Nat)
    (hcheck : (check_pass g pagebuf0 text).p.rtc = 0) :
    (write_pass g pagebuf0 text).p =
      after_items (check_pass g pagebuf0 text).items (Page.init g pagebuf0) ∧
    ∀ x ∈ (check_pass g pagebuf0 text).items, x.2 < 256 := by
  unfold check_pass write_pass stm32_flash_image finish at *
  simp only [Bool.false_eq_true, if_false, if_true] at hcheck ⊢
  by_cases hfin : (line_loop false (file_lines text []) (Flash.init g pagebuf0 0)).p.rtc = 0 ∧
      (line_loop false (file_lines text []) (Flash.init g pagebuf0 0)).eof_record_found = false
  · rw [if_pos hfin] at hcheck
    exact absurd hcheck (show ¬ ((-1 : Int) = 0) by decide)
  · rw [if_neg hfin] at hcheck ⊢
    have heof : (line_loop false (file_lines text []) (Flash.init g pagebuf0 0)).eof_record_found
        = true := by
      cases h : (line_loop false (file_lines text []) (Flash.init g pagebuf0 0)).eof_record_found
      · exact absurd ⟨hcheck, h⟩ hfin
      · rfl
    obtain ⟨new, n1, n2, n3⟩ := line_loop_pair (file_lines text []) (Flash.init g pagebuf0 0)
      (Flash.init g pagebuf0 0) rfl rfl rfl rfl hcheck heof
    have hnew : (line_loop false (file_lines text []) (Flash.init g pagebuf0 0)).items = new := by
      rw [n1]; rfl
    rw [hnew]
    exact ⟨n3, n2⟩

/-! ## Contiguous images (C1, C9) -/

theorem contig_snd (d : List Nat) : ∀ A : Nat, (contig A d).map Prod.snd = d := by
  induction d with
  | nil => intro A; rfl
  | cons b r ih => intro A; simp [contig, ih]

/-- The payloads of the blocks, one after the other, are the data. -/
theorem pages_flatten (n : Nat) : ∀ (A : Nat) (d : List Nat), d.length ≤ n →
    ((pages A d).map Prod.snd).flatten = d := by
  induction n with
  | zero =>
    intro A d h
    have : d = [] := List.length_eq_zero.1 (by omega)
    subst this
    rfl
  | succ n ih =>
    intro A d h
    by_cases h0 : d.length = 0
    · have : d = [] := List.length_eq_zero.1 h0
      subst this
      rfl
    by_cases h1 : d.length ≤ 256
    · rw [pages_single A d (by omega) h1]
      simp
    · have hsplit : d = d.take 256 ++ d.drop 256 := (List.take_append_drop 256 d).symm
      have htake : (d.take 256).length = 256 := by
        rw [List.length_take]; omega
      have hdrop : (d.drop 256).length ≤ n := by
        rw [List.length_drop]; omega
      have hpc := pages_cons A (d.take 256) (d.drop 256) htake
      rw [← hsplit] at hpc
      rw [hpc, List.map_cons, List.flatten_cons, ih (A + 256) (d.drop 256) hdrop]
      exact hsplit.symm

/-- Block `i` has the base `A + 256 * i` and holds between 1 and 256 bytes, 256 unless
it is the last one. -/
theorem pages_lengths (A : Nat) (d : List Nat) (i : Nat) (w : Nat × List Nat)
    (h : (pages A d)[i]? = some w) :
    w.1 = A + 256 * i ∧ 1 ≤ w.2.length ∧ w.2.length ≤ 256 ∧
      (i + 1 < (pages A d).length → w.2.length = 256) := by
  unfold pages at h ⊢
  simp only [List.getElem?_map, List.length_map, List.length_range] at h ⊢
  rcases hr : (List.range ((d.length + 255) / 256))[i]? with _ | j
  · rw [hr] at h; simp at h
  · rw [hr] at h
    simp only [Option.map_some', Option.some.injEq] at h
    have hi : i < (d.length + 255) / 256 := by
      by_contra hcon
      rw [List.getElem?_eq_none (by simpa using Nat.not_lt.1 hcon)] at hr
      exact absurd hr (by simp)
    rw [List.getElem?_range hi] at hr
    simp only [Option.some.injEq] at hr
    subst hr
    rw [← h]
    simp only [List.length_take, List.length_drop, true_and]
    omega

/-- Contiguous data from any address `A` of at least `0xFF`, in a file that the check
pass accepts, written to a target that answers without error: the write pass returns
0 and issues one write per block of 256 bytes from `A`. The last block must not hold
exactly one byte. -/
theorem contiguous_write_pass (g : Globals) (pagebuf0 : Nat → Nat) (text : List Nat) (A : Nat)
    (d : List Nat) (tail : List (Option Nat))
    (hcheck : (check_pass g pagebuf0 text).p.rtc = 0)
    (hitems : (check_pass g pagebuf0 text).items = contig A d)
    (hA : 255 ≤ A) (hfit : A + d.length ≤ U32) (hne : d ≠ []) (hmod : d.length % 256 ≠ 1)
    (hrx : g.rx = ideal_replies (pages A d) ++ tail) :
    (write_pass g pagebuf0 text).p.rtc = 0 ∧
    (write_pass g pagebuf0 text).p.g.wlog = g.wlog ++ pages A d ∧
    (write_pass g pagebuf0 text).p.g.rx = tail := by
  obtain ⟨hp, hb⟩ := write_pass_after_items g pagebuf0 text hcheck
  rw [hitems] at hp hb
  have hb' : ∀ b ∈ d, b < 256 := by
    intro b hbd
    rw [← contig_snd d A] at hbd
    obtain ⟨x, hx, hxb⟩ := List.mem_map.1 hbd
    rw [← hxb]
    exact hb x hx
  obtain ⟨-, h1, h2, h3⟩ := contiguous_pages g pagebuf0 A d tail hA hfit hne hmod hb' hrx
  rw [hp]
  exact ⟨h1, h2, h3⟩

/-- C1: for every HEX file that the check pass accepts and whose data bytes, in file
order, are the bytes `d` at the consecutive addresses `A, A+1, ...`, with `A` a
multiple of 256 and at least 256, `d` of a positive length that is a multiple of 4, and
`A + length d <= 2^32`: against a target that ACKs every stage and reads back what was
written (the polls are answered, page by page, by three ACKs for the write, three ACKs
for the read and the payload of the page; `tail` is whatever would come after), the
write pass returns 0 and its write commands are exactly the blocks of 256 bytes of `d`
with the bases `A, A+256, A+512, ...`, in that order. Every block but the last holds
256 bytes, and the payloads one after the other are `d`. -/
theorem contiguous_image (g : Globals) (pagebuf0 : Nat → Nat) (text : List Nat) (A : Nat)
    (d : List Nat) (tail : List (Option Nat))
    (hcheck : (check_pass g pagebuf0 text).p.rtc = 0)
    (hitems : (check_pass g pagebuf0 text).items = contig A d)
    (hA : A % 256 = 0) (hA256 : 256 ≤ A) (hL : 0 < d.length) (hL4 : d.length % 4 = 0)
    (hfit : A + d.length ≤ U32)
    (hrx : g.rx = ideal_replies (pages A d) ++ tail) :
    (write_pass g pagebuf0 text).p.rtc = 0 ∧
    (write_pass g pagebuf0 text).p.g.wlog = g.wlog ++ pages A d ∧
    (pages A d).map Prod.fst = (List.range ((d.length + 255) / 256)).map (fun j => A + 256 * j) ∧
    (∀ (i : Nat) (w : Nat × List Nat), (pages A d)[i]? = some w →
      w.1 % 256 = 0 ∧ 1 ≤ w.2.length ∧ w.2.length ≤ 256 ∧
      (i + 1 < (pages A d).length → w.2.length = 256)) ∧
    ((pages A d).map Prod.snd).flatten = d := by
  have hne : d ≠ [] := by
    intro h; rw [h] at hL; exact absurd hL (by simp)
  obtain ⟨h1, h2, -⟩ := contiguous_write_pass g pagebuf0 text A d tail hcheck hitems
    (by omega) hfit hne (by omega) hrx
  refine ⟨h1, h2, ?_, ?_, pages_flatten d.length A d (le_refl _)⟩
  · simp [pages]
  · intro i w hw
    obtain ⟨q1, q2, q3, q4⟩ := pages_lengths A d i w hw
    exact ⟨by rw [q1]; omega, q2, q3, q4⟩

set_option maxRecDepth 1000000 in
/-- Witness of `contiguous_image`: 260 bytes at `0x08000000` in nine data records; the
write pass issues the two writes at `0x08000000` (256 bytes) and `0x08000100` (4
bytes). -/
theorem contiguous_image_witness :
    (check_pass globalsTwoPages (fun _ => 0) hexTwoPages).p.rtc = 0 ∧
    (check_pass globalsTwoPages (fun _ => 0) hexTwoPages).items = contig 0x08000000 dataTwoPages ∧
    0x08000000 % 256 = 0 ∧ 256 ≤ 0x08000000 ∧ 0 < dataTwoPages.length ∧
    dataTwoPages.length % 4 = 0 ∧ 0x08000000 + dataTwoPages.length ≤ U32 ∧
    (write_pass globalsTwoPages (fun _ => 0) hexTwoPages).p.rtc = 0 ∧
    (write_pass globalsTwoPages (fun _ => 0) hexTwoPages).p.g.wlog =
      globalsTwoPages.wlog ++ pages 0x08000000 dataTwoPages ∧
    (pages 0x08000000 dataTwoPages).map Prod.fst = [0x08000000, 0x08000100] ∧
    (pages 0x08000000 dataTwoPages).map (fun w => w.2.length) = [256, 4] :=
  have h1 : (check_pass globalsTwoPages (fun _ => 0) hexTwoPages).p.rtc = 0 := by decide
  have h2 : (check_pass globalsTwoPages (fun _ => 0) hexTwoPages).items =
      contig 0x08000000 dataTwoPages := by decide
  have h3 : dataTwoPages.length = 260 := by decide
  have h := contiguous_image globalsTwoPages (fun _ => 0) hexTwoPages 0x08000000 dataTwoPages []
    h1 h2 (by decide) (by decide) (by rw [h3]; decide) (by rw [h3]) (by rw [h3]; decide)
    (List.append_nil _).symm
  ⟨h1, h2, by decide, by decide, by rw [h3]; decide, by rw [h3], by rw [h3]; decide,
    h.1, h.2.1, by decide, by decide⟩

/-- C9, as amended: for every HEX file that the check pass accepts and whose data are
`d`, between 2 and 256 bytes at the consecutive addresses `A, A+1, ...` with `A` at
least `0xFF`, the write pass against a target that answers without error emits exactly
one write: page base `A`, the address of the first data byte, holding all of `d`
(high-water `length d`). A record that straddles a 256-byte address boundary is not
split there; a page runs for 256 bytes from the address of the byte that opened it.
Scenario S2 (16 bytes at `0x080000F8`) is the witness. -/
theorem record_across_boundary_one_write (g : Globals) (pagebuf0 : Nat → Nat) (text : List Nat)
    (A : Nat) (d : List Nat) (tail : List (Option Nat))
    (hcheck : (check_pass g pagebuf0 text).p.rtc = 0)
    (hitems : (check_pass g pagebuf0 text).items = contig A d)
    (hA : 255 ≤ A) (hfit : A + d.length ≤ U32) (h2 : 2 ≤ d.length) (h256 : d.length ≤ 256)
    (hrx : g.rx = page_replies d ++ tail) :
    (write_pass g pagebuf0 text).p.rtc = 0 ∧
    (write_pass g pagebuf0 text).p.g.wlog = g.wlog ++ [(A, d)] ∧
    (write_pass g pagebuf0 text).p.g.rx = tail := by
  have hne : d ≠ [] := by
    intro h; rw [h] at h2; exact absurd h2 (by simp)
  have hp : pages A d = [(A, d)] := pages_single A d (by omega) h256
  have := contiguous_write_pass g pagebuf0 text A d tail hcheck hitems hA hfit hne (by omega)
    (by rw [hp, ideal_replies_cons, hrx]; simp [ideal_replies])
  rw [hp] at this
  exact this

/-- Witness of `record_across_boundary_one_write`, scenario S2: the record of 16 bytes
at `0x080000F8` is written as one write of 16 bytes at `0x080000F8`. -/
theorem record_across_boundary_one_write_witness :
    (check_pass (globals0 (page_replies (List.range' 1 16))) (fun _ => 0) hexS2).p.rtc = 0 ∧
    (check_pass (globals0 (page_replies (List.range' 1 16))) (fun _ => 0) hexS2).items =
      contig 0x080000F8 (List.range' 1 16) ∧
    255 ≤ 0x080000F8 ∧ 0x080000F8 + (List.range' 1 16).length ≤ U32 ∧
    2 ≤ (List.range' 1 16).length ∧ (List.range' 1 16).length ≤ 256 ∧
    (write_pass (globals0 (page_replies (List.range' 1 16))) (fun _ => 0) hexS2).p.rtc = 0 ∧
    (write_pass (globals0 (page_replies (List.range' 1 16))) (fun _ => 0) hexS2).p.g.wlog =
      (globals0 (page_replies (List.range' 1 16))).wlog ++ [(0x080000F8, List.range' 1 16)] :=
  have h := record_across_boundary_one_write (globals0 (page_replies (List.range' 1 16)))
    (fun _ => 0) hexS2 0x080000F8 (List.range' 1 16) [] (by decide) (by decide) (by decide)
    (by decide) (by decide) (by decide) (List.append_nil _).symm
  ⟨by decide, by decide, by decide, by decide, by decide, by decide, h.1, h.2.1⟩

/-! ## What a flush puts on the wire -/

theorem xorAll_lt (l : List Nat) : ∀ acc : Nat, acc < 256 → (∀ b ∈ l, b < 256) →
    xorAll acc l < 256 := by
  induction l with
  | nil => intro acc h _; exact h
  | cons b r ih =>
    intro acc h hb
    have h1 : acc ^^^ b < 2 ^ 8 := Nat.xor_lt_two_pow (by simpa using h) (by simpa using hb b (by simp))
    exact ih (acc ^^^ b) (by simpa using h1) (fun x hx => hb x (by simp [hx]))

theorem slice_one (a : Nat → Nat) : slice a 1 = [a 0] := rfl

theorem slice_two (a : Nat → Nat) : slice a 2 = [a 0, a 1] := rfl

theorem slice_five (a : Nat → Nat) : slice a 5 = [a 0, a 1, a 2, a 3, a 4] := rfl

theorem write_memory_tx (g : Globals) (image : Nat → Nat) (address len : Nat)
    (r : List (Option Nat)) (h1 : 1 ≤ len) (hlen : len ≤ 256)
    (hb : ∀ b ∈ slice image len, b < 256) (h : g.rx = acks 3 ++ r) :
    (stm32_write_memory g image address len).2.tx =
      g.tx ++ write_frame (g.bootloader_info STM32_INFO_WRITE_MEMORY_CMD_IDX) address
        (slice image len) := by
  have h' : g.rx = some STM32_ACK :: some STM32_ACK :: some STM32_ACK :: r := by
    rw [h]; rfl
  have hs : sub32 len 1 % 256 = len - 1 := by unfold sub32 U32; omega
  have hx : xorAll (len - 1) (slice image len) % 256 = xorAll (len - 1) (slice image len) :=
    Nat.mod_eq_of_lt (xorAll_lt _ _ (by omega) hb)
  unfold stm32_write_memory
  rw [if_neg (by omega)]
  simp only []
  rw [wait_for_ack_ok _ (some STM32_ACK :: some STM32_ACK :: r) (by simp [h'])]
  simp only [lt_self_iff_false, if_false]
  rw [wait_for_ack_ok _ (some STM32_ACK :: r) (by simp [serial_write_buf, set_address])]
  simp only [lt_self_iff_false, if_false]
  rw [wait_for_ack_ok _ r (by simp [serial_write_buf])]
  simp [serial_write_buf, set_address, stm32_write_cmd, slice_one, slice_two, slice_five, upd,
    write_frame, addr_frame, hs, hx]

theorem poll_tx (g : Globals) : (stm32_serial_poll g).2.tx = g.tx := by
  unfold stm32_serial_poll; split <;> rfl

theorem readLoop_tx (n : Nat) : ∀ (i : Nat) (g : Globals), (readLoop n i g).2.tx = g.tx := by
  induction n with
  | zero => intro i g; rfl
  | succ n ih =>
    intro i g
    simp only [readLoop]
    split_ifs
    · exact poll_tx g
    · rw [ih]; exact poll_tx g
    · rw [ih]; exact poll_tx g

theorem read_memory_tx (g : Globals) (address : Nat) (back : List Nat) (r : List (Option Nat))
    (h1 : 1 ≤ back.length) (hlen : back.length ≤ 256)
    (h : g.rx = acks 3 ++ (back.map some ++ r)) :
    (stm32_read_memory g address back.length).2.tx =
      g.tx ++ read_frame (g.bootloader_info STM32_INFO_READ_MEMORY_CMD_IDX) address
        back.length := by
  have h' : g.rx = some STM32_ACK :: some STM32_ACK :: some STM32_ACK :: (back.map some ++ r) := by
    rw [h]; rfl
  have hs : sub32 back.length 1 % 256 = back.length - 1 := by unfold sub32 U32; omega
  unfold stm32_read_memory
  simp only []
  rw [wait_for_ack_ok _ (some STM32_ACK :: some STM32_ACK :: (back.map some ++ r)) (by simp [h'])]
  simp only [lt_self_iff_false, if_false]
  rw [wait_for_ack_ok _ (some STM32_ACK :: (back.map some ++ r))
    (by simp [serial_write_buf, set_address])]
  simp only [lt_self_iff_false, if_false]
  rw [wait_for_ack_ok _ (back.map some ++ r) (by simp [serial_write_buf])]
  simp only [lt_self_iff_false, if_false]
  split_ifs <;>
  simp [readLoop_tx, serial_write_buf, set_address, stm32_write_cmd, slice_one, slice_two,
    slice_five, upd, read_frame, addr_frame, hs]

theorem write_verify_tx (p : Page) (cur : List Nat) (tail : List (Option Nat))
    (hcur : slice p.pagebuf (sub32 p.pageidx p.pageaddr) = cur) (h1 : 1 ≤ cur.length)
    (hn : cur.length ≤ 256) (hb : ∀ b ∈ cur, b < 256) (hrx : p.g.rx = page_replies cur ++ tail) :
    (write_verify p).1.g.tx =
      p.g.tx ++ write_frame (p.g.bootloader_info STM32_INFO_WRITE_MEMORY_CMD_IDX) p.pageaddr cur
        ++ read_frame (p.g.bootloader_info STM32_INFO_READ_MEMORY_CMD_IDX) p.pageaddr cur.length := by
  have hlen : sub32 p.pageidx p.pageaddr = cur.length := by rw [← hcur, slice_length]
  have hrx' : p.g.rx = acks 3 ++ (acks 3 ++ (cur.map some ++ tail)) := by
    rw [hrx, page_replies, acks_six]; simp
  rw [hlen] at hcur
  obtain ⟨hw1, hw2⟩ := write_memory_ok p.g p.pagebuf p.pageaddr cur.length _ hn hrx'
  have hw3 := write_memory_tx p.g p.pagebuf p.pageaddr cur.length _ h1 hn (by rw [hcur]; exact hb)
    hrx'
  have hw4 := (write_memory_frame p.g p.pagebuf p.pageaddr cur.length).1
  obtain ⟨hr1, hr2, hr3⟩ := read_memory_ok
    (stm32_write_memory p.g p.pagebuf p.pageaddr cur.length).2 p.pageaddr cur tail hn hb hw2
  have hr4 := read_memory_tx (stm32_write_memory p.g p.pagebuf p.pageaddr cur.length).2
    p.pageaddr cur tail h1 hn hw2
  unfold write_verify
  simp only [hlen]
  rw [if_neg (by rw [hw1]; decide), if_neg hr1]
  simp only [hr3, hcur, ne_eq, not_true_eq_false, if_false]
  rw [hr4, hw3, hw4, hcur]

/-- Contiguous bytes that stay inside the window of the page are stored without any
traffic on the serial link. -/
theorem fill_one_page (rest : List Nat) :
    ∀ (p : Page) (m : Nat) (cur : List Nat),
      1 ≤ m → p.pageidx = p.pageaddr + (m - 1) → slice p.pagebuf m = cur →
      m + rest.length ≤ 256 → p.pageaddr + m + rest.length ≤ U32 →
      (asm_fold true (contig (p.pageaddr + m) rest) p).2 = false ∧
      (asm_fold true (contig (p.pageaddr + m) rest) p).1.g = p.g ∧
      (asm_fold true (contig (p.pageaddr + m) rest) p).1.pageaddr = p.pageaddr ∧
      (asm_fold true (contig (p.pageaddr + m) rest) p).1.pageidx =
        p.pageaddr + (m + rest.length - 1) ∧
      slice (asm_fold true (contig (p.pageaddr + m) rest) p).1.pagebuf (m + rest.length) =
        cur ++ rest := by
  induction rest with
  | nil =>
    intro p m cur _ hidx hcur _ _
    simp only [contig, asm_fold, List.length_nil, Nat.add_zero, List.append_nil]
    exact ⟨trivial, trivial, trivial, hidx, hcur⟩
  | cons x r ih =>
    intro p m cur h1 hidx hcur hm hfit
    simp only [List.length_cons, U32] at hfit hm
    have hsub : sub32 (p.pageaddr + m) p.pageaddr = m := by
      unfold sub32 U32; omega
    have hq := page_byte_in true (p.pageaddr + m) x p (by rw [hsub]; show m < 256; omega)
    rw [hsub] at hq
    have := ih { p with pageidx := p.pageaddr + m, pagebuf := upd p.pagebuf m x } (m + 1)
      (cur ++ [x]) (by omega) (by simp) (by rw [slice_upd_succ, hcur]) (by omega)
      (by simp only [U32]; omega)
    simp only [contig, asm_fold, hq, Bool.false_eq_true, if_false, List.length_cons]
    simpa [Nat.add_assoc, Nat.add_comm 1 r.length] using this

/-- The EOF flush of a page that holds the bytes `cur`, answered without error: the
write frame and the read command for `(pageaddr, cur)` go out. -/
theorem eof_flush_tx (q : Page) (cur : List Nat) (tail : List (Option Nat))
    (h2 : 2 ≤ cur.length) (h256 : cur.length ≤ 256)
    (hidx : q.pageidx = q.pageaddr + (cur.length - 1)) (hfit : q.pageaddr + cur.length ≤ U32)
    (hcur : slice q.pagebuf cur.length = cur) (hb : ∀ b ∈ cur, b < 256)
    (hrx : q.g.rx = page_replies cur ++ tail) :
    (eof_flush true q).g.tx =
      q.g.tx ++ write_frame (q.g.bootloader_info STM32_INFO_WRITE_MEMORY_CMD_IDX) q.pageaddr cur
        ++ read_frame (q.g.bootloader_info STM32_INFO_READ_MEMORY_CMD_IDX) q.pageaddr cur.length := by
  simp only [U32] at hfit
  have hsub1 : sub32 q.pageidx q.pageaddr = cur.length - 1 := by
    rw [hidx]; unfold sub32 U32; omega
  have hsub2 : sub32 ((q.pageidx + 1) % U32) q.pageaddr = cur.length := by
    rw [hidx]; unfold sub32 U32; omega
  obtain ⟨hv1, -⟩ := write_verify_ok { q with pageidx := (q.pageidx + 1) % U32 } cur tail
    (by simp only [hsub2]; exact hcur) h256 hb hrx
  have htx := write_verify_tx { q with pageidx := (q.pageidx + 1) % U32 } cur tail
    (by simp only [hsub2]; exact hcur) (by omega) h256 hb hrx
  unfold eof_flush
  rw [if_pos (by omega)]
  simp only [if_true, hv1, Bool.false_eq_true, if_false]
  exact htx

/-- The wire trace of a single page: for every HEX file that the check pass accepts and
whose data are `d`, between 2 and 256 bytes at the consecutive addresses from `a` with
`a` at least `0xFF`, and a target that answers without error, the write pass transmits
exactly the write frame for `(a, d)` with the write opcode reported by GET, followed
by the read command of the verify step. -/
theorem single_page_trace (g : Globals) (pagebuf0 : Nat → Nat) (text : List Nat) (a : Nat)
    (d : List Nat) (tail : List (Option Nat))
    (hcheck : (check_pass g pagebuf0 text).p.rtc = 0)
    (hitems : (check_pass g pagebuf0 text).items = contig a d)
    (ha : 255 ≤ a) (h2 : 2 ≤ d.length) (h256 : d.length ≤ 256) (hfit : a + d.length ≤ U32)
    (hrx : g.rx = page_replies d ++ tail) :
    (write_pass g pagebuf0 text).p.g.tx =
      g.tx ++ write_frame (g.bootloader_info STM32_INFO_WRITE_MEMORY_CMD_IDX) a d
        ++ read_frame (g.bootloader_info STM32_INFO_READ_MEMORY_CMD_IDX) a d.length := by
  obtain ⟨hp, hb⟩ := write_pass_after_items g pagebuf0 text hcheck
  rw [hitems] at hp hb
  have hb' : ∀ b ∈ d, b < 256 := by
    intro b hbd
    rw [← contig_snd d a] at hbd
    obtain ⟨x, hx, hxb⟩ := List.mem_map.1 hbd
    rw [← hxb]
    exact hb x hx
  rw [hp]
  cases d with
  | nil => simp at h2
  | cons b r =>
    simp only [List.length_cons, U32] at hfit h2 h256
    have hsub : PAGESIZE ≤ sub32 a (Page.init g pagebuf0).pageaddr := by
      show 256 ≤ sub32 a 0xffffffff
      unfold sub32 U32; omega
    have hq := page_byte_first true a b (Page.init g pagebuf0) hsub rfl
    rw [sub32_self] at hq
    obtain ⟨ha1, -⟩ := after_items_cons a b (contig (a + 1) r) (Page.init g pagebuf0)
      (by rw [hq])
    simp only [contig]
    rw [ha1, hq]
    obtain ⟨f1, f2, f3, f4, f5⟩ := fill_one_page r
      { Page.init g pagebuf0 with pageidx := a, pageaddr := a, pagebuf := upd (fun _ => 0xFF) 0 b }
      1 [b] (by omega) rfl rfl (by omega) (by simp only [U32]; omega)
    simp only [List.singleton_append] at f5
    unfold after_items
    rw [if_neg (by rw [f1]; simp)]
    have hlen : (b :: r).length = 1 + r.length := by simp [Nat.add_comm]
    rw [eof_flush_tx _ (b :: r) tail (by rw [hlen]; omega) (by rw [hlen]; omega)
      (by rw [f4, f3, hlen]) (by rw [f3, hlen]; simp only [U32]; omega)
      (by rw [hlen]; exact f5) hb' (by rw [f2]; exact hrx)]
    rw [f2, f3]
    rfl

/-- Witness of `single_page_trace`, scenario S1: `31 CE`, `08 00 00 00 08`, then
`07 01 02 03 04 05 06 07 08 0F`, followed by the read command. -/
theorem single_page_trace_witness :
    (write_pass (globals0 (page_replies [1, 2, 3, 4, 5, 6, 7, 8])) (fun _ => 0) hexS1).p.g.tx =
      [] ++ write_frame 0x31 0x08000000 [1, 2, 3, 4, 5, 6, 7, 8] ++ read_frame 0x11 0x08000000 8 ∧
    write_frame 0x31 0x08000000 [1, 2, 3, 4, 5, 6, 7, 8] =
      [0x31, 0xCE, 0x08, 0x00, 0x00, 0x00, 0x08, 0x07, 1, 2, 3, 4, 5, 6, 7, 8, 0x0F] :=
  ⟨single_page_trace (globals0 (page_replies [1, 2, 3, 4, 5, 6, 7, 8])) (fun _ => 0) hexS1
      0x08000000 [1, 2, 3, 4, 5, 6, 7, 8] [] (by decide) (by decide) (by decide) (by decide)
      (by decide) (by decide) (List.append_nil _).symm,
   by decide⟩

/-! ## C19: the frame of `stm32_write_memory` -/

theorem and_ff (x : Nat) : x &&& 0xFF = x % 256 :=
  Nat.and_pow_two_sub_one_eq_mod x 8

theorem addr_frame_bytes (a : Nat) (ha : a < U32) :
    addr_frame a = [a >>> 24, (a >>> 16) % 256, (a >>> 8) % 256, a % 256,
      (a >>> 24) ^^^ ((a >>> 16) % 256) ^^^ ((a >>> 8) % 256) ^^^ (a % 256)] := by
  have h24 : (a >>> 24) % 256 = a >>> 24 := by
    apply Nat.mod_eq_of_lt
    rw [Nat.shiftRight_eq_div_pow]
    unfold U32 at ha
    omega
  simp only [addr_frame, and_ff, h24]

/-- C19 (write_memory frame): for every 32-bit address `a` and every block of `len` data
bytes with `1 ≤ len ≤ 256`, when the target answers each of the three stages with ACK,
`stm32_write_memory` returns 0 (success), consumes just the three ACKs and transmits
exactly the write opcode `w` and its complement, the four bytes of `a` (most significant
first) and their XOR, the length byte `n = len - 1`, the `len = n + 1` data bytes and the
XOR of `n` with all data bytes. -/
theorem write_memory_wire (g : Globals) (image : Nat → Nat) (a len : Nat)
    (r : List (Option Nat)) (h1 : 1 ≤ len) (hlen : len ≤ 256) (ha : a < U32)
    (hb : ∀ i < len, image i < 256) (h : g.rx = acks 3 ++ r) :
    (stm32_write_memory g image a len).1 = 0 ∧
    (stm32_write_memory g image a len).2.rx = r ∧
    (stm32_write_memory g image a len).2.tx = g.tx ++
      ([g.bootloader_info STM32_INFO_WRITE_MEMORY_CMD_IDX % 256,
        255 - g.bootloader_info STM32_INFO_WRITE_MEMORY_CMD_IDX % 256,
        a >>> 24, (a >>> 16) % 256, (a >>> 8) % 256, a % 256,
        (a >>> 24) ^^^ ((a >>> 16) % 256) ^^^ ((a >>> 8) % 256) ^^^ (a % 256),
        len - 1] ++ slice image len ++ [xorAll (len - 1) (slice image len)]) ∧
    (slice image len).length = (len - 1) + 1 := by
  have hb' : ∀ b ∈ slice image len, b < 256 := by
    intro b hb'
    simp only [slice, List.mem_map, List.mem_range] at hb'
    obtain ⟨i, hi, rfl⟩ := hb'
    exact hb i hi
  obtain ⟨h2, h3⟩ := write_memory_ok g image a len r hlen h
  refine ⟨h2, h3, ?_, by rw [slice_length]; omega⟩
  rw [write_memory_tx g image a len r h1 hlen hb' h, write_frame, addr_frame_bytes a ha,
    slice_length]
  simp [not8]

/-- The theorem at the first page of scenario S1: eight bytes to `0x08000000` with the
opcode `0x31`. -/
theorem write_memory_wire_witness :
    (stm32_write_memory (globals0 (acks 3)) (fun i => i + 1) 0x08000000 8).1 = 0 ∧
    (stm32_write_memory (globals0 (acks 3)) (fun i => i + 1) 0x08000000 8).2.tx =
      [0x31, 0xCE, 0x08, 0x00, 0x00, 0x00, 0x08, 0x07, 1, 2, 3, 4, 5, 6, 7, 8, 0x0F] := by
  have h := write_memory_wire (globals0 (acks 3)) (fun i => i + 1) 0x08000000 8 []
    (by decide) (by decide) (by decide) (by intro i hi; show i + 1 < 256; omega) (by decide)
  refine ⟨h.1, ?_⟩
  rw [h.2.2.1]
  decide

/-! ## C20: the frame of `stm32_read_memory` -/

theorem wait_for_ack_missing (g : Globals) (h : no_ack g.rx) : (wait_for_ack g).1 = -1 := by
  unfold wait_for_ack stm32_serial_poll
  unfold no_ack at h
  split at h
  · rename_i c r hrx
    rw [hrx]
    simp only []
    split_ifs
    · rfl
    · rfl
    · rename_i h1 h2
      exfalso
      apply h
      have : ((c % 256 : Nat) : Int) = (STM32_ACK : Int) := by simpa using h2
      exact_mod_cast this
  · split <;> simp_all

theorem readLoop_missing (back : List Nat) : ∀ (n i : Nat) (g : Globals)
    (tail : List (Option Nat)), g.rx = back.map some ++ tail → no_byte tail →
    back.length < n → (readLoop n i g).1 = -1 := by
  induction back with
  | nil =>
    intro n i g tail h ht hn
    obtain ⟨m, rfl⟩ : ∃ m, n = m + 1 := ⟨n - 1, by simp at hn; omega⟩
    simp only [List.map_nil, List.nil_append] at h
    have hp : (stm32_serial_poll g).1 = -1 := by
      unfold stm32_serial_poll
      unfold no_byte at ht
      rw [h]
      split at ht
      · exact absurd ht id
      · split <;> simp_all
    simp only [readLoop, hp]
    rfl
  | cons b rest ih =>
    intro n i g tail h ht hn
    obtain ⟨m, rfl⟩ : ∃ m, n = m + 1 := ⟨n - 1, by simp at hn; omega⟩
    have hp : stm32_serial_poll g = (((b % 256 : Nat) : Int), { g with rx := rest.map some ++ tail }) := by
      unfold stm32_serial_poll
      rw [h]
      rfl
    simp only [readLoop, hp]
    rw [if_neg (by omega)]
    simp only [List.length_cons] at hn
    split_ifs
    · exact ih m (i + 1) _ tail rfl ht (by omega)
    · exact ih m (i + 1) _ tail rfl ht (by omega)

theorem read_memory_missing_ack (g : Globals) (a len k : Nat) (tail : List (Option Nat))
    (hk : k < 3) (h : g.rx = acks k ++ tail) (ht : no_ack tail) :
    (stm32_read_memory g a len).1 = -1 := by
  unfold stm32_read_memory
  simp only []
  interval_cases k
  · rw [if_pos]
    rw [wait_for_ack_missing _ (by simpa [stm32_write_cmd, serial_write_buf, acks, h] using ht)]
    decide
  · rw [wait_for_ack_ok _ tail (by simp [stm32_write_cmd, serial_write_buf, acks, h])]
    simp only [lt_self_iff_false, if_false]
    rw [if_pos]
    rw [wait_for_ack_missing _ (by simpa [serial_write_buf, set_address] using ht)]
    decide
  · rw [wait_for_ack_ok _ (some STM32_ACK :: tail)
      (by simp [stm32_write_cmd, serial_write_buf, acks, h, List.replicate])]
    simp only [lt_self_iff_false, if_false]
    rw [wait_for_ack_ok _ tail (by simp [serial_write_buf, set_address])]
    simp only [lt_self_iff_false, if_false]
    rw [if_pos]
    rw [wait_for_ack_missing _ (by simpa [serial_write_buf] using ht)]
    decide

theorem read_memory_missing_byte (g : Globals) (a len : Nat) (back : List Nat)
    (tail : List (Option Nat)) (hn : back.length < len)
    (h : g.rx = acks 3 ++ (back.map some ++ tail)) (ht : no_byte tail) :
    (stm32_read_memory g a len).1 = -1 := by
  have h' : g.rx = some STM32_ACK :: some STM32_ACK :: some STM32_ACK :: (back.map some ++ tail) := by
    rw [h]; rfl
  unfold stm32_read_memory
  simp only []
  rw [wait_for_ack_ok _ (some STM32_ACK :: some STM32_ACK :: (back.map some ++ tail))
    (by simp [stm32_write_cmd, serial_write_buf, h'])]
  simp only [lt_self_iff_false, if_false]
  rw [wait_for_ack_ok _ (some STM32_ACK :: (back.map some ++ tail))
    (by simp [serial_write_buf, set_address])]
  simp only [lt_self_iff_false, if_false]
  rw [wait_for_ack_ok _ (back.map some ++ tail) (by simp [serial_write_buf])]
  simp only [lt_self_iff_false, if_false]
  rw [if_pos]
  rw [readLoop_missing back len 0 _ tail rfl ht hn]
  decide

theorem read_memory_len (g : Globals) (address : Nat) (back : List Nat) (r : List (Option Nat))
    (hlen : back.length ≤ 256) (hb : ∀ b ∈ back, b < 256)
    (h : g.rx = acks 3 ++ (back.map some ++ r)) :
    (stm32_read_memory g address back.length).1 = (back.length : Int) := by
  have hneg := (read_memory_ok g address back r hlen hb h).1
  unfold stm32_read_memory at hneg ⊢
  simp only [] at hneg ⊢
  split_ifs at hneg ⊢ <;> first | rfl | (exfalso; exact hneg (by simp))

/-- C20 (read_memory frame): for every 32-bit address `a` and every `len` with
`1 ≤ len ≤ 256`: when the target answers each of the three stages with ACK and then sends
the `len` bytes `back`, `stm32_read_memory` returns `len`, has transmitted exactly the
read opcode and its complement, the four bytes of `a` and their XOR, `len - 1` and its
complement, has consumed just the three ACKs and the `len` bytes, and `stm32_buf[0..len)`
holds `back` in order; when one of the three ACKs does not come, or the link falls silent
before all `len` bytes are in, it returns `-1`. -/
theorem read_memory_wire (g : Globals) (a len : Nat) (h1 : 1 ≤ len) (hlen : len ≤ 256)
    (ha : a < U32) :
    (∀ (back : List Nat) (r : List (Option Nat)), back.length = len → (∀ b ∈ back, b < 256) →
      g.rx = acks 3 ++ (back.map some ++ r) →
      (stm32_read_memory g a len).1 = (len : Int) ∧
      (stm32_read_memory g a len).2.rx = r ∧
      slice (stm32_read_memory g a len).2.stm32_buf len = back ∧
      (stm32_read_memory g a len).2.tx = g.tx ++
        [g.bootloader_info STM32_INFO_READ_MEMORY_CMD_IDX % 256,
         255 - g.bootloader_info STM32_INFO_READ_MEMORY_CMD_IDX % 256,
         a >>> 24, (a >>> 16) % 256, (a >>> 8) % 256, a % 256,
         (a >>> 24) ^^^ ((a >>> 16) % 256) ^^^ ((a >>> 8) % 256) ^^^ (a % 256),
         len - 1, 255 - (len - 1)]) ∧
    (∀ (k : Nat) (tail : List (Option Nat)), k < 3 → g.rx = acks k ++ tail → no_ack tail →
      (stm32_read_memory g a len).1 = -1) ∧
    (∀ (back : List Nat) (tail : List (Option Nat)), back.length < len →
      g.rx = acks 3 ++ (back.map some ++ tail) → no_byte tail →
      (stm32_read_memory g a len).1 = -1) := by
  refine ⟨?_, ?_, ?_⟩
  · intro back r hl hb h
    subst hl
    obtain ⟨-, h2, h3⟩ := read_memory_ok g a back r hlen hb h
    refine ⟨read_memory_len g a back r hlen hb h, h2, h3, ?_⟩
    rw [read_memory_tx g a back r h1 hlen h, read_frame, addr_frame_bytes a ha]
    have hm : (back.length - 1) % 256 = back.length - 1 := by omega
    simp [not8, hm]
  · intro k tail hk h ht
    exact read_memory_missing_ack g a len k tail hk h ht
  · intro back tail hn h ht
    exact read_memory_missing_byte g a len back tail hn h ht

/-- The theorem at a read of two bytes from `0x08000000` with the opcode `0x11`: the
answered read, a NACK in place of the third ACK, and a timeout after the first byte. -/
theorem read_memory_wire_witness :
    ((stm32_read_memory (globals0 (acks 3 ++ [some 1, some 2])) 0x08000000 2).1 = 2 ∧
     (stm32_read_memory (globals0 (acks 3 ++ [some 1, some 2])) 0x08000000 2).2.tx =
       [0x11, 0xEE, 0x08, 0x00, 0x00, 0x00, 0x08, 0x01, 0xFE]) ∧
    (stm32_read_memory (globals0 (acks 2 ++ [some 0x1F])) 0x08000000 2).1 = -1 ∧
    (stm32_read_memory (globals0 (acks 3 ++ [some 1, none])) 0x08000000 2).1 = -1 := by
  refine ⟨?_, ?_, ?_⟩
  · have h := (read_memory_wire (globals0 (acks 3 ++ [some 1, some 2])) 0x08000000 2
      (by decide) (by decide) (by decide)).1 [1, 2] [] rfl (by decide) rfl
    refine ⟨h.1, ?_⟩
    rw [h.2.2.2]
    decide
  · exact (read_memory_wire (globals0 (acks 2 ++ [some 0x1F])) 0x08000000 2
      (by decide) (by decide) (by decide)).2.1 2 [some 0x1F] (by decide) rfl
      (by show 0x1F % 256 ≠ STM32_ACK; decide)
  · exact (read_memory_wire (globals0 (acks 3 ++ [some 1, none])) 0x08000000 2
      (by decide) (by decide) (by decide)).2.2 [1] [none] (by decide) rfl trivial

/-! ## Lines in the check pass -/

theorem process_line_of_record (do_flash : Bool) (s : Flash) (l : List Nat)
    (h : is_record l = true) :
    process_line do_flash s l =
      process_record do_flash s (rec_drlo l) (rec_type l)
        (rec_datalen l + rec_addrh l + rec_addrl l + rec_type l) (rec_data l) (rec_chcksum l) := by
  simp only [is_record, decide_eq_true_eq] at h
  unfold process_line
  rw [if_pos ⟨h.1, by omega⟩, if_pos (by omega)]

theorem process_line_not_record (do_flash : Bool) (s : Flash) (l : List Nat)
    (h : is_record l = false) : process_line do_flash s l = s.fail := by
  simp only [is_record, decide_eq_false_iff_not] at h
  unfold process_line
  split_ifs with h1 h2
  · exact absurd ⟨h1.1, by omega⟩ h
  · rfl
  · rfl

theorem process_line_eof (do_flash : Bool) (s : Flash) (l : List Nat)
    (h : is_eof_record l = true) : process_line do_flash s l = (eof_record do_flash s, true) := by
  simp only [is_eof_record, Bool.and_eq_true, decide_eq_true_eq] at h
  rw [process_line_of_record do_flash s l h.1, h.2]
  rfl

/-- In the check pass a record that is not of type 1 leaves the flag `eof_record_found`
and the line counter alone; it ends the loop only with `rtc = -1` and otherwise does not
touch `rtc`. -/
theorem check_record_step (s : Flash) (drlo rectype sum : Nat) (data : List Nat) (chcksum : Nat)
    (h1 : rectype ≠ 1) :
    (process_record false s drlo rectype sum data chcksum).1.eof_record_found
      = s.eof_record_found ∧
    (process_record false s drlo rectype sum data chcksum).1.line = s.line ∧
    ((process_record false s drlo rectype sum data chcksum).2 = true →
      (process_record false s drlo rectype sum data chcksum).1.p.rtc = -1) ∧
    ((process_record false s drlo rectype sum data chcksum).2 = false →
      (process_record false s drlo rectype sum data chcksum).1.p.rtc = s.p.rtc) := by
  by_cases h0 : rectype = 0
  · subst h0
    have hd := data_loop_check drlo data 0 s sum
    have ha := data_loop_asm false drlo data 0 s sum
    rw [process_record_data]
    split_ifs with c1 c2
    · exact ⟨ha.2.2.2.1, hd.2.2.2, fun _ => c1, fun h => by simp at h⟩
    · exact ⟨ha.2.2.2.1, hd.2.2.2, fun _ => rfl, fun h => by simp [Flash.fail] at h⟩
    · exact ⟨ha.2.2.2.1, hd.2.2.2, fun h => by simp at h, fun _ => hd.2.2.1⟩
  by_cases h4 : rectype = 4
  · subst h4
    rw [process_record_ela]
    split_ifs <;> simp [Flash.fail]
  by_cases h5 : rectype = 5
  · subst h5
    rw [process_record_sla]
    split_ifs <;> simp [Flash.fail]
  rw [process_record_other false s drlo rectype sum data chcksum h0 h1 h4 h5]
  simp [Flash.fail]

theorem check_line_step (s : Flash) (l : List Nat) (h : is_eof_record l = false) :
    (process_line false s l).1.eof_record_found = s.eof_record_found ∧
    (process_line false s l).1.line = s.line ∧
    ((process_line false s l).2 = true → (process_line false s l).1.p.rtc = -1) ∧
    ((process_line false s l).2 = false → (process_line false s l).1.p.rtc = s.p.rtc) := by
  cases hr : is_record l with
  | false =>
    rw [process_line_not_record false s l hr]
    simp [Flash.fail]
  | true =>
    rw [process_line_of_record false s l hr]
    apply check_record_step
    intro h1
    simp [is_eof_record, hr, h1] at h

/-- The check pass over lines none of which is an End-of-File record: the flag
`eof_record_found` stays clear and `rtc` stays 0 or -1. -/
theorem check_loop_no_eof : ∀ (lines : List (List Nat)) (s : Flash),
    (∀ l ∈ lines, is_eof_record l = false) → s.eof_record_found = false →
    (s.p.rtc = 0 ∨ s.p.rtc = -1) →
    (line_loop false lines s).eof_record_found = false ∧
    ((line_loop false lines s).p.rtc = 0 ∨ (line_loop false lines s).p.rtc = -1) := by
  intro lines
  induction lines with
  | nil => intro s _ he hr; exact ⟨he, hr⟩
  | cons l rest ih =>
    intro s hl he hr
    simp only [line_loop]
    split_ifs with h0 hb
    · exact ⟨he, hr⟩
    · have hs := check_line_step (s.count_line l.length) l (hl l (by simp))
      exact ⟨hs.1.trans he, Or.inr (hs.2.2.1 hb)⟩
    · have hs := check_line_step (s.count_line l.length) l (hl l (by simp))
      have hb' : (process_line false (s.count_line l.length) l).2 = false := by simpa using hb
      refine ih _ (fun m hm => hl m (by simp [hm])) (hs.1.trans he) ?_
      rw [hs.2.2.2 hb']
      exact hr

theorem finish_check_fail (s : Flash) (he : s.eof_record_found = false)
    (hr : s.p.rtc = 0 ∨ s.p.rtc = -1) : (finish false s).p.rtc = -1 := by
  unfold finish
  simp only [Bool.false_eq_true, if_false]
  split_ifs with h
  · rfl
  · rcases hr with hr | hr
    · exact absurd ⟨hr, he⟩ h
    · exact hr

/-- A line at which the loop always stops hides the lines behind it. -/
theorem line_loop_stop_at (do_flash : Bool) (l : List Nat) (post : List (List Nat))
    (hstop : l.length = 0 ∨ ∀ t, (process_line do_flash t l).2 = true) :
    ∀ (pre : List (List Nat)) (s : Flash),
      line_loop do_flash (pre ++ l :: post) s = line_loop do_flash (pre ++ [l]) s := by
  intro pre
  induction pre with
  | nil =>
    intro s
    simp only [List.nil_append, line_loop]
    rcases hstop with h | h
    · simp [h]
    · simp [h]
  | cons m rest ih =>
    intro s
    simp only [List.cons_append, line_loop]
    split_ifs
    · rfl
    · rfl
    · exact ih _
/-! ## C11, C12, C14, C15: lines the check pass accepts and refuses -/

/-- C11 (checksum covers every line), evaluated at a failing input: the check pass
accepts S1, and it accepts S1 with the checksum byte of the End-of-File line changed from
`FF` to `00` as well, although the sum of that line is then not 0 modulo 256. -/
theorem eof_line_checksum_not_tested :
    (check_pass (globals0 []) (fun _ => 0) hexS1).p.rtc = 0 ∧
    (check_pass (globals0 []) (fun _ => 0) hexEofSum).p.rtc = 0 ∧
    line_sum (bytes ":0000000100") % 256 ≠ 0 := by
  decide

/-- C12 (EOF requirement): for every file none of whose lines is an End-of-File record (a
line that passes the format and length tests and has type 1), the empty file included,
the check pass returns `-1`. -/
theorem eof_record_required (g : Globals) (pagebuf0 : Nat → Nat) (text : List Nat)
    (h : ∀ l ∈ file_lines text [], is_eof_record l = false) :
    (check_pass g pagebuf0 text).p.rtc = -1 := by
  unfold check_pass stm32_flash_image
  simp only []
  obtain ⟨he, hr⟩ := check_loop_no_eof (file_lines text []) (Flash.init g pagebuf0 0) h rfl
    (Or.inl rfl)
  exact finish_check_fail _ he hr

/-- The theorem at scenario S5 (S1 without its End-of-File line) and at the empty file. -/
theorem eof_record_required_witness :
    (check_pass (globals0 []) (fun _ => 0) hexS5).p.rtc = -1 ∧
    (check_pass (globals0 []) (fun _ => 0) []).p.rtc = -1 :=
  ⟨eof_record_required (globals0 []) (fun _ => 0) hexS5 (by decide),
   eof_record_required (globals0 []) (fun _ => 0) [] (by decide)⟩

theorem check_stops_fail (g : Globals) (pagebuf0 : Nat → Nat) (text : List Nat)
    (pre : List (List Nat)) (l : List Nat) (post : List (List Nat))
    (hl : file_lines text [] = pre ++ l :: post)
    (hpre : ∀ m ∈ pre, is_eof_record m = false) (hne : is_eof_record l = false)
    (hstop : l.length = 0 ∨ ∀ t, (process_line false t l).2 = true) :
    (check_pass g pagebuf0 text).p.rtc = -1 := by
  unfold check_pass stm32_flash_image
  simp only []
  rw [hl, line_loop_stop_at false l post hstop pre]
  obtain ⟨he, hr⟩ := check_loop_no_eof (pre ++ [l]) (Flash.init g pagebuf0 0)
    (by
      intro m hm
      rcases List.mem_append.1 hm with h | h
      · exact hpre m h
      · rw [List.mem_singleton.1 h]; exact hne) rfl (Or.inl rfl)
  exact finish_check_fail _ he hr

theorem check_fail_at_line (s : Flash) (l : List Nat) (post : List (List Nat))
    (hne : l ≠ []) (hf : ∀ t, process_line false t l = t.fail) :
    (line_loop false (l :: post) s).p.rtc = -1 ∧
    (line_loop false (l :: post) s).line = s.line + 1 := by
  have h0 : ¬ l.length = 0 := by
    intro h
    exact hne (List.length_eq_zero.1 h)
  simp only [line_loop, h0, if_false, hf]
  simp [Flash.fail, Flash.count_line]
set_option maxRecDepth 1000000 in
/-- C14 as stated, refuted: the line `longLine` of the file `hexLongLine` has 259
characters and declares 122 data bytes, so its length differs from `11 + 2 * 122 = 255`,
yet the check pass accepts the file: the line reader keeps the first 255 characters only. -/
theorem overlong_line_accepted :
    longLine.length = 259 ∧ rec_datalen longLine = 122 ∧
    longLine.length ≠ 11 + 2 * rec_datalen longLine ∧
    hexLongLine = longLine ++ bytes "\n:00000001FF\n" ∧
    (check_pass (globals0 []) (fun _ => 0) hexLongLine).p.rtc = 0 := by
  decide

/-- C14 (malformed lines are rejected), on the lines as the line reader delivers them
(`'\r'` dropped, at most the first 255 characters kept): for every file in which some
line with no End-of-File record before it is empty, does not begin with `':'`, has fewer
than 11 characters or a length different from `11 + 2 * datalen`, the check pass returns
`-1`; unless the line is empty, the loop fails at that very line. -/
theorem malformed_line_rejected (g : Globals) (pagebuf0 : Nat → Nat) (text : List Nat)
    (pre : List (List Nat)) (l : List Nat) (post : List (List Nat))
    (hl : file_lines text [] = pre ++ l :: post)
    (hpre : ∀ m ∈ pre, is_eof_record m = false)
    (hbad : l = [] ∨ l.getD 0 0 ≠ 58 ∨ l.length < 11 ∨ l.length ≠ 11 + 2 * rec_datalen l) :
    (check_pass g pagebuf0 text).p.rtc = -1 ∧
    (l ≠ [] → ∀ s : Flash, (line_loop false (l :: post) s).p.rtc = -1 ∧
      (line_loop false (l :: post) s).line = s.line + 1) := by
  have hr : is_record l = false := by
    simp only [is_record, decide_eq_false_iff_not]
    rintro ⟨h1, h2⟩
    rcases hbad with h | h | h | h
    · subst h; simp at h1
    · exact h h1
    · omega
    · exact h h2
  have hf : ∀ t, process_line false t l = t.fail := fun t => process_line_not_record false t l hr
  refine ⟨check_stops_fail g pagebuf0 text pre l post hl hpre (by simp [is_eof_record, hr])
    (Or.inr (fun t => by rw [hf]; rfl)), fun hne s => check_fail_at_line s l post hne hf⟩

/-- The theorem at four files: an empty line behind the first line of S1, a line without
its colon, an End-of-File line of 10 characters, and a type-4 line that declares two
data bytes and carries one. -/
theorem malformed_line_rejected_witness :
    (check_pass (globals0 []) (fun _ => 0) (bytes ":020000040800F2\n\n:00000001FF\n")).p.rtc = -1 ∧
    (check_pass (globals0 []) (fun _ => 0) (bytes "020000040800F2\n:00000001FF\n")).p.rtc = -1 ∧
    (check_pass (globals0 []) (fun _ => 0) (bytes ":00000001F\n")).p.rtc = -1 ∧
    (check_pass (globals0 []) (fun _ => 0) (bytes ":0200000408F6\n:00000001FF\n")).p.rtc = -1 :=
  ⟨(malformed_line_rejected (globals0 []) (fun _ => 0) (bytes ":020000040800F2\n\n:00000001FF\n")
      [bytes ":020000040800F2"] [] [bytes ":00000001FF", []] (by decide) (by decide)
      (Or.inl rfl)).1,
   (malformed_line_rejected (globals0 []) (fun _ => 0) (bytes "020000040800F2\n:00000001FF\n")
      [] (bytes "020000040800F2") [bytes ":00000001FF", []] (by decide) (by decide)
      (Or.inr (Or.inl (by decide)))).1,
   (malformed_line_rejected (globals0 []) (fun _ => 0) (bytes ":00000001F\n")
      [] (bytes ":00000001F") [[]] (by decide) (by decide)
      (Or.inr (Or.inr (Or.inl (by decide))))).1,
   (malformed_line_rejected (globals0 []) (fun _ => 0) (bytes ":0200000408F6\n:00000001FF\n")
      [] (bytes ":0200000408F6") [bytes ":00000001FF", []] (by decide) (by decide)
      (Or.inr (Or.inr (Or.inr (by decide))))).1⟩

/-- C15 (unsupported record types): for every file in which a line that passes the format
and length tests, with no End-of-File record before it, has a record type other than 0,
1, 4 and 5, the check pass returns `-1`, and the loop fails at that very line. -/
theorem unsupported_type_rejected (g : Globals) (pagebuf0 : Nat → Nat) (text : List Nat)
    (pre : List (List Nat)) (l : List Nat) (post : List (List Nat))
    (hl : file_lines text [] = pre ++ l :: post)
    (hpre : ∀ m ∈ pre, is_eof_record m = false)
    (hrec : is_record l = true)
    (htype : rec_type l ≠ 0 ∧ rec_type l ≠ 1 ∧ rec_type l ≠ 4 ∧ rec_type l ≠ 5) :
    (check_pass g pagebuf0 text).p.rtc = -1 ∧
    ∀ s : Flash, (line_loop false (l :: post) s).p.rtc = -1 ∧
      (line_loop false (l :: post) s).line = s.line + 1 := by
  have hf : ∀ t, process_line false t l = t.fail := by
    intro t
    rw [process_line_of_record false t l hrec]
    exact process_record_other false t _ _ _ _ _ htype.1 htype.2.1 htype.2.2.1 htype.2.2.2
  have hne : l ≠ [] := by
    intro h
    subst h
    simp [is_record] at hrec
  refine ⟨check_stops_fail g pagebuf0 text pre l post hl hpre
    (by simp [is_eof_record, htype.2.1])
    (Or.inr (fun t => by rw [hf]; rfl)), fun s => check_fail_at_line s l post hne hf⟩

/-- The theorem at a file that opens with a record of type 2 and at S1 with a record of
type 3 as its third line. -/
theorem unsupported_type_rejected_witness :
    (check_pass (globals0 []) (fun _ => 0) hexType2).p.rtc = -1 ∧
    ((check_pass (globals0 []) (fun _ => 0) hexType3).p.rtc = -1 ∧
     (check_pass (globals0 []) (fun _ => 0) hexType3).line = 3) := by
  refine ⟨(unsupported_type_rejected (globals0 []) (fun _ => 0) hexType2
      [] (bytes ":020000021000EC") [bytes ":00000001FF", []] (by decide) (by decide)
      (by decide) (by decide)).1, ?_, by decide⟩
  exact (unsupported_type_rejected (globals0 []) (fun _ => 0) hexType3
      [bytes ":020000040800F2", bytes ":080000000102030405060708D4"]
      (bytes ":0400000300003800C1") [bytes ":00000001FF", []] (by decide) (by decide)
      (by decide) (by decide)).1

/-! ## C13: nothing behind the End-of-File record is read -/

/-- The lines of a file up to a newline do not depend on what follows it. -/
theorem file_lines_split (b : List Nat) : ∀ (x acc : List Nat),
    ∃ L, file_lines (x ++ [10]) acc = L ++ [[]] ∧ file_lines (x ++ 10 :: b) acc = L ++ file_lines b [] := by
  intro x
  induction x with
  | nil =>
    intro acc
    exact ⟨[acc], by simp [file_lines], by simp [file_lines]⟩
  | cons c x ih =>
    intro acc
    simp only [List.cons_append, file_lines]
    split_ifs with h1 h2 h3
    · obtain ⟨L, hL1, hL2⟩ := ih []
      exact ⟨acc :: L, congrArg (fun t => acc :: t) hL1, congrArg (fun t => acc :: t) hL2⟩
    · exact ih _
    · exact ih _
    · exact ih _

/-- C13 (EOF stops parsing): let `head ++ [10]` be a file whose last line `l` is an
End-of-File record, closed by its newline. Then for every `junk`, the check pass and the
write pass end in the same state (return code, counters, transmitted and logged
commands, remaining input) on `head ++ [10] ++ junk` as on `head ++ [10]`. -/
theorem eof_stops_parsing (g : Globals) (pagebuf0 : Nat → Nat) (start_address0 : Nat)
    (head junk : List Nat) (L : List (List Nat)) (l : List Nat) (do_flash : Bool)
    (hl : file_lines (head ++ [10]) [] = L ++ [l, []]) (he : is_eof_record l = true) :
    stm32_flash_image g pagebuf0 start_address0 (some (head ++ [10] ++ junk)) do_flash =
    stm32_flash_image g pagebuf0 start_address0 (some (head ++ [10])) do_flash := by
  obtain ⟨L', h1, h2⟩ := file_lines_split junk head []
  have hL : L' = L ++ [l] := by
    have : L' ++ [[]] = (L ++ [l]) ++ [[]] := by rw [← h1, hl]; simp
    exact List.append_cancel_right this
  have hstop : l.length = 0 ∨ ∀ t, (process_line do_flash t l).2 = true :=
    Or.inr (fun t => by rw [process_line_eof do_flash t l he])
  have e1 : ∀ s, line_loop do_flash (file_lines (head ++ 10 :: junk) []) s =
      line_loop do_flash (L ++ [l]) s := by
    intro s
    rw [h2, hL, List.append_assoc, List.singleton_append]
    exact line_loop_stop_at do_flash l _ hstop L s
  have e2 : ∀ s, line_loop do_flash (file_lines (head ++ [10]) []) s =
      line_loop do_flash (L ++ [l]) s := by
    intro s
    rw [hl]
    exact line_loop_stop_at do_flash l [[]] hstop L s
  simp only [stm32_flash_image, List.append_assoc, List.singleton_append, e1, e2]

/-- The theorem at S1 followed by a line of text and a further record, for the write
pass with a target that ACKs and for the check pass. -/
theorem eof_stops_parsing_witness :
    stm32_flash_image (globals0 (acks 8)) (fun _ => 0) 0
      (some (bytes ":020000040800F2\n:080000000102030405060708D4\n:00000001FF" ++ [10]
        ++ bytes "no record\n:0400040001020304EE\n")) true =
    stm32_flash_image (globals0 (acks 8)) (fun _ => 0) 0
      (some (bytes ":020000040800F2\n:080000000102030405060708D4\n:00000001FF" ++ [10])) true ∧
    stm32_flash_image (globals0 []) (fun _ => 0) 0
      (some (bytes ":020000040800F2\n:080000000102030405060708D4\n:00000001FF" ++ [10]
        ++ bytes "no record\n:0400040001020304EE\n")) false =
    stm32_flash_image (globals0 []) (fun _ => 0) 0
      (some (bytes ":020000040800F2\n:080000000102030405060708D4\n:00000001FF" ++ [10])) false :=
  ⟨eof_stops_parsing (globals0 (acks 8)) (fun _ => 0) 0 _ _
      [bytes ":020000040800F2", bytes ":080000000102030405060708D4"] (bytes ":00000001FF") true
      (by decide) (by decide),
   eof_stops_parsing (globals0 []) (fun _ => 0) 0 _ _
      [bytes ":020000040800F2", bytes ":080000000102030405060708D4"] (bytes ":00000001FF") false
      (by decide) (by decide)⟩

/-! ## C16: absolute addresses -/

theorem or_eq_add_low (u d : Nat) (hu : u % 65536 = 0) (hd : d < 65536) : u ||| d = u + d := by
  have h : u = 2 ^ 16 * (u / 65536) := by norm_num; omega
  rw [h]
  exact (Nat.mul_add_lt_is_or (by simpa using hd) _).symm

theorem ela_value (b0 b1 : Nat) (h0 : b0 < 256) (h1 : b1 < 256) :
    (shift_in [b0, b1] <<< 16) % U32 = (b0 <<< 24) ||| (b1 <<< 16) := by
  have e1 : (b0 * 256) ||| b1 = b0 * 256 + b1 := by
    have := Nat.mul_add_lt_is_or (show b1 < 2 ^ 8 by simpa using h1) b0
    rw [show (2 : Nat) ^ 8 = 256 by norm_num, Nat.mul_comm] at this
    exact this.symm
  have e2 : (b0 <<< 24) ||| (b1 <<< 16) = b0 * 16777216 + b1 * 65536 := by
    have := Nat.mul_add_lt_is_or (show b1 * 65536 < 2 ^ 24 by norm_num; omega) b0
    rw [Nat.shiftLeft_eq, Nat.shiftLeft_eq]
    norm_num at this ⊢
    rw [Nat.mul_comm b0]
    exact this.symm
  have e3 : shift_in [b0, b1] = b0 * 256 + b1 := by
    simp only [shift_in, List.foldl, U32]
    norm_num
    rw [Nat.mod_eq_of_lt (by omega), e1]
  rw [e2, e3, Nat.shiftLeft_eq]
  unfold U32
  omega

theorem rec_drlo_lt (l : List Nat) : rec_drlo l < 65536 := by
  unfold rec_drlo
  have h1 : rec_addrh l < 256 := Nat.mod_lt _ (by norm_num)
  have h2 : rec_addrl l < 256 := Nat.mod_lt _ (by norm_num)
  have := Nat.mul_add_lt_is_or (show rec_addrl l < 2 ^ 8 by simpa using h2) (rec_addrh l)
  rw [Nat.shiftLeft_eq, Nat.mul_comm, ← this]
  norm_num
  omega

theorem rec_items_map (u d : Nat) (f : Nat → Nat) : ∀ (n k : Nat),
    rec_items u d k ((List.range' k n).map f) =
      (List.range' k n).map (fun i => ((u + d + i) % U32, f i)) := by
  intro n
  induction n with
  | zero => intro k; rfl
  | succ n ih =>
    intro k
    simp only [List.range'_succ, List.map_cons, rec_items]
    rw [ih (k + 1)]

theorem rec_items_place (u : Nat) (l : List Nat) (hu : u % 65536 = 0) :
    rec_items u (rec_drlo l) 0 (rec_data l) =
      (List.range (rec_datalen l)).map
        (fun i => (((u ||| rec_drlo l) + i) % U32, data_at l i)) := by
  rw [or_eq_add_low u _ hu (rec_drlo_lt l), rec_data, List.range_eq_range']
  exact rec_items_map u (rec_drlo l) (data_at l) _ 0
theorem line_loop_cons (do_flash : Bool) (l : List Nat) (rest : List (List Nat)) (s : Flash)
    (h0 : l.length ≠ 0) :
    line_loop do_flash (l :: rest) s =
      if (process_line do_flash (s.count_line l.length) l).2 then
        (process_line do_flash (s.count_line l.length) l).1
      else line_loop do_flash rest (process_line do_flash (s.count_line l.length) l).1 := by
  simp only [line_loop, h0, if_false]

/-- The upper base keeps its low 16 bits clear through every record. -/
theorem process_record_ulba_low (do_flash : Bool) (s : Flash) (drlo rectype sum : Nat)
    (data : List Nat) (chcksum : Nat) (hu : s.ulba % 65536 = 0) :
    (process_record do_flash s drlo rectype sum data chcksum).1.ulba % 65536 = 0 := by
  have hsh : ∀ x : Nat, (x <<< 16) % U32 % 65536 = 0 := by
    intro x
    rw [Nat.shiftLeft_eq]
    unfold U32
    omega
  by_cases h0 : rectype = 0
  · subst h0
    have ha := (data_loop_asm do_flash drlo data 0 s sum).2.2.1
    rw [process_record_data]
    split_ifs <;> simp only [Flash.fail, ha, hu]
  by_cases h1 : rectype = 1
  · subst h1
    rw [process_record_eof]
    exact hu
  by_cases h4 : rectype = 4
  · subst h4
    rw [process_record_ela]
    split_ifs <;> simp only [Flash.fail, hsh, hu]
  by_cases h5 : rectype = 5
  · subst h5
    rw [process_record_sla]
    split_ifs <;> simp only [Flash.fail, hu]
  rw [process_record_other do_flash s drlo rectype sum data chcksum h0 h1 h4 h5]
  exact hu

theorem line_loop_ulba_low (do_flash : Bool) : ∀ (lines : List (List Nat)) (s : Flash),
    s.ulba % 65536 = 0 → (line_loop do_flash lines s).ulba % 65536 = 0 := by
  intro lines
  induction lines with
  | nil => intro s hu; exact hu
  | cons l rest ih =>
    intro s hu
    have hstep : (process_line do_flash (s.count_line l.length) l).1.ulba % 65536 = 0 := by
      cases hr : is_record l with
      | false => rw [process_line_not_record do_flash _ l hr]; exact hu
      | true =>
        rw [process_line_of_record do_flash _ l hr]
        exact process_record_ulba_low do_flash _ _ _ _ _ _ hu
    simp only [line_loop]
    split_ifs
    · exact hu
    · exact hstep
    · exact ih _ hstep

/-- A record after which the check pass goes on is of type 0, 4 or 5; it leaves the
flag `eof_record_found` alone, only type 4 changes the upper base, and only type 0 stores
data bytes. -/
theorem check_record_go (t : Flash) (drlo rectype sum : Nat) (data : List Nat) (chcksum : Nat)
    (h : (process_record false t drlo rectype sum data chcksum).2 = false) :
    (rectype = 0 ∨ rectype = 4 ∨ rectype = 5) ∧
    (process_record false t drlo rectype sum data chcksum).1.eof_record_found
      = t.eof_record_found ∧
    (process_record false t drlo rectype sum data chcksum).1.ulba
      = (if rectype = 4 then (shift_in data <<< 16) % U32 else t.ulba) ∧
    (process_record false t drlo rectype sum data chcksum).1.items
      = t.items ++ (if rectype = 0 then rec_items t.ulba drlo 0 data else []) := by
  by_cases h0 : rectype = 0
  · subst h0
    have hd := data_loop_check drlo data 0 t sum
    have ha := data_loop_asm false drlo data 0 t sum
    rw [if_neg (by decide : ¬ (0 : Nat) = 4), if_pos rfl, process_record_data] at *
    by_cases c1 : (data_loop false drlo data 0 t sum).1.p.rtc = -1
    · rw [if_pos c1] at h
      exact absurd h (by simp)
    · rw [if_neg c1] at h ⊢
      by_cases c2 : checksum_fails (data_loop false drlo data 0 t sum).2.2 chcksum = true
      · rw [if_pos c2] at h
        exact absurd h (by simp [Flash.fail])
      · rw [if_neg c2]
        exact ⟨Or.inl rfl, ha.2.2.2.1, ha.2.2.1, ha.2.2.2.2 hd.1⟩
  by_cases h1 : rectype = 1
  · subst h1
    rw [process_record_eof] at h
    simp at h
  by_cases h4 : rectype = 4
  · subst h4
    rw [if_pos rfl, if_neg (by decide : ¬ (4 : Nat) = 0), process_record_ela] at *
    by_cases c1 : drlo = 0
    · rw [if_pos c1] at h ⊢
      by_cases c2 : checksum_fails (sum + data.sum) chcksum = true
      · rw [if_pos c2] at h
        exact absurd h (by simp [Flash.fail])
      · rw [if_neg c2]
        simp
    · rw [if_neg c1] at h
      exact absurd h (by simp [Flash.fail])
  by_cases h5 : rectype = 5
  · subst h5
    rw [if_neg (by decide : ¬ (5 : Nat) = 4), if_neg (by decide : ¬ (5 : Nat) = 0),
      process_record_sla] at *
    by_cases c1 : drlo = 0
    · rw [if_pos c1] at h ⊢
      by_cases c2 : checksum_fails (sum + data.sum) chcksum = true
      · rw [if_pos c2] at h
        exact absurd h (by simp [Flash.fail])
      · rw [if_neg c2]
        simp
    · rw [if_neg c1] at h
      exact absurd h (by simp [Flash.fail])
  rw [process_record_other false t drlo rectype sum data chcksum h0 h1 h4 h5] at h
  simp [Flash.fail] at h

/-- The check pass from a state with a clean upper base, over lines that lead it to an
End-of-File record without error: the data bytes it stores are where the addressing rule
puts them. -/
theorem check_loop_place : ∀ (lines : List (List Nat)) (s : Flash) (its : List (Nat × Nat)),
    s.eof_record_found = false → s.ulba % 65536 = 0 →
    (line_loop false lines s).p.rtc = 0 → (line_loop false lines s).eof_record_found = true →
    spec_place s.ulba lines = some its →
    (line_loop false lines s).items = s.items ++ its := by
  intro lines
  induction lines with
  | nil =>
    intro s its he _ _ hf _
    rw [line_loop, he] at hf
    exact absurd hf (by decide)
  | cons l rest ih =>
    intro s its he hu hr hf hs
    by_cases h0 : l.length = 0
    · simp only [line_loop, h0, if_true] at hf
      rw [he] at hf
      exact absurd hf (by decide)
    rw [line_loop_cons false l rest s h0] at hr hf ⊢
    cases hb : (process_line false (s.count_line l.length) l).2 with
    | true =>
      simp only [hb, if_true] at hr hf ⊢
      cases hE : is_eof_record l with
      | false =>
        have h := (check_line_step (s.count_line l.length) l hE).2.2.1 hb
        rw [h] at hr
        exact absurd hr (by decide)
      | true =>
        have hE' := hE
        simp only [is_eof_record, Bool.and_eq_true, decide_eq_true_eq] at hE'
        simp only [spec_place, hE'.2, if_true, Option.some.injEq] at hs
        subst hs
        rw [process_line_eof false _ l hE]
        simp [eof_record, Flash.count_line]
    | false =>
      simp only [hb, Bool.false_eq_true, if_false] at hr hf ⊢
      cases hrec : is_record l with
      | false =>
        rw [process_line_not_record false _ l hrec] at hb
        simp [Flash.fail] at hb
      | true =>
        rw [process_line_of_record false _ l hrec] at hb hr hf ⊢
        obtain ⟨hty, ge, gu, gi⟩ := check_record_go _ _ _ _ _ _ hb
        have ge' := ge.trans he
        have hlow := process_record_ulba_low false (s.count_line l.length) (rec_drlo l)
          (rec_type l) (rec_datalen l + rec_addrh l + rec_addrl l + rec_type l) (rec_data l)
          (rec_chcksum l) hu
        rcases hty with t0 | t4 | t5
        · have n1 : ¬ rec_type l = 1 := by omega
          have n4 : ¬ rec_type l = 4 := by omega
          rw [if_neg n4] at gu
          rw [if_pos t0] at gi
          simp only [spec_place] at hs
          rw [if_neg n1, if_neg n4, if_pos t0] at hs
          obtain ⟨its', hs', rfl⟩ : ∃ its', spec_place s.ulba rest = some its' ∧
              (List.range (rec_datalen l)).map
                (fun i => (((s.ulba ||| rec_drlo l) + i) % U32, data_at l i)) ++ its' = its := by
            cases hsp : spec_place s.ulba rest with
            | none => rw [hsp] at hs; simp at hs
            | some x => rw [hsp] at hs; simp at hs; exact ⟨x, rfl, hs⟩
          have e := ih _ its' ge' hlow hr hf (by rw [gu]; exact hs')
          rw [e, gi, ← rec_items_place s.ulba l hu]
          simp [Flash.count_line]
        · have n1 : ¬ rec_type l = 1 := by omega
          rw [if_pos t4] at gu
          rw [if_neg (by omega)] at gi
          simp only [spec_place] at hs
          rw [if_neg n1, if_pos t4] at hs
          by_cases d2 : rec_datalen l = 2
          · rw [if_pos d2] at hs
            have hdat : rec_data l = [data_at l 0, data_at l 1] := by
              rw [rec_data, d2]; rfl
            have e := ih _ its ge' hlow hr hf
              (by rw [gu, hdat, ela_value _ _ (data_at_lt l 0) (data_at_lt l 1)]; exact hs)
            rw [e, gi]
            simp [Flash.count_line]
          · rw [if_neg d2] at hs
            exact absurd hs (by simp)
        · have n1 : ¬ rec_type l = 1 := by omega
          have n4 : ¬ rec_type l = 4 := by omega
          have n0 : ¬ rec_type l = 0 := by omega
          rw [if_neg n4] at gu
          rw [if_neg n0] at gi
          simp only [spec_place] at hs
          rw [if_neg n1, if_neg n4, if_neg n0] at hs
          have e := ih _ its ge' hlow hr hf (by rw [gu]; exact hs)
          rw [e, gi]
          simp [Flash.count_line]
/-- C16 (absolute addressing): for every file that the check pass accepts and in which
every type-4 record before the End-of-File record carries two data bytes, the data bytes
are placed as the addressing rule `spec_place` says: byte `i` of a data record with offset
`drlo` at `((ulba | drlo) + i) mod 2^32`, where `ulba` is `(b0 << 24) | (b1 << 16)` for the
data bytes `b0 b1` of the last type-4 record before it and 0 before any. The write pass
assembles its pages from exactly these pairs. In both passes the upper base ends with
its low 16 bits clear, so OR-ing a 16-bit offset to it equals adding it. -/
theorem absolute_addressing (g : Globals) (pagebuf0 : Nat → Nat) (text : List Nat)
    (its : List (Nat × Nat))
    (hacc : (check_pass g pagebuf0 text).p.rtc = 0)
    (hs : spec_place 0 (file_lines text []) = some its) :
    (check_pass g pagebuf0 text).items = its ∧
    (write_pass g pagebuf0 text).p = after_items its (Page.init g pagebuf0) ∧
    ∀ (do_flash : Bool) (sa : Nat),
      (stm32_flash_image g pagebuf0 sa (some text) do_flash).ulba % 65536 = 0 ∧
      ∀ drlo < 65536, (stm32_flash_image g pagebuf0 sa (some text) do_flash).ulba ||| drlo =
        (stm32_flash_image g pagebuf0 sa (some text) do_flash).ulba + drlo := by
  have hw := (write_pass_after_items g pagebuf0 text hacc).1
  have hitems : (check_pass g pagebuf0 text).items = its := by
    unfold check_pass stm32_flash_image finish at hacc ⊢
    simp only [Bool.false_eq_true, if_false] at hacc ⊢
    by_cases hfin : (line_loop false (file_lines text []) (Flash.init g pagebuf0 0)).p.rtc = 0 ∧
        (line_loop false (file_lines text []) (Flash.init g pagebuf0 0)).eof_record_found = false
    · rw [if_pos hfin] at hacc
      exact absurd hacc (show ¬ ((-1 : Int) = 0) by decide)
    · rw [if_neg hfin] at hacc ⊢
      have heof : (line_loop false (file_lines text []) (Flash.init g pagebuf0 0)).eof_record_found
          = true := by
        cases h : (line_loop false (file_lines text []) (Flash.init g pagebuf0 0)).eof_record_found
        · exact absurd ⟨hacc, h⟩ hfin
        · rfl
      have e := check_loop_place (file_lines text []) (Flash.init g pagebuf0 0) its rfl rfl hacc
        heof hs
      rw [e]
      rfl
  refine ⟨hitems, by rw [hw, hitems], ?_⟩
  intro do_flash sa
  have hlow : (stm32_flash_image g pagebuf0 sa (some text) do_flash).ulba % 65536 = 0 := by
    have h := line_loop_ulba_low do_flash (file_lines text []) (Flash.init g pagebuf0 sa) rfl
    unfold stm32_flash_image finish
    simp only []
    split_ifs <;> exact h
  exact ⟨hlow, fun drlo hd => or_eq_add_low _ drlo hlow hd⟩

/-- The theorem at the file `hexAbs`: a byte before any type-4 record, two bytes under
the upper address `0x0800` and two bytes under `0x2000`. -/
theorem absolute_addressing_witness :
    (check_pass (globals0 []) (fun _ => 0) hexAbs).items =
      [(0x00000020, 0x09), (0x08000010, 0x01), (0x08000011, 0x02),
       (0x2000FFFE, 0xAA), (0x2000FFFF, 0xBB)] :=
  (absolute_addressing (globals0 []) (fun _ => 0) hexAbs _ (by decide) (by decide)).1

/-! ## C17: a data byte below the base of the open page -/

theorem page_byte_pageaddr (do_flash : Bool) (a ch : Nat) (p : Page)
    (h : (page_byte do_flash a ch p).2 = false) :
    (page_byte do_flash a ch p).1.pageaddr =
      if PAGESIZE ≤ sub32 a p.pageaddr then a else p.pageaddr := by
  by_cases h1 : sub32 a p.pageaddr < PAGESIZE
  · rw [page_byte_in do_flash a ch p h1, if_neg (Nat.not_le.2 h1)]
  · have h1' : PAGESIZE ≤ sub32 a p.pageaddr := Nat.not_lt.1 h1
    rw [if_pos h1']
    by_cases hm : p.pageaddr = 0xffffffff
    · rw [page_byte_first do_flash a ch p h1' hm]
    · cases hf : (flush_page do_flash { p with pageidx := a }).2 with
      | true =>
        rw [page_byte_cross_fail do_flash a ch p h1' hm hf, hf] at h
        exact absurd h (by decide)
      | false => rw [page_byte_cross_ok do_flash a ch p h1' hm hf]

theorem asm_fold_rtc (do_flash : Bool) : ∀ (its : List (Nat × Nat)) (p : Page),
    (asm_fold do_flash its p).2 = true → (asm_fold do_flash its p).1.rtc = -1 := by
  intro its
  induction its with
  | nil => intro p h; simp [asm_fold] at h
  | cons x rest ih =>
    intro p h
    simp only [asm_fold] at h ⊢
    split_ifs at h ⊢ with hq
    · exact (page_byte_rtc do_flash x.1 x.2 p).1 hq
    · exact ih _ h

/-- As long as the write pass does not break, its page base is that of the check pass. -/
theorem asm_fold_pageaddr : ∀ (its : List (Nat × Nat)) (p q : Page),
    p.pageaddr = q.pageaddr → (asm_fold true its p).2 = false →
    (asm_fold true its p).1.pageaddr = (asm_fold false its q).1.pageaddr := by
  intro its
  induction its with
  | nil => intro p q h _; exact h
  | cons x rest ih =>
    intro p q h hb
    have hc := (page_byte_check x.1 x.2 q).1
    simp only [asm_fold, hc, Bool.false_eq_true, if_false] at hb ⊢
    cases hq : (page_byte true x.1 x.2 p).2 with
    | true =>
      simp only [hq, if_true] at hb
      exact absurd hb (by decide)
    | false =>
      simp only [hq, Bool.false_eq_true, if_false] at hb ⊢
      refine ih _ _ ?_ hb
      rw [page_byte_pageaddr true x.1 x.2 p hq, page_byte_pageaddr false x.1 x.2 q hc, h]

/-- A byte more than 256 away from the base of an open page: the write pass asks for a
write of that length, which `stm32_write_memory` refuses before it sends anything. -/
theorem page_byte_far (a ch : Nat) (p : Page) (hm : p.pageaddr ≠ 0xffffffff)
    (h : 256 < sub32 a p.pageaddr) :
    (page_byte true a ch p).2 = true ∧ (page_byte true a ch p).1.rtc = -1 ∧
    (page_byte true a ch p).1.g = p.g := by
  have h1 : PAGESIZE ≤ sub32 a p.pageaddr := by unfold PAGESIZE; omega
  have hw : write_verify { p with pageidx := a } =
      ({ p with pageidx := a, rtc := -1 }, true) := by
    unfold write_verify stm32_write_memory
    simp [h]
  have hf : flush_page true { p with pageidx := a } =
      ({ p with pageidx := a, rtc := -1 }, true) := by
    unfold flush_page
    simp [hw]
  rw [page_byte_cross_fail true a ch p h1 hm (by rw [hf]), hf]
  exact ⟨rfl, rfl, rfl⟩

/-- C17 as stated, refuted: in `hexBack` the byte `05` has the address `0x08000000`, below
the base `0x08000100` of the page that is open when it arrives, and the check pass
accepts the file. -/
theorem out_of_order_accepted :
    (check_pass (globals0 []) (fun _ => 0) hexBack).p.rtc = 0 ∧
    (check_pass (globals0 []) (fun _ => 0) hexBack).items =
      [(0x08000100, 1), (0x08000101, 2), (0x08000102, 3), (0x08000103, 4),
       (0x08000000, 5), (0x08000001, 6), (0x08000002, 7), (0x08000003, 8)] ∧
    (asm_fold false [(0x08000100, 1), (0x08000101, 2), (0x08000102, 3), (0x08000103, 4)]
      (Page.init (globals0 []) (fun _ => 0))).1.pageaddr = 0x08000100 := by
  decide

/-- C17, what the code does: no pass looks for addresses that go back. For every file
that the check pass accepts and in which a data byte has an address below the base of
the page open when it arrives (a page that ends below `2^32`), the write pass returns
`-1` for every target: at the latest at that byte it asks for a write of more than 256
bytes, which `stm32_write_memory` refuses. The check pass itself does not stop at such a
byte. -/
theorem out_of_order_fails_write (g : Globals) (pagebuf0 : Nat → Nat) (text : List Nat)
    (pre : List (Nat × Nat)) (a ch : Nat) (post : List (Nat × Nat))
    (hacc : (check_pass g pagebuf0 text).p.rtc = 0)
    (hit : (check_pass g pagebuf0 text).items = pre ++ (a, ch) :: post)
    (hbase : a < (asm_fold false pre (Page.init g pagebuf0)).1.pageaddr)
    (hwin : (asm_fold false pre (Page.init g pagebuf0)).1.pageaddr + 256 < U32) :
    (write_pass g pagebuf0 text).p.rtc = -1 ∧
    (page_byte false a ch (asm_fold false pre (Page.init g pagebuf0)).1).2 = false := by
  refine ⟨?_, (page_byte_check a ch _).1⟩
  rw [(write_pass_after_items g pagebuf0 text hacc).1, hit, after_items_append]
  cases hb : (asm_fold true pre (Page.init g pagebuf0)).2 with
  | true =>
    simp only [if_true]
    exact asm_fold_rtc true pre _ hb
  | false =>
    simp only [Bool.false_eq_true, if_false]
    have hpa := asm_fold_pageaddr pre (Page.init g pagebuf0) (Page.init g pagebuf0) rfl hb
    have hfar := page_byte_far a ch (asm_fold true pre (Page.init g pagebuf0)).1
      (by rw [hpa]; unfold U32 at hwin; omega)
      (by rw [hpa]; unfold sub32; unfold U32 at hwin ⊢; omega)
    unfold after_items
    simp only [asm_fold, hfar.1, if_true]
    exact hfar.2.1

/-- The theorem at `hexBack`, with a target that ACKs whatever it is sent. -/
theorem out_of_order_fails_write_witness :
    (write_pass (globals0 (acks 100)) (fun _ => 0) hexBack).p.rtc = -1 :=
  (out_of_order_fails_write (globals0 (acks 100)) (fun _ => 0) hexBack
    [(0x08000100, 1), (0x08000101, 2), (0x08000102, 3), (0x08000103, 4)] 0x08000000 5
    [(0x08000001, 6), (0x08000002, 7), (0x08000003, 8)]
    (by decide) (by decide) (by decide) (by decide)).1

/-! ## C18: the order of the write and read commands -/

@[simp] theorem poll_rlog (g : Globals) : (stm32_serial_poll g).2.rlog = g.rlog := by
  unfold stm32_serial_poll; split <;> rfl

@[simp] theorem ack_rlog (g : Globals) : (wait_for_ack g).2.rlog = g.rlog := by
  unfold wait_for_ack; simp only []; split_ifs <;> simp

@[simp] theorem write_cmd_rlog (g : Globals) (c : Nat) : (stm32_write_cmd g c).rlog = g.rlog := rfl

theorem readLoop_rlog (n : Nat) : ∀ (i : Nat) (g : Globals), (readLoop n i g).2.rlog = g.rlog := by
  induction n with
  | zero => intro i g; simp [readLoop]
  | succ n ih =>
    intro i g
    simp only [readLoop]
    split_ifs with h1 h2
    · simp
    · rw [ih]; simp
    · rw [ih]; simp

theorem read_memory_rlog (g : Globals) (address len : Nat) :
    (stm32_read_memory g address len).2.rlog = g.rlog ++ [(address, len)] := by
  unfold stm32_read_memory
  simp only []
  split_ifs <;> simp [serial_write_buf, set_address, readLoop_rlog]

theorem write_memory_rlog (g : Globals) (image : Nat → Nat) (address len : Nat) :
    (stm32_write_memory g image address len).2.rlog = g.rlog := by
  unfold stm32_write_memory
  simp only []
  split_ifs <;> simp [serial_write_buf, set_address]

/-- The logs after a flush: nothing when the length is above 256; otherwise one write at
the page base, and one read at the page base unless the write failed. A flush that does
not end the pass has logged both. -/
theorem write_verify_logs (p : Page) :
    (256 < sub32 p.pageidx p.pageaddr →
      (write_verify p).1.g.wlog = p.g.wlog ∧ (write_verify p).1.g.rlog = p.g.rlog ∧
      (write_verify p).2 = true) ∧
    (sub32 p.pageidx p.pageaddr ≤ 256 →
      (write_verify p).1.g.wlog =
        p.g.wlog ++ [(p.pageaddr, slice p.pagebuf (sub32 p.pageidx p.pageaddr))] ∧
      (((write_verify p).1.g.rlog = p.g.rlog ∧ (write_verify p).2 = true) ∨
       (write_verify p).1.g.rlog = p.g.rlog ++ [(p.pageaddr, sub32 p.pageidx p.pageaddr)])) := by
  have hw := write_memory_frame p.g p.pagebuf p.pageaddr (sub32 p.pageidx p.pageaddr)
  have hwr := write_memory_rlog p.g p.pagebuf p.pageaddr (sub32 p.pageidx p.pageaddr)
  have hr := read_memory_frame (stm32_write_memory p.g p.pagebuf p.pageaddr
    (sub32 p.pageidx p.pageaddr)).2 p.pageaddr (sub32 p.pageidx p.pageaddr)
  have hrr := read_memory_rlog (stm32_write_memory p.g p.pagebuf p.pageaddr
    (sub32 p.pageidx p.pageaddr)).2 p.pageaddr (sub32 p.pageidx p.pageaddr)
  have hfail : 256 < sub32 p.pageidx p.pageaddr →
      (stm32_write_memory p.g p.pagebuf p.pageaddr (sub32 p.pageidx p.pageaddr)).1 < 0 := by
    intro h
    unfold stm32_write_memory
    simp [h]
  constructor
  · intro h
    have h3 := hfail h
    unfold write_verify
    simp only [h3, if_true]
    simp [hw.2, h, hwr]
  · intro h
    have hn : ¬ 256 < sub32 p.pageidx p.pageaddr := by omega
    rw [if_neg hn] at hw
    unfold write_verify
    simp only []
    split_ifs
    · exact ⟨hw.2, Or.inl ⟨hwr, rfl⟩⟩
    · exact ⟨by simp [hr.1, hw.2], Or.inr (by simp [hrr, hwr])⟩
    · exact ⟨by simp [hr.1, hw.2], Or.inr (by simp [hrr, hwr])⟩
    · exact ⟨by simp [hr.1, hw.2], Or.inr (by simp [hrr, hwr])⟩
theorem running_ordered (w0 : List (Nat × List Nat)) (r0 : List (Nat × Nat)) (p : Page)
    (hr : Running w0 r0 p) : Ordered w0 r0 p.g := by
  obtain ⟨-, ext, rext, hw, hrl, hch, heq, -⟩ := hr
  exact ⟨ext, rext, hw, hrl, hch, by rw [heq]⟩

/-- A flush from a state that satisfies the invariant keeps the order; one that does
not end the pass had a length of at most 256, and its write, at the page base, is the
last one logged and has been read back. -/
theorem write_verify_ordered (w0 : List (Nat × List Nat)) (r0 : List (Nat × Nat)) (p : Page)
    (hr : Running w0 r0 p) :
    Ordered w0 r0 (write_verify p).1.g ∧
    ((write_verify p).2 = false → sub32 p.pageidx p.pageaddr ≤ 256 ∧
      ∃ ext rext, (write_verify p).1.g.wlog = w0 ++ ext ∧
        (write_verify p).1.g.rlog = r0 ++ rext ∧
        List.Chain' Step256 (ext.map Prod.fst) ∧ rext.map Prod.fst = ext.map Prod.fst ∧
        (ext.map Prod.fst).getLast? = some p.pageaddr) := by
  obtain ⟨-, ext, rext, hw, hrl, hch, heq, hlink⟩ := hr
  have hl := write_verify_logs p
  by_cases hbig : 256 < sub32 p.pageidx p.pageaddr
  · obtain ⟨l1, l2, l3⟩ := hl.1 hbig
    refine ⟨⟨ext, rext, by rw [l1, hw], by rw [l2, hrl], hch, by rw [heq]⟩, fun h => ?_⟩
    rw [l3] at h
    exact absurd h (by decide)
  · have hsmall : sub32 p.pageidx p.pageaddr ≤ 256 := by omega
    obtain ⟨l1, l2⟩ := hl.2 hsmall
    have hch' : List.Chain' Step256
        ((ext ++ [(p.pageaddr, slice p.pagebuf (sub32 p.pageidx p.pageaddr))]).map Prod.fst) := by
      rw [List.map_append, List.chain'_append]
      refine ⟨hch, by simp, ?_⟩
      intro x hx y hy
      simp only [List.map_cons, List.map_nil, List.head?_cons, Option.mem_def,
        Option.some.injEq] at hy
      rw [← hy]
      exact hlink x hx
    have hwl : (write_verify p).1.g.wlog =
        w0 ++ (ext ++ [(p.pageaddr, slice p.pagebuf (sub32 p.pageidx p.pageaddr))]) := by
      rw [l1, hw, List.append_assoc]
    rcases l2 with ⟨l2, l3⟩ | l2
    · refine ⟨⟨_, rext, hwl, by rw [l2, hrl], hch', ?_⟩, fun h => ?_⟩
      · rw [heq, List.map_append]
        exact List.prefix_append _ _
      · rw [l3] at h
        exact absurd h (by decide)
    · have hrl' : (write_verify p).1.g.rlog =
          r0 ++ (rext ++ [(p.pageaddr, sub32 p.pageidx p.pageaddr)]) := by
        rw [l2, hrl, List.append_assoc]
      have heq' : (rext ++ [(p.pageaddr, sub32 p.pageidx p.pageaddr)]).map Prod.fst =
          (ext ++ [(p.pageaddr, slice p.pagebuf (sub32 p.pageidx p.pageaddr))]).map Prod.fst := by
        simp [heq]
      refine ⟨⟨_, _, hwl, hrl', hch', by rw [heq']⟩, fun _ => ⟨hsmall, _, _, hwl, hrl', hch', heq', ?_⟩⟩
      simp

theorem page_byte_ordered (w0 : List (Nat × List Nat)) (r0 : List (Nat × Nat)) (a ch : Nat)
    (p : Page) (ha : a < U32) (hr : Running w0 r0 p) :
    Ordered w0 r0 (page_byte true a ch p).1.g ∧
    ((page_byte true a ch p).2 = false → Running w0 r0 (page_byte true a ch p).1) := by
  by_cases h1 : sub32 a p.pageaddr < PAGESIZE
  · rw [page_byte_in true a ch p h1]
    exact ⟨running_ordered w0 r0 p hr, fun _ => hr⟩
  · have h1' : PAGESIZE ≤ sub32 a p.pageaddr := Nat.not_lt.1 h1
    by_cases hm : p.pageaddr = 0xffffffff
    · rw [page_byte_first true a ch p h1' hm]
      refine ⟨running_ordered w0 r0 p hr, fun _ => ?_⟩
      obtain ⟨-, ext, rext, hw, hrl, hch, heq, hlink⟩ := hr
      refine ⟨ha, ext, rext, hw, hrl, hch, heq, ?_⟩
      intro x hx hlt
      have := hlink x hx hlt
      omega
    · have hv := write_verify_ordered w0 r0 { p with pageidx := a } hr
      have hfl : flush_page true { p with pageidx := a } =
          if (write_verify { p with pageidx := a }).2 then write_verify { p with pageidx := a }
          else ({ (write_verify { p with pageidx := a }).1 with
            pages_written := ((write_verify { p with pageidx := a }).1.pages_written + 1) % U32 },
            false) := rfl
      cases hb : (write_verify { p with pageidx := a }).2 with
      | true =>
        have hf : flush_page true { p with pageidx := a } = write_verify { p with pageidx := a } := by
          rw [hfl, hb]; rfl
        rw [page_byte_cross_fail true a ch p h1' hm (by rw [hf, hb]), hf]
        exact ⟨hv.1, fun h => by rw [hb] at h; exact absurd h (by decide)⟩
      | false =>
        have hf : flush_page true { p with pageidx := a } =
            ({ (write_verify { p with pageidx := a }).1 with
              pages_written := ((write_verify { p with pageidx := a }).1.pages_written + 1) % U32 },
              false) := by
          rw [hfl, hb]; rfl
        rw [page_byte_cross_ok true a ch p h1' hm (by rw [hf]), hf]
        obtain ⟨hlen, ext, rext, hw, hrl, hch, heq, hlast⟩ := hv.2 hb
        refine ⟨hv.1, fun _ => ⟨ha, ext, rext, hw, hrl, hch, heq, ?_⟩⟩
        intro x hx hlt
        rw [hlast] at hx
        simp only [Option.mem_def, Option.some.injEq] at hx
        subst hx
        have hpl := hr.1
        show a = p.pageaddr + 256
        simp only [sub32, PAGESIZE] at hlen h1'
        unfold U32 at *
        omega

theorem eof_flush_ordered (w0 : List (Nat × List Nat)) (r0 : List (Nat × Nat)) (p : Page)
    (hr : Running w0 r0 p) : Ordered w0 r0 (eof_flush true p).g := by
  unfold eof_flush
  by_cases hpos : sub32 p.pageidx p.pageaddr > 0
  · have hv := (write_verify_ordered w0 r0 { p with pageidx := (p.pageidx + 1) % U32 } hr).1
    simp only [hpos, if_true]
    split_ifs
    · exact hv
    · exact hv
  · simp only [hpos, if_false]
    exact running_ordered w0 r0 p hr

theorem asm_fold_ordered (w0 : List (Nat × List Nat)) (r0 : List (Nat × Nat)) :
    ∀ (its : List (Nat × Nat)) (p : Page), (∀ x ∈ its, x.1 < U32) → Running w0 r0 p →
    Ordered w0 r0 (asm_fold true its p).1.g ∧
    ((asm_fold true its p).2 = false → Running w0 r0 (asm_fold true its p).1) := by
  intro its
  induction its with
  | nil => intro p _ hr; exact ⟨running_ordered w0 r0 p hr, fun _ => hr⟩
  | cons x rest ih =>
    intro p hx hr
    have hp := page_byte_ordered w0 r0 x.1 x.2 p (hx x (by simp)) hr
    simp only [asm_fold]
    cases hb : (page_byte true x.1 x.2 p).2 with
    | true =>
      simp only [if_true]
      exact ⟨hp.1, fun h => by rw [hb] at h; exact absurd h (by decide)⟩
    | false =>
      simp only [Bool.false_eq_true, if_false]
      exact ih _ (fun y hy => hx y (by simp [hy])) (hp.2 hb)

theorem rec_items_lt (ulba drlo : Nat) (data : List Nat) :
    ∀ dri : Nat, ∀ x ∈ rec_items ulba drlo dri data, x.1 < U32 := by
  induction data with
  | nil => intro dri x hx; simp [rec_items] at hx
  | cons ch rest ih =>
    intro dri x hx
    simp only [rec_items, List.mem_cons] at hx
    rcases hx with hx | hx
    · rw [hx]; exact Nat.mod_lt _ (by unfold U32; norm_num)
    · exact ih (dri + 1) x hx
theorem process_record_ordered (w0 : List (Nat × List Nat)) (r0 : List (Nat × Nat))
    (s : Flash) (drlo rectype sum : Nat) (data : List Nat) (chcksum : Nat)
    (hr : Running w0 r0 s.p) :
    Ordered w0 r0 (process_record true s drlo rectype sum data chcksum).1.p.g ∧
    ((process_record true s drlo rectype sum data chcksum).2 = false →
      Running w0 r0 (process_record true s drlo rectype sum data chcksum).1.p) := by
  have ho := running_ordered w0 r0 s.p hr
  by_cases h0 : rectype = 0
  · subst h0
    have ha := data_loop_asm true drlo data 0 s sum
    have hd := data_loop_rtc true drlo data 0 s sum
    have hf := asm_fold_ordered w0 r0 (rec_items s.ulba drlo 0 data) s.p
      (rec_items_lt s.ulba drlo data 0) hr
    rw [← ha.1, ← ha.2.1] at hf
    rw [process_record_data]
    by_cases c1 : (data_loop true drlo data 0 s sum).1.p.rtc = -1
    · rw [if_pos c1]
      exact ⟨hf.1, fun h => absurd h (by simp)⟩
    · rw [if_neg c1]
      by_cases c2 : checksum_fails (data_loop true drlo data 0 s sum).2.2 chcksum = true
      · rw [if_pos c2]
        exact ⟨hf.1, fun h => absurd h (by simp [Flash.fail])⟩
      · rw [if_neg c2]
        refine ⟨hf.1, fun _ => hf.2 ?_⟩
        cases hb : (data_loop true drlo data 0 s sum).2.1 with
        | true => exact absurd (hd.1 hb) c1
        | false => rfl
  by_cases h1 : rectype = 1
  · subst h1
    rw [process_record_eof]
    exact ⟨eof_flush_ordered w0 r0 s.p hr, fun h => absurd h (by simp)⟩
  by_cases h4 : rectype = 4
  · subst h4
    rw [process_record_ela]
    split_ifs
    · exact ⟨ho, fun h => absurd h (by simp [Flash.fail])⟩
    · exact ⟨ho, fun _ => hr⟩
    · exact ⟨ho, fun h => absurd h (by simp [Flash.fail])⟩
  by_cases h5 : rectype = 5
  · subst h5
    rw [process_record_sla]
    split_ifs
    · exact ⟨ho, fun h => absurd h (by simp [Flash.fail])⟩
    · exact ⟨ho, fun _ => hr⟩
    · exact ⟨ho, fun h => absurd h (by simp [Flash.fail])⟩
  rw [process_record_other true s drlo rectype sum data chcksum h0 h1 h4 h5]
  exact ⟨ho, fun h => absurd h (by simp [Flash.fail])⟩

theorem line_loop_ordered (w0 : List (Nat × List Nat)) (r0 : List (Nat × Nat)) :
    ∀ (lines : List (List Nat)) (s : Flash), Running w0 r0 s.p →
    Ordered w0 r0 (line_loop true lines s).p.g := by
  intro lines
  induction lines with
  | nil => intro s hr; exact running_ordered w0 r0 s.p hr
  | cons l rest ih =>
    intro s hr
    have hstep : Ordered w0 r0 (process_line true (s.count_line l.length) l).1.p.g ∧
        ((process_line true (s.count_line l.length) l).2 = false →
          Running w0 r0 (process_line true (s.count_line l.length) l).1.p) := by
      cases hrec : is_record l with
      | false =>
        rw [process_line_not_record true _ l hrec]
        exact ⟨running_ordered w0 r0 s.p hr, fun h => absurd h (by simp [Flash.fail])⟩
      | true =>
        rw [process_line_of_record true _ l hrec]
        exact process_record_ordered w0 r0 _ _ _ _ _ _ hr
    simp only [line_loop]
    split_ifs with h0 hb
    · exact running_ordered w0 r0 s.p hr
    · exact hstep.1
    · exact ih _ (hstep.2 (by simpa using hb))

theorem step256_increasing : ∀ (l : List Nat), List.Chain' Step256 l →
    (∀ a ∈ l, a + 256 < 0xffffffff) → List.Chain' (fun a b => a < b) l := by
  intro l
  induction l with
  | nil => intro _ _; exact List.chain'_nil
  | cons a rest ih =>
    intro hch hlt
    cases rest with
    | nil => exact List.chain'_singleton a
    | cons b rest' =>
      rw [List.chain'_cons] at hch ⊢
      refine ⟨?_, ih hch.2 (fun x hx => hlt x (List.mem_cons_of_mem _ hx))⟩
      have := hch.1 (hlt a (by simp))
      omega

set_option maxHeartbeats 4000000 in
set_option maxRecDepth 1000000 in
theorem wrap_rtc : (write_pass globalsWrap (fun _ => 0) hexWrap).p.rtc = 0 := by
  decide

set_option maxHeartbeats 4000000 in
set_option maxRecDepth 1000000 in
theorem wrap_wlog :
    (write_pass globalsWrap (fun _ => 0) hexWrap).p.g.wlog.map Prod.fst = [0xFFFFFF00, 0] := by
  decide

set_option maxHeartbeats 4000000 in
set_option maxRecDepth 1000000 in
theorem wrap_rlog :
    (write_pass globalsWrap (fun _ => 0) hexWrap).p.g.rlog.map Prod.fst = [0xFFFFFF00, 0] := by
  decide

theorem wrap_check : (check_pass globalsWrap (fun _ => 0) hexWrap).p.rtc = 0 := by
  decide

/-- C18 as stated, refuted: for `hexWrap`, whose data go from `0xFFFFFF00` across `2^32` to
address 0, a target that answers without error is sent the write and read commands of
the page at `0xFFFFFF00` first and those of the page at 0 after it; the pass succeeds. -/
theorem wrapped_pages_not_increasing :
    (check_pass globalsWrap (fun _ => 0) hexWrap).p.rtc = 0 ∧
    (write_pass globalsWrap (fun _ => 0) hexWrap).p.rtc = 0 ∧
    (write_pass globalsWrap (fun _ => 0) hexWrap).p.g.wlog.map Prod.fst = [0xFFFFFF00, 0] ∧
    (write_pass globalsWrap (fun _ => 0) hexWrap).p.g.rlog.map Prod.fst = [0xFFFFFF00, 0] :=
  ⟨wrap_check, wrap_rtc, wrap_wlog, wrap_rlog⟩

/-- C18, what the code guarantees: for every file and every behaviour of the target, the
page addresses of the write commands that the write pass sends go in steps of exactly
256 (the next is the one before plus 256, unless that sum reaches `0xFFFFFFFF`), and
the read commands have the page addresses of the write commands, in the same order, the
last write possibly without its read. So both sequences are strictly increasing whenever
every page address plus 256 stays below `0xFFFFFFFF`. -/
theorem write_order_steps (g : Globals) (pagebuf0 : Nat → Nat) (text : List Nat) :
    ∃ (ext : List (Nat × List Nat)) (rext : List (Nat × Nat)),
      (write_pass g pagebuf0 text).p.g.wlog = g.wlog ++ ext ∧
      (write_pass g pagebuf0 text).p.g.rlog = g.rlog ++ rext ∧
      List.Chain' Step256 (ext.map Prod.fst) ∧
      rext.map Prod.fst <+: ext.map Prod.fst ∧
      ((∀ a ∈ ext.map Prod.fst, a + 256 < 0xffffffff) →
        List.Chain' (fun a b => a < b) (ext.map Prod.fst) ∧
        List.Chain' (fun a b => a < b) (rext.map Prod.fst)) := by
  have hinit : Running g.wlog g.rlog (Flash.init g pagebuf0 0).p :=
    ⟨by show (0xffffffff : Nat) < U32; decide, [], [], by simp [Flash.init, Page.init],
      by simp [Flash.init, Page.init], List.chain'_nil, rfl, by simp⟩
  obtain ⟨ext, rext, hw, hr, hch, hpre⟩ :=
    line_loop_ordered g.wlog g.rlog (file_lines text []) (Flash.init g pagebuf0 0) hinit
  refine ⟨ext, rext, hw, hr, hch, hpre, fun hlt => ?_⟩
  have hinc := step256_increasing _ hch hlt
  exact ⟨hinc, hinc.prefix hpre⟩

/-! ## C29: the check pass leaves the serial link alone -/

theorem asm_fold_check_g : ∀ (its : List (Nat × Nat)) (p : Page),
    (asm_fold false its p).1.g = p.g := by
  intro its
  induction its with
  | nil => intro p; rfl
  | cons x rest ih =>
    intro p
    have h := page_byte_check x.1 x.2 p
    simp only [asm_fold, h.1, Bool.false_eq_true, if_false]
    rw [ih, h.2.2]

theorem eof_flush_check_g (p : Page) : (eof_flush false p).g = p.g := by
  unfold eof_flush
  simp only [Bool.false_eq_true, if_false]
  split_ifs <;> rfl

theorem process_record_check_g (s : Flash) (drlo rectype sum : Nat) (data : List Nat)
    (chcksum : Nat) : (process_record false s drlo rectype sum data chcksum).1.p.g = s.p.g := by
  by_cases h0 : rectype = 0
  · subst h0
    have ha := (data_loop_asm false drlo data 0 s sum).1
    have hg := asm_fold_check_g (rec_items s.ulba drlo 0 data) s.p
    rw [process_record_data]
    split_ifs <;> simp only [Flash.fail, ha, hg]
  by_cases h1 : rectype = 1
  · subst h1
    rw [process_record_eof]
    exact eof_flush_check_g s.p
  by_cases h4 : rectype = 4
  · subst h4
    rw [process_record_ela]
    split_ifs <;> rfl
  by_cases h5 : rectype = 5
  · subst h5
    rw [process_record_sla]
    split_ifs <;> rfl
  rw [process_record_other false s drlo rectype sum data chcksum h0 h1 h4 h5]
  rfl

theorem line_loop_check_g : ∀ (lines : List (List Nat)) (s : Flash),
    (line_loop false lines s).p.g = s.p.g := by
  intro lines
  induction lines with
  | nil => intro s; rfl
  | cons l rest ih =>
    intro s
    have hstep : (process_line false (s.count_line l.length) l).1.p.g = s.p.g := by
      cases hr : is_record l with
      | false => rw [process_line_not_record false _ l hr]; rfl
      | true =>
        rw [process_line_of_record false _ l hr]
        exact process_record_check_g _ _ _ _ _ _
    simp only [line_loop]
    split_ifs
    · rfl
    · exact hstep
    · rw [ih, hstep]

theorem flash_image_check_g (g : Globals) (pagebuf0 : Nat → Nat) (sa : Nat)
    (file : Option (List Nat)) : (stm32_flash_image g pagebuf0 sa file false).p.g = g := by
  cases file with
  | none => rfl
  | some text =>
    have h := line_loop_check_g (file_lines text []) (Flash.init g pagebuf0 sa)
    unfold stm32_flash_image finish
    simp only [Bool.false_eq_true, if_false]
    split_ifs
    · exact h
    · exact h

/-- C29 (the check operation never transmits): for every file, also one that cannot be
opened, and whether the check succeeds or fails, `stm32_flash_image` with
`do_flash = false`, and so `stm32_check_hex_file`, leaves the globals of the serial link
as they were: nothing is appended to the transmitted bytes, no poll outcome is consumed,
no command is logged. -/
theorem check_never_transmits (g : Globals) (pagebuf0 : Nat → Nat) (sa : Nat)
    (file : Option (List Nat)) :
    (stm32_flash_image g pagebuf0 sa file false).p.g = g ∧
    (stm32_check_hex_file g pagebuf0 sa file).1 = g ∧
    (stm32_check_hex_file g pagebuf0 sa file).1.tx = g.tx ∧
    (stm32_check_hex_file g pagebuf0 sa file).1.rx = g.rx :=
  have h := flash_image_check_g g pagebuf0 sa file
  ⟨h, h, congrArg Globals.tx h, congrArg Globals.rx h⟩

/-! ## C25: `stm32_get` -/

theorem getLoop_ok (maxlen : Nat) (pl : List Nat) :
    ∀ (i : Nat) (g : Globals) (r : List (Option Nat)),
    g.rx = pl.map some ++ r → (∀ b ∈ pl, b < 256) →
    (getLoop maxlen pl.length i g).1 = 0 ∧ (getLoop maxlen pl.length i g).2.rx = r ∧
    (getLoop maxlen pl.length i g).2.tx = g.tx ∧
    (∀ k, k < pl.length → i + k < maxlen →
      (getLoop maxlen pl.length i g).2.bootloader_info (i + k) = pl.getD k 0) ∧
    (∀ k, k < i → (getLoop maxlen pl.length i g).2.bootloader_info k = g.bootloader_info k) := by
  induction pl with
  | nil => intro i g r h _; simpa [getLoop] using h
  | cons b rest ih =>
    intro i g r h hb
    have hb256 : b < 256 := hb b (by simp)
    have hpoll : stm32_serial_poll g = ((b : Int), { g with rx := rest.map some ++ r }) := by
      unfold stm32_serial_poll
      rw [h]
      simp [Nat.mod_eq_of_lt hb256]
    simp only [List.length_cons, getLoop, hpoll]
    have hneg : ¬ ((b : Int) < 0) := by omega
    rw [if_neg hneg]
    by_cases hi : i < maxlen
    · rw [if_pos hi]
      obtain ⟨h1, h2, h3, h4, h5⟩ := ih (i + 1)
        { ({ g with rx := rest.map some ++ r } : Globals) with
          bootloader_info := upd g.bootloader_info i ((b : Int).toNat % 256) } r rfl
        (fun x hx => hb x (by simp [hx]))
      refine ⟨h1, h2, h3, ?_, ?_⟩
      · intro k hk hkm
        cases k with
        | zero =>
          have := h5 i (by omega)
          simpa [upd, Nat.mod_eq_of_lt hb256] using this
        | succ k =>
          have := h4 k (by simpa using hk) (by omega)
          rw [show i + 1 + k = i + (k + 1) by omega] at this
          simpa using this
      · intro k hk
        have := h5 k (by omega)
        simpa [upd, Nat.ne_of_lt hk] using this
    · rw [if_neg hi]
      obtain ⟨h1, h2, h3, h4, h5⟩ := ih (i + 1) { g with rx := rest.map some ++ r } r rfl
        (fun x hx => hb x (by simp [hx]))
      refine ⟨h1, h2, h3, ?_, ?_⟩
      · intro k hk hkm
        omega
      · intro k hk
        exact h5 k (by omega)

theorem getLoop_missing (maxlen : Nat) (part : List Nat) : ∀ (n i : Nat) (g : Globals)
    (tail : List (Option Nat)), g.rx = part.map some ++ tail → no_byte tail →
    part.length < n → (getLoop maxlen n i g).1 = -1 := by
  induction part with
  | nil =>
    intro n i g tail h ht hn
    obtain ⟨m, rfl⟩ : ∃ m, n = m + 1 := ⟨n - 1, by simp at hn; omega⟩
    simp only [List.map_nil, List.nil_append] at h
    have hp : (stm32_serial_poll g).1 = -1 := by
      unfold stm32_serial_poll
      unfold no_byte at ht
      rw [h]
      split at ht
      · exact absurd ht id
      · split <;> simp_all
    simp only [getLoop, hp]
    rfl
  | cons b rest ih =>
    intro n i g tail h ht hn
    obtain ⟨m, rfl⟩ : ∃ m, n = m + 1 := ⟨n - 1, by simp at hn; omega⟩
    have hp : stm32_serial_poll g = (((b % 256 : Nat) : Int), { g with rx := rest.map some ++ tail }) := by
      unfold stm32_serial_poll
      rw [h]
      rfl
    simp only [getLoop, hp]
    rw [if_neg (by omega)]
    simp only [List.length_cons] at hn
    split_ifs
    · exact ih m (i + 1) _ tail rfl ht (by omega)
    · exact ih m (i + 1) _ tail rfl ht (by omega)

theorem poll_byte (g : Globals) (b : Nat) (r : List (Option Nat)) (hb : b < 256)
    (h : g.rx = some b :: r) : stm32_serial_poll g = ((b : Int), { g with rx := r }) := by
  unfold stm32_serial_poll
  rw [h]
  simp [Nat.mod_eq_of_lt hb]

theorem poll_missing (g : Globals) (h : no_byte g.rx) : (stm32_serial_poll g).1 = -1 := by
  unfold stm32_serial_poll
  unfold no_byte at h
  split at h
  · exact absurd h id
  · split <;> simp_all

/-- An answered GET: the value, the input that is left, the bytes sent, and the table. -/
theorem get_ok (g : Globals) (n : Nat) (pl : List Nat) (r : List (Option Nat))
    (hn : n < 256) (hl : pl.length = n + 1) (hb : ∀ b ∈ pl, b < 256)
    (h : g.rx = [some STM32_ACK, some n] ++ (pl.map some ++ some STM32_ACK :: r)) :
    (stm32_get g STM32_INFO_SIZE).1 = ((n + 1 : Nat) : Int) ∧
    (stm32_get g STM32_INFO_SIZE).2.rx = r ∧
    (stm32_get g STM32_INFO_SIZE).2.tx = g.tx ++ [0x00, 0xFF] ∧
    ∀ i, i < STM32_INFO_SIZE → i ≤ n →
      (stm32_get g STM32_INFO_SIZE).2.bootloader_info i = pl.getD i 0 := by
  have h' : g.rx = some STM32_ACK :: some n :: (pl.map some ++ some STM32_ACK :: r) := by
    rw [h]; rfl
  unfold stm32_get
  simp only []
  rw [wait_for_ack_ok _ (some n :: (pl.map some ++ some STM32_ACK :: r))
    (by simp [stm32_write_cmd, serial_write_buf, h'])]
  simp only [lt_self_iff_false, if_false]
  rw [poll_byte _ n (pl.map some ++ some STM32_ACK :: r) hn rfl]
  have hneg : ¬ ((n : Int) < 0) := by omega
  simp only [hneg, if_false, Int.toNat_ofNat]
  rw [← hl]
  obtain ⟨l1, l2, l3, l4, -⟩ := getLoop_ok STM32_INFO_SIZE pl 0
    { (stm32_write_cmd g STM32_CMD_GET) with rx := pl.map some ++ some STM32_ACK :: r }
    (some STM32_ACK :: r) rfl hb
  simp only [l1, lt_self_iff_false, if_false]
  rw [wait_for_ack_ok _ r l2]
  simp only [lt_self_iff_false, if_false]
  refine ⟨trivial, trivial, ?_, ?_⟩
  · show (getLoop STM32_INFO_SIZE pl.length 0 _).2.tx = _
    rw [l3]
    simp [stm32_write_cmd, serial_write_buf, slice_two, upd, STM32_CMD_GET, not8]
  · intro i hi hin
    have := l4 i (by omega) (by omega)
    rw [Nat.zero_add] at this
    exact this

theorem get_missing_first_ack (g : Globals) (maxlen : Nat) (h : no_ack g.rx) :
    (stm32_get g maxlen).1 = -1 := by
  unfold stm32_get
  simp only []
  rw [if_pos]
  rw [wait_for_ack_missing _ (by simpa [stm32_write_cmd, serial_write_buf] using h)]
  decide

theorem get_missing_count (g : Globals) (maxlen : Nat) (t : List (Option Nat))
    (h : g.rx = some STM32_ACK :: t) (ht : no_byte t) : (stm32_get g maxlen).1 = -1 := by
  unfold stm32_get
  simp only []
  rw [wait_for_ack_ok _ t (by simp [stm32_write_cmd, serial_write_buf, h])]
  simp only [lt_self_iff_false, if_false]
  rw [if_pos]
  rw [poll_missing _ (by simpa using ht)]
  decide

theorem get_missing_byte (g : Globals) (maxlen n : Nat) (part : List Nat)
    (t : List (Option Nat)) (hn : n < 256) (hp : part.length < n + 1)
    (h : g.rx = [some STM32_ACK, some n] ++ (part.map some ++ t)) (ht : no_byte t) :
    (stm32_get g maxlen).1 = -1 := by
  have h' : g.rx = some STM32_ACK :: some n :: (part.map some ++ t) := by rw [h]; rfl
  unfold stm32_get
  simp only []
  rw [wait_for_ack_ok _ (some n :: (part.map some ++ t))
    (by simp [stm32_write_cmd, serial_write_buf, h'])]
  simp only [lt_self_iff_false, if_false]
  rw [poll_byte _ n (part.map some ++ t) hn rfl]
  have hneg : ¬ ((n : Int) < 0) := by omega
  simp only [hneg, if_false, Int.toNat_ofNat]
  rw [if_pos]
  rw [getLoop_missing maxlen part (n + 1) 0 _ t rfl ht hp]
  decide

theorem get_missing_last_ack (g : Globals) (n : Nat) (pl : List Nat)
    (t : List (Option Nat)) (hn : n < 256) (hl : pl.length = n + 1) (hb : ∀ b ∈ pl, b < 256)
    (h : g.rx = [some STM32_ACK, some n] ++ (pl.map some ++ t)) (ht : no_ack t) :
    (stm32_get g STM32_INFO_SIZE).1 = -1 := by
  have h' : g.rx = some STM32_ACK :: some n :: (pl.map some ++ t) := by rw [h]; rfl
  unfold stm32_get
  simp only []
  rw [wait_for_ack_ok _ (some n :: (pl.map some ++ t))
    (by simp [stm32_write_cmd, serial_write_buf, h'])]
  simp only [lt_self_iff_false, if_false]
  rw [poll_byte _ n (pl.map some ++ t) hn rfl]
  have hneg : ¬ ((n : Int) < 0) := by omega
  simp only [hneg, if_false, Int.toNat_ofNat]
  rw [← hl]
  obtain ⟨l1, l2, -, -, -⟩ := getLoop_ok STM32_INFO_SIZE pl 0
    { (stm32_write_cmd g STM32_CMD_GET) with rx := pl.map some ++ t } t rfl hb
  simp only [l1, lt_self_iff_false, if_false]
  rw [if_pos]
  rw [wait_for_ack_missing _ (by rw [l2]; exact ht)]
  decide

theorem slice_eq_take (f : Nat → Nat) (pl : List Nat) (m : Nat) (hm : m ≤ pl.length)
    (h : ∀ i, i < m → f i = pl.getD i 0) : slice f m = pl.take m := by
  apply List.ext_getElem
  · simp [slice, hm]
  · intro i h1 h2
    simp only [slice_length] at h1
    simp only [slice, List.getElem_map, List.getElem_range, List.getElem_take]
    rw [h i h1, List.getD_eq_getElem _ _ (by omega)]

/-- C25 (GET decoding): let the count byte be `n` and the payload `pl` have `n + 1`
bytes. When the target answers GET with ACK, `n`, `pl` and a final ACK, `stm32_get`
returns `n + 1`, has consumed just that answer, and `bootloader_info[i]` is payload byte
`i` for every `i < 12` that the payload has; for `n ≥ 11`, `bootloader_info[0..11]` is
the first 12 payload bytes in order, so the version is payload byte 0 and the erase
opcode payload byte 7. It returns `-1` when the first ACK, the count byte, one of the
`n + 1` payload bytes or the final ACK does not come. -/
theorem get_decoding (g : Globals) (n : Nat) (pl : List Nat)
    (hn : n < 256) (hl : pl.length = n + 1) (hb : ∀ b ∈ pl, b < 256) :
    (∀ r, g.rx = [some STM32_ACK, some n] ++ (pl.map some ++ some STM32_ACK :: r) →
      (stm32_get g STM32_INFO_SIZE).1 = ((n + 1 : Nat) : Int) ∧
      (stm32_get g STM32_INFO_SIZE).2.rx = r ∧
      (∀ i, i < 12 → i ≤ n →
        (stm32_get g STM32_INFO_SIZE).2.bootloader_info i = pl.getD i 0) ∧
      (11 ≤ n →
        slice (stm32_get g STM32_INFO_SIZE).2.bootloader_info 12 = pl.take 12 ∧
        (stm32_get g STM32_INFO_SIZE).2.bootloader_info STM32_INFO_BOOTLOADER_VERSION_IDX
          = pl.getD 0 0 ∧
        (stm32_get g STM32_INFO_SIZE).2.bootloader_info STM32_INFO_ERASE_CMD_IDX
          = pl.getD 7 0)) ∧
    (no_ack g.rx → (stm32_get g STM32_INFO_SIZE).1 = -1) ∧
    (∀ t, g.rx = some STM32_ACK :: t → no_byte t → (stm32_get g STM32_INFO_SIZE).1 = -1) ∧
    (∀ (part : List Nat) (t : List (Option Nat)), part.length < n + 1 →
      g.rx = [some STM32_ACK, some n] ++ (part.map some ++ t) → no_byte t →
      (stm32_get g STM32_INFO_SIZE).1 = -1) ∧
    (∀ t, g.rx = [some STM32_ACK, some n] ++ (pl.map some ++ t) → no_ack t →
      (stm32_get g STM32_INFO_SIZE).1 = -1) := by
  refine ⟨?_, get_missing_first_ack g _, fun t h ht => get_missing_count g _ t h ht,
    fun part t hp h ht => get_missing_byte g _ n part t hn hp h ht,
    fun t h ht => get_missing_last_ack g n pl t hn hl hb h ht⟩
  intro r h
  obtain ⟨h1, h2, -, h4⟩ := get_ok g n pl r hn hl hb h
  refine ⟨h1, h2, h4, fun h11 => ⟨?_, h4 0 (by decide) (by omega), h4 7 (by decide) (by omega)⟩⟩
  exact slice_eq_take _ pl 12 (by omega) (fun i hi => h4 i hi (by omega))

/-- The theorem at the payload `payload44` (12 bytes, count byte 11): the answered GET,
and the same answer cut off after the fifth payload byte. -/
theorem get_decoding_witness :
    ((stm32_get (globalsBoot (get_reply payload44)) STM32_INFO_SIZE).1 = 12 ∧
     slice (stm32_get (globalsBoot (get_reply payload44)) STM32_INFO_SIZE).2.bootloader_info 12
       = payload44 ∧
     (stm32_get (globalsBoot (get_reply payload44)) STM32_INFO_SIZE).2.bootloader_info 7 = 0x44) ∧
    (stm32_get (globalsBoot [some 0x79, some 11, some 0x31, some 0, some 1, some 2, some 0x11])
      STM32_INFO_SIZE).1 = -1 := by
  have h := get_decoding (globalsBoot (get_reply payload44)) 11 payload44
    (by decide) (by decide) (by decide)
  have h' := get_decoding
    (globalsBoot [some 0x79, some 11, some 0x31, some 0, some 1, some 2, some 0x11]) 11 payload44
    (by decide) (by decide) (by decide)
  obtain ⟨a1, -, -, a4⟩ := h.1 [] rfl
  exact ⟨⟨a1, (a4 (by decide)).1, (a4 (by decide)).2.2⟩,
    h'.2.2.2.1 [0x31, 0, 1, 2, 0x11] [] (by decide) rfl trivial⟩

/-! ## The serial primitives in closed form -/

theorem poll_state (g : Globals) : (stm32_serial_poll g).2 = { g with rx := g.rx.tail } := by
  cases g with
  | mk info buf tx rx wl rl =>
    cases rx with
    | nil => rfl
    | cons c r => cases c <;> rfl

theorem poll_is_ack (g : Globals) :
    ((stm32_serial_poll g).1 = (STM32_ACK : Int)) ↔ acked g.rx = true := by
  unfold stm32_serial_poll acked
  split <;> rename_i h <;> simp [h, STM32_ACK]
  omega

theorem ack_state (g : Globals) : (wait_for_ack g).2 = { g with rx := g.rx.tail } := by
  unfold wait_for_ack
  simp only []
  split_ifs <;> exact poll_state g

theorem ack_val (g : Globals) : (wait_for_ack g).1 = if acked g.rx then 0 else -1 := by
  have hp := poll_is_ack g
  unfold wait_for_ack
  simp only []
  split_ifs with h1 h2 h3 h4 h5
  · exfalso
    have := hp.2 h2
    rw [this] at h1
    exact absurd h1 (by simp [STM32_ACK])
  · rfl
  · exact absurd (hp.2 h4) h3
  · rfl
  · rfl
  · exact absurd (hp.1 (by simpa using h3)) h5

theorem no_ack_iff (rx : List (Option Nat)) : no_ack rx ↔ acked rx = false := by
  unfold no_ack acked
  split <;> simp

theorem acked_cons_ack (r : List (Option Nat)) : acked (some STM32_ACK :: r) = true := by
  simp [acked, STM32_ACK]

theorem ack_neg (g : Globals) : ((wait_for_ack g).1 < 0) ↔ acked g.rx = false := by
  rw [ack_val]
  split_ifs with h <;> simp [h]

/-! ## C21: the global erase -/

/-- The global classic erase in closed form. -/
theorem erase_global (g : Globals) (pn : Nat → Nat) :
    (stm32_erase g pn 0).1 = (if acked g.rx = true ∧ acked g.rx.tail = true then 0 else -1) ∧
    (stm32_erase g pn 0).2.tx =
      g.tx ++ [g.bootloader_info STM32_INFO_ERASE_CMD_IDX % 256,
               not8 (g.bootloader_info STM32_INFO_ERASE_CMD_IDX)] ++
        (if acked g.rx = true then [0xFF, 0x00] else []) ∧
    (stm32_erase g pn 0).2.rx = (if acked g.rx = true then g.rx.tail.tail else g.rx.tail) ∧
    (stm32_erase g pn 0).2.bootloader_info = g.bootloader_info ∧
    (stm32_erase g pn 0).2.wlog = g.wlog ∧ (stm32_erase g pn 0).2.rlog = g.rlog := by
  have hsel : ((0 + 65535) % 65536) &&& 0xFF = 0xFF := by decide
  have hsum : not8 255 = 0 := by decide
  unfold stm32_erase
  rw [if_neg (by omega)]
  simp only [ack_neg, ack_state, hsel, Nat.zero_mod, if_true]
  by_cases h1 : acked g.rx = true
  · have h1' : ¬ acked (stm32_write_cmd g (g.bootloader_info STM32_INFO_ERASE_CMD_IDX)).rx = false := by
      simpa using h1
    simp only [h1', if_false]
    by_cases h2 : acked g.rx.tail = true
    · simp [h1, h2, serial_write_buf, stm32_write_cmd, slice_one, slice_two, upd, hsum]
    · simp [h1, h2, serial_write_buf, stm32_write_cmd, slice_one, slice_two, upd, hsum]
  · have h1' : acked (stm32_write_cmd g (g.bootloader_info STM32_INFO_ERASE_CMD_IDX)).rx = false := by
      simpa using h1
    simp only [h1', if_true]
    simp [h1, serial_write_buf, stm32_write_cmd, slice_two, upd]

/-- The global extended erase in closed form. -/
theorem ext_erase_global (g : Globals) (pn : Nat → Nat) :
    (stm32_ext_erase g pn 0).1 = (if acked g.rx = true ∧ acked g.rx.tail = true then 0 else -1) ∧
    (stm32_ext_erase g pn 0).2.tx =
      g.tx ++ [g.bootloader_info STM32_INFO_ERASE_CMD_IDX % 256,
               not8 (g.bootloader_info STM32_INFO_ERASE_CMD_IDX)] ++
        (if acked g.rx = true then [0xFF, 0xFF, 0x00] else []) ∧
    (stm32_ext_erase g pn 0).2.rx = (if acked g.rx = true then g.rx.tail.tail else g.rx.tail) ∧
    (stm32_ext_erase g pn 0).2.bootloader_info = g.bootloader_info ∧
    (stm32_ext_erase g pn 0).2.wlog = g.wlog ∧ (stm32_ext_erase g pn 0).2.rlog = g.rlog := by
  have hn : (0 + 65535) % 65536 = 0xFFFF := by decide
  have h8 : (0xFFFF : Nat) >>> 8 = 0xFF := by decide
  have hff : (0xFFFF : Nat) &&& 0xFF = 0xFF := by decide
  have hx : (0xFF : Nat) ^^^ 0xFF = 0 := by decide
  unfold stm32_ext_erase
  simp only [ack_neg, ack_state, hn, true_or, if_true, h8, hff]
  by_cases h1 : acked g.rx = true
  · have h1' : ¬ acked (stm32_write_cmd g (g.bootloader_info STM32_INFO_ERASE_CMD_IDX)).rx = false := by
      simpa using h1
    simp only [h1', if_false]
    by_cases h2 : acked g.rx.tail = true
    · simp [h1, h2, serial_write_buf, stm32_write_cmd, slice, List.range, List.range.loop, upd, hx]
    · simp [h1, h2, serial_write_buf, stm32_write_cmd, slice, List.range, List.range.loop, upd, hx]
  · have h1' : acked (stm32_write_cmd g (g.bootloader_info STM32_INFO_ERASE_CMD_IDX)).rx = false := by
      simpa using h1
    simp only [h1', if_true]
    simp [h1, serial_write_buf, stm32_write_cmd, slice_two, upd]

/-- C21 (global erase dispatch, scenario S6): when `bootloader_info` holds the erase
opcode `0x43`, the erase step transmits `[0x43, 0xBC]` and, only after an ACK, the
selector `[0xFF, 0x00]`; when it holds `0x44`, it transmits `[0x44, 0xBB]` and, only
after an ACK, the selector `[0xFF, 0xFF, 0x00]`. In both cases it transmits nothing else,
it returns 0 if and only if both polls deliver ACK, and it returns `-1` otherwise. -/
theorem erase_dispatch (g : Globals) :
    (g.bootloader_info STM32_INFO_ERASE_CMD_IDX = 0x43 →
      (erase_block g).2.tx =
        g.tx ++ [0x43, 0xBC] ++ (if acked g.rx = true then [0xFF, 0x00] else []) ∧
      ((erase_block g).1 = 0 ↔ acked g.rx = true ∧ acked g.rx.tail = true) ∧
      ((erase_block g).1 = 0 ∨ (erase_block g).1 = -1)) ∧
    (g.bootloader_info STM32_INFO_ERASE_CMD_IDX = 0x44 →
      (erase_block g).2.tx =
        g.tx ++ [0x44, 0xBB] ++ (if acked g.rx = true then [0xFF, 0xFF, 0x00] else []) ∧
      ((erase_block g).1 = 0 ↔ acked g.rx = true ∧ acked g.rx.tail = true) ∧
      ((erase_block g).1 = 0 ∨ (erase_block g).1 = -1)) := by
  constructor
  · intro h
    obtain ⟨e1, e2, -⟩ := erase_global g (fun _ => 0)
    have hb : erase_block g = stm32_erase g (fun _ => 0) 0 := by
      unfold erase_block
      rw [if_pos (by rw [h]; rfl)]
    rw [hb, e1, e2, h]
    refine ⟨rfl, ?_, ?_⟩ <;> split_ifs <;> simp_all
  · intro h
    obtain ⟨e1, e2, -⟩ := ext_erase_global g (fun _ => 0)
    have hb : erase_block g = stm32_ext_erase g (fun _ => 0) 0 := by
      unfold erase_block
      rw [if_neg (by rw [h]; decide), if_pos (by rw [h]; rfl)]
    rw [hb, e1, e2, h]
    refine ⟨rfl, ?_, ?_⟩ <;> split_ifs <;> simp_all

/-- The theorem at a target that ACKs twice, for both opcodes, and at a target that
answers the extended erase command with NACK. -/
theorem erase_dispatch_witness :
    ((erase_block (globals0 (acks 2))).2.tx = [0x43, 0xBC, 0xFF, 0x00] ∧
     (erase_block (globals0 (acks 2))).1 = 0) ∧
    ((erase_block (globals44 (acks 2))).2.tx = [0x44, 0xBB, 0xFF, 0xFF, 0x00] ∧
     (erase_block (globals44 (acks 2))).1 = 0) ∧
    ((erase_block (globals44 [some 0x1F])).2.tx = [0x44, 0xBB] ∧
     (erase_block (globals44 [some 0x1F])).1 ≠ 0) := by
  have a := (erase_dispatch (globals0 (acks 2))).1 (by decide)
  have b := (erase_dispatch (globals44 (acks 2))).2 (by decide)
  have c := (erase_dispatch (globals44 [some 0x1F])).2 (by decide)
  refine ⟨⟨?_, a.2.1.2 (by decide)⟩, ⟨?_, b.2.1.2 (by decide)⟩, ?_, ?_⟩
  · rw [a.1]; decide
  · rw [b.1]; decide
  · rw [c.1]; decide
  · intro h
    exact absurd (c.2.1.1 h) (by decide)

/-! ## C22, C23: the command frames -/

theorem ack_tx (g : Globals) : (wait_for_ack g).2.tx = g.tx := by rw [ack_state]

set_option maxRecDepth 100000 in
theorem not8_xor (c : Nat) : not8 c = (c % 256) ^^^ 0xFF := by
  have h : ∀ x, x < 256 → 255 - x = x ^^^ 0xFF := by decide
  exact h (c % 256) (Nat.mod_lt _ (by norm_num))

/-- Whatever the target answers, a `stm32_write_memory` of at most 256 bytes sends its
command frame first. -/
theorem write_memory_cmd (g : Globals) (image : Nat → Nat) (a len : Nat) (h : len ≤ 256) :
    ∃ rest, (stm32_write_memory g image a len).2.tx =
      g.tx ++ [g.bootloader_info STM32_INFO_WRITE_MEMORY_CMD_IDX % 256,
               not8 (g.bootloader_info STM32_INFO_WRITE_MEMORY_CMD_IDX)] ++ rest := by
  unfold stm32_write_memory
  rw [if_neg (by omega)]
  simp only [ack_state]
  split_ifs
  · exact ⟨[], by simp [stm32_write_cmd, serial_write_buf, slice_two, upd]⟩
  · exact ⟨_, by simp [stm32_write_cmd, serial_write_buf, slice_two, upd, set_address]; rfl⟩
  · exact ⟨_, by simp [stm32_write_cmd, serial_write_buf, slice_two, upd, set_address]; rfl⟩
  · exact ⟨_, by simp [stm32_write_cmd, serial_write_buf, slice_two, upd, set_address]; rfl⟩

/-- C23 as stated, refuted: a call with length 0 to the address `0x08000002`, which is not
a multiple of 4, is not rejected: it transmits a full frame, with the length byte `0xFF`
and no data, and returns 0 when the target ACKs. -/
theorem write_memory_not_validated :
    (stm32_write_memory (globals0 (acks 3)) (fun i => i + 1) 0x08000002 0).1 = 0 ∧
    (stm32_write_memory (globals0 (acks 3)) (fun i => i + 1) 0x08000002 0).2.tx =
      [0x31, 0xCE, 0x08, 0x00, 0x00, 0x02, 0x0A, 0xFF, 0xFF] ∧
    0x08000002 % 4 ≠ 0 := by
  decide

/-- C23, what the code tests: `stm32_write_memory` rejects a call before it transmits or
reads anything exactly when the length is above 256; every other call, whatever its
address and its length, sends the command frame. -/
theorem write_memory_validation (g : Globals) (image : Nat → Nat) (a len : Nat) :
    (256 < len → stm32_write_memory g image a len = (-1, g)) ∧
    (len ≤ 256 → ∃ rest, (stm32_write_memory g image a len).2.tx =
      g.tx ++ [g.bootloader_info STM32_INFO_WRITE_MEMORY_CMD_IDX % 256,
               (g.bootloader_info STM32_INFO_WRITE_MEMORY_CMD_IDX % 256) ^^^ 0xFF] ++ rest) := by
  constructor
  · intro h
    unfold stm32_write_memory
    rw [if_pos h]
  · intro h
    rw [← not8_xor]
    exact write_memory_cmd g image a len h

/-- The theorem at a call with 257 bytes and at a call with 4 bytes to an odd address. -/
theorem write_memory_validation_witness :
    stm32_write_memory (globals0 (acks 3)) (fun i => i + 1) 0x08000000 257
      = (-1, globals0 (acks 3)) ∧
    ∃ rest, (stm32_write_memory (globals0 (acks 3)) (fun i => i + 1) 0x08000001 4).2.tx =
      [] ++ [0x31, 0x31 ^^^ 0xFF] ++ rest :=
  ⟨(write_memory_validation (globals0 (acks 3)) (fun i => i + 1) 0x08000000 257).1 (by decide),
   (write_memory_validation (globals0 (acks 3)) (fun i => i + 1) 0x08000001 4).2 (by decide)⟩

/-- The command `stm32_write_unprotect` in closed form. -/
theorem write_unprotect_fields (g : Globals) :
    (stm32_write_unprotect g).1 = (if acked g.rx = true ∧ acked g.rx.tail = true then 0 else -1) ∧
    (stm32_write_unprotect g).2.tx =
      g.tx ++ [g.bootloader_info STM32_INFO_WRITE_UNPROTECT_CMD_IDX % 256,
               not8 (g.bootloader_info STM32_INFO_WRITE_UNPROTECT_CMD_IDX)] ∧
    (stm32_write_unprotect g).2.rx = (if acked g.rx = true then g.rx.tail.tail else g.rx.tail) ∧
    (stm32_write_unprotect g).2.bootloader_info = g.bootloader_info ∧
    (stm32_write_unprotect g).2.wlog = g.wlog ∧ (stm32_write_unprotect g).2.rlog = g.rlog := by
  unfold stm32_write_unprotect
  simp only [ack_neg, ack_state]
  by_cases h1 : acked g.rx = true
  · have h1' : ¬ acked (stm32_write_cmd g (g.bootloader_info STM32_INFO_WRITE_UNPROTECT_CMD_IDX)).rx = false := by
      simpa using h1
    simp only [h1', if_false]
    by_cases h2 : acked g.rx.tail = true
    · simp [h1, h2, serial_write_buf, stm32_write_cmd, slice_two, upd]
    · simp [h1, h2, serial_write_buf, stm32_write_cmd, slice_two, upd]
  · have h1' : acked (stm32_write_cmd g (g.bootloader_info STM32_INFO_WRITE_UNPROTECT_CMD_IDX)).rx = false := by
      simpa using h1
    simp only [h1', if_true]
    simp [h1, serial_write_buf, stm32_write_cmd, slice_two, upd]

/-- An entry loop sends between one and `n` bytes `0x7F`, consumes as many poll outcomes,
and touches nothing else. -/
theorem enter_loop_fields : ∀ (n : Nat) (g : Globals),
    ∃ k, k ≤ n ∧ (n ≠ 0 → 1 ≤ k) ∧
      (enter_loop n g).2 = { g with tx := g.tx ++ List.replicate k STM32_BEGIN,
                                     rx := g.rx.drop k } := by
  intro n
  induction n with
  | zero => intro g; exact ⟨0, le_refl _, fun h => absurd rfl h, by simp [enter_loop]⟩
  | succ n ih =>
    intro g
    simp only [enter_loop, poll_state]
    split_ifs
    · exact ⟨1, by omega, fun _ => le_refl _, by simp⟩
    · obtain ⟨k, hk, -, he⟩ := ih { g with tx := g.tx ++ [STM32_BEGIN], rx := g.rx.tail }
      refine ⟨k + 1, by omega, fun _ => by omega, ?_⟩
      rw [he]
      simp [List.replicate_succ]

theorem retx_info (t : List Nat) (h : Globals) :
    (retx t h).bootloader_info = h.bootloader_info := rfl

theorem retx_buf (t : List Nat) (h : Globals) : (retx t h).stm32_buf = h.stm32_buf := rfl

theorem retx_rx (t : List Nat) (h : Globals) : (retx t h).rx = h.rx := rfl

theorem retx_wlog (t : List Nat) (h : Globals) : (retx t h).wlog = h.wlog := rfl

theorem retx_rlog (t : List Nat) (h : Globals) : (retx t h).rlog = h.rlog := rfl

theorem retx_set_buf (t : List Nat) (h : Globals) (x : Nat → Nat) :
    ({ (retx t h) with stm32_buf := x } : Globals) = retx t { h with stm32_buf := x } := rfl

theorem retx_set_info (t : List Nat) (h : Globals) (x : Nat → Nat) :
    ({ (retx t h) with bootloader_info := x } : Globals) = retx t { h with bootloader_info := x } :=
  rfl

theorem retx_set_rlog (t : List Nat) (h : Globals) (x : List (Nat × Nat)) :
    ({ (retx t h) with rlog := x } : Globals) = retx t { h with rlog := x } := rfl

theorem retx_set_wlog (t : List Nat) (h : Globals) (x : List (Nat × List Nat)) :
    ({ (retx t h) with wlog := x } : Globals) = retx t { h with wlog := x } := rfl

theorem retx_add_tx (t : List Nat) (h : Globals) (x : List Nat) :
    ({ (retx t h) with tx := (retx t h).tx ++ x } : Globals) = retx t { h with tx := h.tx ++ x } := by
  simp [retx]

theorem poll_retx (t : List Nat) (g : Globals) :
    stm32_serial_poll (retx t g) = ((stm32_serial_poll g).1, retx t (stm32_serial_poll g).2) := by
  cases g with
  | mk info buf tx rx wl rl =>
    cases rx with
    | nil => rfl
    | cons c r => cases c <;> rfl

theorem ack_retx (t : List Nat) (g : Globals) :
    wait_for_ack (retx t g) = ((wait_for_ack g).1, retx t (wait_for_ack g).2) := by
  unfold wait_for_ack
  simp only [poll_retx]
  split_ifs <;> rfl

theorem write_buf_retx (t : List Nat) (g : Globals) (n : Nat) :
    serial_write_buf (retx t g) n = retx t (serial_write_buf g n) := by
  simp [serial_write_buf, retx]

theorem write_cmd_retx (t : List Nat) (g : Globals) (c : Nat) :
    stm32_write_cmd (retx t g) c = retx t (stm32_write_cmd g c) := by
  simp [stm32_write_cmd, serial_write_buf, retx]

theorem set_address_retx (t : List Nat) (g : Globals) (a : Nat) :
    set_address (retx t g) a = retx t (set_address g a) := rfl

theorem readLoop_retx (t : List Nat) : ∀ (n i : Nat) (g : Globals),
    readLoop n i (retx t g) = ((readLoop n i g).1, retx t (readLoop n i g).2) := by
  intro n
  induction n with
  | zero => intro i g; rfl
  | succ n ih =>
    intro i g
    simp only [readLoop, poll_retx]
    split_ifs
    · rfl
    · exact ih (i + 1) { (stm32_serial_poll g).2 with
        stm32_buf := upd (stm32_serial_poll g).2.stm32_buf i (stm32_serial_poll g).1.toNat }
    · exact ih (i + 1) _

theorem read_memory_retx (t : List Nat) (g : Globals) (a len : Nat) :
    stm32_read_memory (retx t g) a len =
      ((stm32_read_memory g a len).1, retx t (stm32_read_memory g a len).2) := by
  unfold stm32_read_memory
  simp only [retx_set_rlog, retx_set_buf, write_cmd_retx, ack_retx, set_address_retx,
    write_buf_retx, readLoop_retx]
  simp only [retx_info, retx_buf, retx_rlog]
  split_ifs <;> rfl

theorem write_memory_retx (t : List Nat) (g : Globals) (image : Nat → Nat) (a len : Nat) :
    stm32_write_memory (retx t g) image a len =
      ((stm32_write_memory g image a len).1, retx t (stm32_write_memory g image a len).2) := by
  unfold stm32_write_memory
  split_ifs with hl
  · rfl
  · simp only [ack_neg, ack_state]
    simp only [retx, stm32_write_cmd, serial_write_buf, set_address]
    split_ifs <;> simp
theorem Page.retx_g (t : List Nat) (p : Page) : (p.retx t).g = STM32.retx t p.g := rfl

theorem Page.retx_pagebuf (t : List Nat) (p : Page) : (p.retx t).pagebuf = p.pagebuf := rfl

theorem Page.retx_pageaddr (t : List Nat) (p : Page) : (p.retx t).pageaddr = p.pageaddr := rfl

theorem Page.retx_pageidx (t : List Nat) (p : Page) : (p.retx t).pageidx = p.pageidx := rfl

theorem Page.retx_set_pageidx (t : List Nat) (p : Page) (a : Nat) :
    ({ (p.retx t) with pageidx := a } : Page) = Page.retx t { p with pageidx := a } := rfl

theorem write_verify_retx (t : List Nat) (p : Page) :
    write_verify (p.retx t) = ((write_verify p).1.retx t, (write_verify p).2) := by
  unfold write_verify
  simp only [Page.retx_g, Page.retx_pagebuf, Page.retx_pageaddr, Page.retx_pageidx,
    write_memory_retx, read_memory_retx, retx_buf]
  split_ifs <;> rfl

theorem flush_page_retx (t : List Nat) (do_flash : Bool) (p : Page) :
    flush_page do_flash (p.retx t) = ((flush_page do_flash p).1.retx t, (flush_page do_flash p).2) := by
  unfold flush_page
  simp only [write_verify_retx]
  split_ifs <;> rfl

theorem page_byte_retx (t : List Nat) (do_flash : Bool) (a ch : Nat) (p : Page) :
    page_byte do_flash a ch (p.retx t) =
      ((page_byte do_flash a ch p).1.retx t, (page_byte do_flash a ch p).2) := by
  have hf := flush_page_retx t do_flash { p with pageidx := a }
  by_cases h1 : sub32 a p.pageaddr < PAGESIZE
  · rw [page_byte_in do_flash a ch (p.retx t) h1, page_byte_in do_flash a ch p h1]
    rfl
  · have h1' : PAGESIZE ≤ sub32 a p.pageaddr := Nat.not_lt.1 h1
    by_cases hm : p.pageaddr = 0xffffffff
    · rw [page_byte_first do_flash a ch (p.retx t) h1' hm, page_byte_first do_flash a ch p h1' hm]
      rfl
    · cases hb : (flush_page do_flash { p with pageidx := a }).2 with
      | true =>
        have hb' : (flush_page do_flash { (p.retx t) with pageidx := a }).2 = true := by
          rw [show ({ (p.retx t) with pageidx := a } : Page) = Page.retx t { p with pageidx := a }
            from rfl, hf]
          exact hb
        rw [page_byte_cross_fail do_flash a ch (p.retx t) h1' hm hb',
          page_byte_cross_fail do_flash a ch p h1' hm hb,
          show ({ (p.retx t) with pageidx := a } : Page) = Page.retx t { p with pageidx := a }
            from rfl, hf]
      | false =>
        have hb' : (flush_page do_flash { (p.retx t) with pageidx := a }).2 = false := by
          rw [show ({ (p.retx t) with pageidx := a } : Page) = Page.retx t { p with pageidx := a }
            from rfl, hf]
          exact hb
        rw [page_byte_cross_ok do_flash a ch (p.retx t) h1' hm hb',
          page_byte_cross_ok do_flash a ch p h1' hm hb,
          show ({ (p.retx t) with pageidx := a } : Page) = Page.retx t { p with pageidx := a }
            from rfl, hf]
        rfl

theorem eof_flush_retx (t : List Nat) (do_flash : Bool) (p : Page) :
    eof_flush do_flash (p.retx t) = (eof_flush do_flash p).retx t := by
  unfold eof_flush
  simp only [Page.retx_set_pageidx, write_verify_retx]
  simp only [Page.retx_pageaddr, Page.retx_pageidx]
  split_ifs <;> rfl

theorem asm_fold_retx (t : List Nat) (do_flash : Bool) : ∀ (its : List (Nat × Nat)) (p : Page),
    asm_fold do_flash its (p.retx t) =
      ((asm_fold do_flash its p).1.retx t, (asm_fold do_flash its p).2) := by
  intro its
  induction its with
  | nil => intro p; rfl
  | cons x rest ih =>
    intro p
    simp only [asm_fold, page_byte_retx]
    split_ifs
    · rfl
    · exact ih _
theorem Flash.retx_p (t : List Nat) (s : Flash) : (s.retx t).p = s.p.retx t := rfl

theorem Flash.retx_ulba (t : List Nat) (s : Flash) : (s.retx t).ulba = s.ulba := rfl

theorem data_byte_retx (t : List Nat) (do_flash : Bool) (drlo dri ch : Nat) (s : Flash) :
    data_byte do_flash drlo dri ch (s.retx t) =
      ((data_byte do_flash drlo dri ch s).1.retx t, (data_byte do_flash drlo dri ch s).2) := by
  unfold data_byte
  simp only [Flash.retx_p, Flash.retx_ulba, page_byte_retx]
  cases (page_byte do_flash ((s.ulba + drlo + dri) % U32) ch s.p).2 with
  | true => rfl
  | false =>
    cases do_flash with
    | true =>
      simp only [Bool.false_eq_true, if_false, if_true]
      dsimp only [Flash.retx]
      split_ifs <;> rfl
    | false =>
      simp only [Bool.false_eq_true, if_false]
      dsimp only [Flash.retx]
      split_ifs <;> rfl

theorem data_loop_retx (t : List Nat) (do_flash : Bool) (drlo : Nat) :
    ∀ (data : List Nat) (dri : Nat) (s : Flash) (sum : Nat),
    data_loop do_flash drlo data dri (s.retx t) sum =
      ((data_loop do_flash drlo data dri s sum).1.retx t,
       (data_loop do_flash drlo data dri s sum).2) := by
  intro data
  induction data with
  | nil => intro dri s sum; rfl
  | cons ch rest ih =>
    intro dri s sum
    simp only [data_loop, data_byte_retx]
    split_ifs
    · rfl
    · exact ih _ _ _

theorem process_record_retx (t : List Nat) (do_flash : Bool) (s : Flash) (drlo rectype sum : Nat)
    (data : List Nat) (chcksum : Nat) :
    process_record do_flash (s.retx t) drlo rectype sum data chcksum =
      ((process_record do_flash s drlo rectype sum data chcksum).1.retx t,
       (process_record do_flash s drlo rectype sum data chcksum).2) := by
  by_cases h0 : rectype = 0
  · subst h0
    rw [process_record_data, process_record_data, data_loop_retx]
    split_ifs <;> first | rfl | (exfalso; simp_all [Flash.retx, Page.retx])
  by_cases h1 : rectype = 1
  · subst h1
    rw [process_record_eof, process_record_eof]
    show (eof_record do_flash (s.retx t), true) = ((eof_record do_flash s).retx t, true)
    unfold eof_record
    rw [Flash.retx_p, eof_flush_retx]
    rfl
  by_cases h4 : rectype = 4
  · subst h4
    rw [process_record_ela, process_record_ela]
    split_ifs <;> rfl
  by_cases h5 : rectype = 5
  · subst h5
    rw [process_record_sla, process_record_sla]
    split_ifs <;> rfl
  rw [process_record_other do_flash _ drlo rectype sum data chcksum h0 h1 h4 h5,
    process_record_other do_flash _ drlo rectype sum data chcksum h0 h1 h4 h5]
  rfl

theorem line_loop_retx (t : List Nat) (do_flash : Bool) : ∀ (lines : List (List Nat)) (s : Flash),
    line_loop do_flash lines (s.retx t) = (line_loop do_flash lines s).retx t := by
  intro lines
  induction lines with
  | nil => intro s; rfl
  | cons l rest ih =>
    intro s
    have hstep : process_line do_flash ((s.retx t).count_line l.length) l =
        ((process_line do_flash (s.count_line l.length) l).1.retx t,
         (process_line do_flash (s.count_line l.length) l).2) := by
      cases hr : is_record l with
      | false =>
        rw [process_line_not_record do_flash _ l hr, process_line_not_record do_flash _ l hr]
        rfl
      | true =>
        rw [process_line_of_record do_flash _ l hr, process_line_of_record do_flash _ l hr]
        exact process_record_retx t do_flash (s.count_line l.length) _ _ _ _ _
    simp only [line_loop, hstep]
    split_ifs
    · rfl
    · rfl
    · exact ih _

theorem flash_image_retx (t : List Nat) (g : Globals) (pagebuf0 : Nat → Nat) (sa : Nat)
    (file : Option (List Nat)) (do_flash : Bool) :
    stm32_flash_image (retx t g) pagebuf0 sa file do_flash =
      (stm32_flash_image g pagebuf0 sa file do_flash).retx t := by
  cases file with
  | none => rfl
  | some text =>
    have h := line_loop_retx t do_flash (file_lines text []) (Flash.init g pagebuf0 sa)
    unfold stm32_flash_image finish
    simp only []
    rw [show Flash.init (retx t g) pagebuf0 sa = (Flash.init g pagebuf0 sa).retx t from rfl, h]
    split_ifs <;> first | rfl | (exfalso; simp_all [Flash.retx, Page.retx])

theorem write_unprotect_retx (t : List Nat) (g : Globals) :
    stm32_write_unprotect (retx t g) =
      ((stm32_write_unprotect g).1, retx t (stm32_write_unprotect g).2) := by
  unfold stm32_write_unprotect
  simp only [ack_neg, ack_state]
  simp only [retx, stm32_write_cmd, serial_write_buf]
  split_ifs <;> simp

theorem erase_zero_retx (t : List Nat) (g : Globals) (pn : Nat → Nat) :
    stm32_erase (retx t g) pn 0 = ((stm32_erase g pn 0).1, retx t (stm32_erase g pn 0).2) := by
  have hsel : ((0 + 65535) % 65536) &&& 0xFF = 0xFF := by decide
  have h0 : ¬ (0 : Nat) > 256 := by omega
  unfold stm32_erase
  simp only [h0, if_false, ack_neg, ack_state, hsel, Nat.zero_mod, if_true]
  simp only [retx, stm32_write_cmd, serial_write_buf]
  split_ifs <;> simp

theorem ext_erase_zero_retx (t : List Nat) (g : Globals) (pn : Nat → Nat) :
    stm32_ext_erase (retx t g) pn 0 =
      ((stm32_ext_erase g pn 0).1, retx t (stm32_ext_erase g pn 0).2) := by
  have hn : (0 + 65535) % 65536 = 0xFFFF := by decide
  unfold stm32_ext_erase
  simp only [ack_neg, ack_state, hn, true_or, if_true]
  simp only [retx, stm32_write_cmd, serial_write_buf]
  split_ifs <;> simp

theorem erase_block_retx (t : List Nat) (g : Globals) :
    erase_block (retx t g) = ((erase_block g).1, retx t (erase_block g).2) := by
  unfold erase_block
  simp only [retx_info, erase_zero_retx, ext_erase_zero_retx]
  split_ifs <;> rfl

theorem enter_loop_retx (t : List Nat) : ∀ (n : Nat) (g : Globals),
    enter_loop n (retx t g) = ((enter_loop n g).1, retx t (enter_loop n g).2) := by
  intro n
  induction n with
  | zero => intro g; rfl
  | succ n ih =>
    intro g
    simp only [enter_loop]
    rw [show ({ (retx t g) with tx := (retx t g).tx ++ [STM32_BEGIN] } : Globals)
      = retx t { g with tx := g.tx ++ [STM32_BEGIN] } from by simp [retx], poll_retx]
    split_ifs
    · rfl
    · exact ih _

theorem unprotect_block_retx (t : List Nat) (g : Globals) (do_unprotect : Bool) :
    unprotect_block (retx t g) do_unprotect =
      ((unprotect_block g do_unprotect).1, retx t (unprotect_block g do_unprotect).2) := by
  unfold unprotect_block
  simp only [write_unprotect_retx, enter_loop_retx]
  split_ifs <;> rfl

/-- The three guarded blocks as nested tests; the check pass hands on the globals it got. -/
theorem flash_blocks_eq (rtc : Int) (g : Globals) (pb1 pb2 : Nat → Nat) (sa : Nat)
    (file : Option (List Nat)) :
    flash_blocks rtc g pb1 pb2 sa file =
      if rtc ≥ 0 then
        if (stm32_flash_image g pb1 sa file false).p.rtc ≥ 0 then
          if (erase_block g).1 ≥ 0 then
            { rtc := (stm32_flash_image (erase_block g).2 pb2
                        (stm32_flash_image g pb1 sa file false).start_address file true).p.rtc,
              g := (stm32_flash_image (erase_block g).2 pb2
                        (stm32_flash_image g pb1 sa file false).start_address file true).p.g,
              start_address := (stm32_flash_image (erase_block g).2 pb2
                        (stm32_flash_image g pb1 sa file false).start_address file true).start_address }
          else { rtc := (erase_block g).1, g := (erase_block g).2,
                 start_address := (stm32_flash_image g pb1 sa file false).start_address }
        else { rtc := (stm32_flash_image g pb1 sa file false).p.rtc, g := g,
               start_address := (stm32_flash_image g pb1 sa file false).start_address }
      else { rtc := rtc, g := g, start_address := sa } := by
  have hg := flash_image_check_g g pb1 sa file
  unfold flash_blocks
  by_cases h1 : rtc ≥ 0
  · simp only [h1, if_true, hg]
    by_cases h2 : (stm32_flash_image g pb1 sa file false).p.rtc ≥ 0
    · simp only [h2, if_true]
    · simp only [h2, if_false]
  · simp only [h1, if_false]

theorem flash_blocks_retx (t : List Nat) (rtc : Int) (g : Globals) (pb1 pb2 : Nat → Nat)
    (sa : Nat) (file : Option (List Nat)) :
    flash_blocks rtc (retx t g) pb1 pb2 sa file = (flash_blocks rtc g pb1 pb2 sa file).retx t := by
  have e1 : ∀ s : Flash, (s.retx t).p.rtc = s.p.rtc := fun _ => rfl
  have e2 : ∀ s : Flash, (s.retx t).p.g = retx t s.p.g := fun _ => rfl
  have e3 : ∀ s : Flash, (s.retx t).start_address = s.start_address := fun _ => rfl
  rw [flash_blocks_eq, flash_blocks_eq]
  simp only [flash_image_retx, erase_block_retx, e1, e2, e3]
  split_ifs <;> rfl

theorem getLoop_retx (t : List Nat) (maxlen : Nat) : ∀ (n i : Nat) (g : Globals),
    getLoop maxlen n i (retx t g) = ((getLoop maxlen n i g).1, retx t (getLoop maxlen n i g).2) := by
  intro n
  induction n with
  | zero => intro i g; rfl
  | succ n ih =>
    intro i g
    simp only [getLoop, poll_retx]
    split_ifs
    · rfl
    · exact ih (i + 1) { (stm32_serial_poll g).2 with
        bootloader_info := upd (stm32_serial_poll g).2.bootloader_info i
          ((stm32_serial_poll g).1.toNat % 256) }
    · exact ih (i + 1) _

theorem get_retx (t : List Nat) (g : Globals) (maxlen : Nat) :
    stm32_get (retx t g) maxlen = ((stm32_get g maxlen).1, retx t (stm32_get g maxlen).2) := by
  unfold stm32_get
  simp only [write_cmd_retx, ack_retx, poll_retx, getLoop_retx]
  split_ifs <;> rfl

theorem bootloader_retx (t : List Nat) (g : Globals) (pb1 pb2 : Nat → Nat) (sa : Nat)
    (file : Option (List Nat)) (do_unprotect : Bool) :
    stm32_bootloader (retx t g) pb1 pb2 sa file do_unprotect =
      (stm32_bootloader g pb1 pb2 sa file do_unprotect).retx t := by
  unfold stm32_bootloader
  simp only [enter_loop_retx, get_retx, unprotect_block_retx, flash_blocks_retx]
  split_ifs <;> rfl

/-- Every step of the job only appends to the bytes transmitted. -/
theorem retx_self (g : Globals) : retx g.tx { g with tx := [] } = g := by
  simp [retx]

theorem bootloader_tx_append (g : Globals) (pb1 pb2 : Nat → Nat) (sa : Nat)
    (file : Option (List Nat)) (do_unprotect : Bool) :
    (stm32_bootloader g pb1 pb2 sa file do_unprotect).g.tx =
      g.tx ++ (stm32_bootloader { g with tx := [] } pb1 pb2 sa file do_unprotect).g.tx := by
  have h := bootloader_retx g.tx { g with tx := [] } pb1 pb2 sa file do_unprotect
  rw [retx_self] at h
  rw [h]
  rfl

theorem flash_blocks_tx_append (rtc : Int) (g : Globals) (pb1 pb2 : Nat → Nat) (sa : Nat)
    (file : Option (List Nat)) :
    (flash_blocks rtc g pb1 pb2 sa file).g.tx =
      g.tx ++ (flash_blocks rtc { g with tx := [] } pb1 pb2 sa file).g.tx := by
  have h := flash_blocks_retx g.tx rtc { g with tx := [] } pb1 pb2 sa file
  rw [retx_self] at h
  rw [h]
  rfl

theorem unprotect_block_tx_append (g : Globals) (do_unprotect : Bool) :
    (unprotect_block g do_unprotect).2.tx =
      g.tx ++ (unprotect_block { g with tx := [] } do_unprotect).2.tx := by
  have h := unprotect_block_retx g.tx { g with tx := [] } do_unprotect
  rw [retx_self] at h
  rw [h]
  rfl

/-! ## The entry loop -/

theorem getLoop_tx (maxlen : Nat) : ∀ (n i : Nat) (g : Globals),
    (getLoop maxlen n i g).2.tx = g.tx := by
  intro n
  induction n with
  | zero => intro i g; rfl
  | succ n ih =>
    intro i g
    simp only [getLoop, poll_state]
    split_ifs
    · rfl
    · rw [ih]
    · rw [ih]

/-- Whatever the target answers, `stm32_get` sends the frame `[0x00, 0xFF]` and nothing
else. -/
theorem get_tx (g : Globals) (maxlen : Nat) :
    (stm32_get g maxlen).2.tx = g.tx ++ [0x00, 0xFF] := by
  unfold stm32_get
  simp only [ack_state, poll_state]
  split_ifs <;>
    simp [getLoop_tx, stm32_write_cmd, serial_write_buf, slice_two, upd, STM32_CMD_GET, not8]

/-- Once the entry loop has seen an ACK, the job sends the GET frame next. -/
theorem bootloader_after_entry (g : Globals) (pb1 pb2 : Nat → Nat) (sa : Nat)
    (file : Option (List Nat)) (do_unprotect : Bool) (h : (enter_loop N_RETRIES g).1 = true) :
    ∃ rest, (stm32_bootloader g pb1 pb2 sa file do_unprotect).g.tx =
      (enter_loop N_RETRIES g).2.tx ++ [0x00, 0xFF] ++ rest := by
  unfold stm32_bootloader
  simp only [h, Bool.true_eq_false, if_false]
  split_ifs
  · exact ⟨[], by simp [get_tx]⟩
  · rw [flash_blocks_tx_append, unprotect_block_tx_append, get_tx]
    exact ⟨_, (List.append_assoc _ _ _)⟩

/-! ## C30: the outcome of the re-entry -/

theorem acked_head (a : Option Nat) (r : List (Option Nat)) : acked (a :: r) = acked [a] := by
  cases a <;> rfl

theorem enter_loop_answers : ∀ (n : Nat) (g : Globals) (A rest : List (Option Nat)),
    reentry_answers n A = true → g.rx = A ++ rest →
    (enter_loop n g).2 =
      { g with tx := g.tx ++ List.replicate A.length STM32_BEGIN, rx := rest } := by
  intro n
  induction n with
  | zero =>
    intro g A rest hA hrx
    cases A with
    | nil =>
      cases g
      simp only [List.nil_append] at hrx
      subst hrx
      simp [enter_loop]
    | cons a A => simp [reentry_answers] at hA
  | succ n ih =>
    intro g A rest hA hrx
    cases A with
    | nil => simp [reentry_answers] at hA
    | cons a A =>
      simp only [reentry_answers] at hA
      by_cases ha : acked [a] = true
      · rw [if_pos ha] at hA
        have hnil : A = [] := by simpa using hA
        subst hnil
        have hp : (stm32_serial_poll { g with tx := g.tx ++ [STM32_BEGIN] }).1 = (STM32_ACK : Int) := by
          rw [poll_is_ack]
          show acked g.rx = true
          rw [hrx, List.cons_append, acked_head]
          exact ha
        simp only [enter_loop, hp, if_true, poll_state]
        simp [hrx]
      · rw [if_neg ha] at hA
        have hp : ¬ (stm32_serial_poll { g with tx := g.tx ++ [STM32_BEGIN] }).1 = (STM32_ACK : Int) := by
          rw [poll_is_ack]
          show ¬ acked g.rx = true
          rw [hrx, List.cons_append, acked_head]
          exact ha
        simp only [enter_loop, hp, if_false, poll_state]
        rw [ih _ A rest hA (by simp [hrx])]
        simp [List.replicate_succ]

theorem write_unprotect_acked (g : Globals) (r : List (Option Nat)) :
    stm32_write_unprotect { g with rx := some STM32_ACK :: some STM32_ACK :: r } =
      (0, { stm32_write_cmd g (g.bootloader_info STM32_INFO_WRITE_UNPROTECT_CMD_IDX)
              with rx := r }) := by
  unfold stm32_write_unprotect
  simp only [ack_neg, ack_state]
  simp [stm32_write_cmd, serial_write_buf, acked_cons_ack]

/-- After a write-unprotect that both ACKs answered, the rest of the job is the check
pass, the erase and the write pass run on the state in which the re-entry loop left the
link, and the bytes sent so far are a prefix that none of them looks at. -/
theorem unprotect_then_blocks (g : Globals) (pb1 pb2 : Nat → Nat) (sa : Nat)
    (file : Option (List Nat)) (A rest : List (Option Nat))
    (hA : reentry_answers N_RETRIES A = true) :
    flash_blocks
        (unprotect_block { g with rx := some STM32_ACK :: some STM32_ACK :: (A ++ rest) } true).1
        (unprotect_block { g with rx := some STM32_ACK :: some STM32_ACK :: (A ++ rest) } true).2
        pb1 pb2 sa file =
      (flash_blocks 0
        { stm32_write_cmd g (g.bootloader_info STM32_INFO_WRITE_UNPROTECT_CMD_IDX)
            with tx := [], rx := rest } pb1 pb2 sa file).retx
        (g.tx ++ [g.bootloader_info STM32_INFO_WRITE_UNPROTECT_CMD_IDX % 256,
                  not8 (g.bootloader_info STM32_INFO_WRITE_UNPROTECT_CMD_IDX)] ++
          List.replicate A.length STM32_BEGIN) := by
  rw [← flash_blocks_retx]
  unfold unprotect_block
  simp only [if_true, write_unprotect_acked]
  rw [if_pos (le_refl _)]
  simp only []
  rw [enter_loop_answers N_RETRIES _ A rest hA rfl]
  congr 1
  simp [retx, stm32_write_cmd, serial_write_buf, slice_two, upd]

/-- C30 (the re-entry outcome is not propagated): let write-unprotect be answered by two
ACKs, and let `A` and `B` be two courses of the re-entry that follows (each one to four
poll outcomes ACK, NACK, another byte or nothing, ending at the first ACK or after the
fourth attempt), followed by the same answers `rest`. Then the rest of the job (check
pass, erase, write pass) returns the same code and the same start address, leaves the
same answers unread, performs the same page writes and read-backs, and transmits the
same bytes `x` after the re-entry bytes; only the number of `0x7F` sent differs. -/
theorem reentry_not_propagated (g : Globals) (pb1 pb2 : Nat → Nat) (sa : Nat)
    (file : Option (List Nat)) (A B rest : List (Option Nat))
    (hA : reentry_answers N_RETRIES A = true) (hB : reentry_answers N_RETRIES B = true) :
    let ua := unprotect_block { g with rx := some STM32_ACK :: some STM32_ACK :: (A ++ rest) } true
    let ub := unprotect_block { g with rx := some STM32_ACK :: some STM32_ACK :: (B ++ rest) } true
    let ja := flash_blocks ua.1 ua.2 pb1 pb2 sa file
    let jb := flash_blocks ub.1 ub.2 pb1 pb2 sa file
    ja.rtc = jb.rtc ∧ ja.start_address = jb.start_address ∧ ja.g.rx = jb.g.rx ∧
    ja.g.wlog = jb.g.wlog ∧ ja.g.rlog = jb.g.rlog ∧
    ja.g.bootloader_info = jb.g.bootloader_info ∧
    ∃ x,
      ja.g.tx = g.tx ++ [g.bootloader_info STM32_INFO_WRITE_UNPROTECT_CMD_IDX % 256,
                         not8 (g.bootloader_info STM32_INFO_WRITE_UNPROTECT_CMD_IDX)] ++
                  List.replicate A.length 0x7F ++ x ∧
      jb.g.tx = g.tx ++ [g.bootloader_info STM32_INFO_WRITE_UNPROTECT_CMD_IDX % 256,
                         not8 (g.bootloader_info STM32_INFO_WRITE_UNPROTECT_CMD_IDX)] ++
                  List.replicate B.length 0x7F ++ x := by
  intro ua ub ja jb
  have ea : ja = _ := unprotect_then_blocks g pb1 pb2 sa file A rest hA
  have eb : jb = _ := unprotect_then_blocks g pb1 pb2 sa file B rest hB
  rw [ea, eb]
  exact ⟨rfl, rfl, rfl, rfl, rfl, rfl, _, rfl, rfl⟩

/-- The theorem at a target whose re-entry is answered at once by ACK, and at one that
answers NACK, nothing, a stray byte and nothing. -/
theorem reentry_not_propagated_witness :
    let ua := unprotect_block { globals44 [] with
      rx := some STM32_ACK :: some STM32_ACK :: ([some 0x79] ++ []) } true
    let ub := unprotect_block { globals44 [] with
      rx := some STM32_ACK :: some STM32_ACK :: ([some 0x1F, none, some 0x00, none] ++ []) } true
    let ja := flash_blocks ua.1 ua.2 (fun _ => 0) (fun _ => 0) 0 (some hexS1)
    let jb := flash_blocks ub.1 ub.2 (fun _ => 0) (fun _ => 0) 0 (some hexS1)
    ja.rtc = jb.rtc ∧ ja.g.rx = jb.g.rx ∧ ja.g.wlog = jb.g.wlog := by
  have h := reentry_not_propagated (globals44 []) (fun _ => 0) (fun _ => 0) 0 (some hexS1)
    [some 0x79] [some 0x1F, none, some 0x00, none] [] (by decide) (by decide)
  exact ⟨h.1, h.2.2.1, h.2.2.2.1⟩

/-! ## C26: the job stops at its first failing step -/

theorem bootloader_entry_fail (g : Globals) (pb1 pb2 : Nat → Nat) (sa : Nat)
    (file : Option (List Nat)) (do_unprotect : Bool) (h : (enter_loop N_RETRIES g).1 = false) :
    stm32_bootloader g pb1 pb2 sa file do_unprotect =
      { rtc := -1, g := (enter_loop N_RETRIES g).2, start_address := sa } := by
  unfold stm32_bootloader
  simp only [h, if_true]

theorem bootloader_get_fail (g : Globals) (pb1 pb2 : Nat → Nat) (sa : Nat)
    (file : Option (List Nat)) (do_unprotect : Bool) (h : (enter_loop N_RETRIES g).1 = true)
    (hg : (stm32_get (enter_loop N_RETRIES g).2 STM32_INFO_SIZE).1 < 0) :
    stm32_bootloader g pb1 pb2 sa file do_unprotect =
      { rtc := (stm32_get (enter_loop N_RETRIES g).2 STM32_INFO_SIZE).1,
        g := (stm32_get (enter_loop N_RETRIES g).2 STM32_INFO_SIZE).2, start_address := sa } := by
  unfold stm32_bootloader
  simp only [h, Bool.true_eq_false, if_false, hg, if_true]

theorem bootloader_after_get (g : Globals) (pb1 pb2 : Nat → Nat) (sa : Nat)
    (file : Option (List Nat)) (do_unprotect : Bool) (h : (enter_loop N_RETRIES g).1 = true)
    (hg : ¬ (stm32_get (enter_loop N_RETRIES g).2 STM32_INFO_SIZE).1 < 0) :
    stm32_bootloader g pb1 pb2 sa file do_unprotect =
      flash_blocks
        (unprotect_block (stm32_get (enter_loop N_RETRIES g).2 STM32_INFO_SIZE).2 do_unprotect).1
        (unprotect_block (stm32_get (enter_loop N_RETRIES g).2 STM32_INFO_SIZE).2 do_unprotect).2
        pb1 pb2 sa file := by
  unfold stm32_bootloader
  simp only [h, Bool.true_eq_false, if_false, hg]

theorem unprotect_block_fail (g : Globals) (h : (stm32_write_unprotect g).1 < 0) :
    unprotect_block g true = stm32_write_unprotect g := by
  unfold unprotect_block
  simp only [if_true]
  rw [if_neg (by omega)]

/-- C26 (abort on first error in the job): whichever of the steps of `stm32_bootloader`
fails first (the entry loop sees no ACK, GET returns a negative code, write-unprotect
returns a negative code, the check pass returns a negative code, the erase returns a
negative code), the job returns a negative code and ends in exactly the state in which
that step left the globals and the serial link: no later step has run and no byte has
been transmitted after it. For a file that fails the check pass this state is the one
before the check pass, so neither an erase command nor a write command follows. -/
theorem abort_on_first_error (g : Globals) (pb1 pb2 : Nat → Nat) (sa : Nat)
    (file : Option (List Nat)) (do_unprotect : Bool) :
    let e := enter_loop N_RETRIES g
    let gt := stm32_get e.2 STM32_INFO_SIZE
    let w := stm32_write_unprotect gt.2
    let u := unprotect_block gt.2 do_unprotect
    let c := stm32_flash_image u.2 pb1 sa file false
    let er := erase_block u.2
    let j := stm32_bootloader g pb1 pb2 sa file do_unprotect
    (e.1 = false → j.rtc < 0 ∧ j.g = e.2) ∧
    (e.1 = true → gt.1 < 0 → j.rtc < 0 ∧ j.g = gt.2) ∧
    (e.1 = true → ¬ gt.1 < 0 → do_unprotect = true → w.1 < 0 → j.rtc < 0 ∧ j.g = w.2) ∧
    (e.1 = true → ¬ gt.1 < 0 → u.1 ≥ 0 → c.p.rtc < 0 →
      j.rtc < 0 ∧ j.g = u.2 ∧ j.g.tx = u.2.tx ∧ j.g.wlog = u.2.wlog) ∧
    (e.1 = true → ¬ gt.1 < 0 → u.1 ≥ 0 → c.p.rtc ≥ 0 → er.1 < 0 → j.rtc < 0 ∧ j.g = er.2) := by
  intro e gt w u c er j
  refine ⟨?_, ?_, ?_, ?_, ?_⟩
  · intro h
    have hj : j = _ := bootloader_entry_fail g pb1 pb2 sa file do_unprotect h
    rw [hj]
    exact ⟨by show (-1 : Int) < 0; omega, rfl⟩
  · intro h hg
    have hj : j = _ := bootloader_get_fail g pb1 pb2 sa file do_unprotect h hg
    rw [hj]
    exact ⟨hg, rfl⟩
  · intro h hg hd hw
    have hj : j = _ := bootloader_after_get g pb1 pb2 sa file do_unprotect h hg
    subst hd
    have hu : unprotect_block gt.2 true = w := unprotect_block_fail gt.2 hw
    rw [hj]
    show (flash_blocks (unprotect_block gt.2 true).1 (unprotect_block gt.2 true).2 pb1 pb2 sa file).rtc < 0 ∧
      (flash_blocks (unprotect_block gt.2 true).1 (unprotect_block gt.2 true).2 pb1 pb2 sa file).g = w.2
    rw [hu, flash_blocks_eq, if_neg (by omega)]
    exact ⟨hw, rfl⟩
  · intro h hg hu hc
    have hj : j = _ := bootloader_after_get g pb1 pb2 sa file do_unprotect h hg
    rw [hj]
    show (flash_blocks u.1 u.2 pb1 pb2 sa file).rtc < 0 ∧
      (flash_blocks u.1 u.2 pb1 pb2 sa file).g = u.2 ∧
      (flash_blocks u.1 u.2 pb1 pb2 sa file).g.tx = u.2.tx ∧
      (flash_blocks u.1 u.2 pb1 pb2 sa file).g.wlog = u.2.wlog
    have hc' : ¬ (stm32_flash_image u.2 pb1 sa file false).p.rtc ≥ 0 := by
      show ¬ c.p.rtc ≥ 0
      omega
    rw [flash_blocks_eq, if_pos hu, if_neg hc']
    exact ⟨hc, rfl, rfl, rfl⟩
  · intro h hg hu hc he
    have hj : j = _ := bootloader_after_get g pb1 pb2 sa file do_unprotect h hg
    rw [hj]
    show (flash_blocks u.1 u.2 pb1 pb2 sa file).rtc < 0 ∧
      (flash_blocks u.1 u.2 pb1 pb2 sa file).g = er.2
    have hc' : (stm32_flash_image u.2 pb1 sa file false).p.rtc ≥ 0 := hc
    have he' : ¬ (erase_block u.2).1 ≥ 0 := by
      show ¬ er.1 ≥ 0
      omega
    rw [flash_blocks_eq, if_pos hu, if_pos hc', if_neg he']
    exact ⟨he, rfl⟩

set_option maxRecDepth 100000 in
/-- The five cases of the theorem: a silent target; a target that answers the entry only;
one that answers write-unprotect with NACK; the file S4, which fails the check pass; a
target that answers the erase command with NACK. -/
theorem abort_on_first_error_witness :
    (stm32_bootloader (globalsBoot []) (fun _ => 0) (fun _ => 0) 0 (some hexS1) true).g.tx =
      [0x7F, 0x7F, 0x7F, 0x7F] ∧
    (stm32_bootloader (globalsBoot [some 0x79]) (fun _ => 0) (fun _ => 0) 0 (some hexS1) true).g.tx =
      [0x7F, 0x00, 0xFF] ∧
    (stm32_bootloader (globalsBoot (target44 [some 0x1F])) (fun _ => 0) (fun _ => 0) 0
      (some hexS1) true).g.tx = [0x7F, 0x00, 0xFF, 0x73, 0x8C] ∧
    (stm32_bootloader (globalsBoot (target44 (acks 3))) (fun _ => 0) (fun _ => 0) 0
      (some hexS4) true).g.tx = [0x7F, 0x00, 0xFF, 0x73, 0x8C, 0x7F] ∧
    (stm32_bootloader (globalsBoot (target44 (acks 3 ++ [some 0x1F]))) (fun _ => 0) (fun _ => 0) 0
      (some hexS1) true).g.tx = [0x7F, 0x00, 0xFF, 0x73, 0x8C, 0x7F, 0x44, 0xBB] := by
  have a := (abort_on_first_error (globalsBoot []) (fun _ => 0) (fun _ => 0) 0
    (some hexS1) true).1 (by decide)
  have b := (abort_on_first_error (globalsBoot [some 0x79]) (fun _ => 0) (fun _ => 0) 0
    (some hexS1) true).2.1 (by decide) (by decide)
  have c := (abort_on_first_error (globalsBoot (target44 [some 0x1F])) (fun _ => 0)
    (fun _ => 0) 0 (some hexS1) true).2.2.1 (by decide) (by decide) rfl (by decide)
  have d := (abort_on_first_error (globalsBoot (target44 (acks 3))) (fun _ => 0)
    (fun _ => 0) 0 (some hexS4) true).2.2.2.1 (by decide) (by decide) (by decide) (by decide)
  have e := (abort_on_first_error (globalsBoot (target44 (acks 3 ++ [some 0x1F]))) (fun _ => 0)
    (fun _ => 0) 0 (some hexS1) true).2.2.2.2 (by decide) (by decide) (by decide) (by decide)
    (by decide)
  refine ⟨?_, ?_, ?_, ?_, ?_⟩
  · rw [a.2]; decide
  · rw [b.2]; decide
  · rw [c.2]; decide
  · rw [d.2.1]; decide
  · rw [e.2]; decide

/-! ## C27: where the check pass stands in the job -/

set_option maxRecDepth 100000 in
/-- C27, counterexample: the file S4 fails the check pass, and the flash job on S4 with a
target that answers has by then sent the auto-baud byte, the GET frame, the
write-unprotect frame and the auto-baud byte of the re-entry. -/
theorem check_pass_not_first :
    (stm32_flash_image (globalsBoot []) (fun _ => 0) 0 (some hexS4) false).p.rtc = -1 ∧
    (stm32_flash_from_local (globalsBoot (none :: target44 (acks 3))) (fun _ => 0) (fun _ => 0) 0
      (some hexS4)).rtc = -1 ∧
    (stm32_flash_from_local (globalsBoot (none :: target44 (acks 3))) (fun _ => 0) (fun _ => 0) 0
      (some hexS4)).g.tx = [0x7F, 0x00, 0xFF, 0x73, 0x8C, 0x7F] := by
  refine ⟨?_, ?_, ?_⟩ <;> decide

theorem enter_loop_sends (n : Nat) (g : Globals) :
    ∃ rest, (enter_loop (n + 1) g).2.tx = g.tx ++ STM32_BEGIN :: rest := by
  obtain ⟨k, _, h1, hk⟩ := enter_loop_fields (n + 1) g
  have hk1 : 1 ≤ k := h1 (by omega)
  obtain ⟨m, rfl⟩ : ∃ m, k = m + 1 := ⟨k - 1, by omega⟩
  exact ⟨List.replicate m STM32_BEGIN, by rw [hk]; simp [List.replicate_succ]⟩

/-- C27, amended: the check pass comes after the entry, GET and write-unprotect. For
every file the flash job first sends the auto-baud byte `0x7F`. When the entry loop sees
an ACK, GET returns no negative code and write-unprotect is answered, a file that fails
the check pass makes the job return a negative code in the state that the re-entry loop
left: the bytes sent are those of the entry, GET, write-unprotect and the re-entry, and
nothing follows them. -/
theorem check_after_entry (g : Globals) (pb1 pb2 : Nat → Nat) (sa : Nat)
    (file : Option (List Nat)) :
    let g0 : Globals := { g with rx := flush_input g.rx }
    let e := enter_loop N_RETRIES g0
    let gt := stm32_get e.2 STM32_INFO_SIZE
    let u := unprotect_block gt.2 true
    let j := stm32_flash_from_local g pb1 pb2 sa file
    (∃ rest, j.g.tx = g.tx ++ 0x7F :: rest) ∧
    (e.1 = true → ¬ gt.1 < 0 → u.1 ≥ 0 →
      (stm32_flash_image u.2 pb1 sa file false).p.rtc < 0 →
      j.rtc < 0 ∧ j.g = u.2 ∧
      ∃ k rest, 1 ≤ k ∧ k ≤ 4 ∧
        j.g.tx = g.tx ++ List.replicate k 0x7F ++ [0x00, 0xFF] ++
          [gt.2.bootloader_info STM32_INFO_WRITE_UNPROTECT_CMD_IDX % 256,
           not8 (gt.2.bootloader_info STM32_INFO_WRITE_UNPROTECT_CMD_IDX)] ++ 0x7F :: rest) := by
  intro g0 e gt u j
  constructor
  · obtain ⟨r1, h1⟩ := enter_loop_sends 3 g0
    by_cases he : e.1 = true
    · obtain ⟨r2, h2⟩ := bootloader_after_entry g0 pb1 pb2 sa file true he
      refine ⟨r1 ++ [0x00, 0xFF] ++ r2, ?_⟩
      show (stm32_bootloader g0 pb1 pb2 sa file true).g.tx = _
      rw [h2]
      show (enter_loop (3 + 1) g0).2.tx ++ _ ++ _ = _
      rw [h1]
      simp [STM32_BEGIN, g0]
    · have he' : (enter_loop N_RETRIES g0).1 = false := by
        simpa using he
      refine ⟨r1, ?_⟩
      show (stm32_bootloader g0 pb1 pb2 sa file true).g.tx = _
      rw [bootloader_entry_fail g0 pb1 pb2 sa file true he']
      show (enter_loop (3 + 1) g0).2.tx = _
      rw [h1]
      rfl
  · intro he hg hu hc
    have hj : j = flash_blocks u.1 u.2 pb1 pb2 sa file :=
      bootloader_after_get g0 pb1 pb2 sa file true he hg
    have hc' : ¬ (stm32_flash_image u.2 pb1 sa file false).p.rtc ≥ 0 := by omega
    rw [flash_blocks_eq, if_pos hu, if_neg hc'] at hj
    rw [hj]
    refine ⟨hc, rfl, ?_⟩
    show ∃ k rest, 1 ≤ k ∧ k ≤ 4 ∧ u.2.tx = _
    obtain ⟨k, hk4, hk1, hk⟩ := enter_loop_fields N_RETRIES g0
    have hw : (stm32_write_unprotect gt.2).1 ≥ 0 := by
      by_contra hneg
      have hf := unprotect_block_fail gt.2 (by omega)
      have : u.1 = (stm32_write_unprotect gt.2).1 := by
        show (unprotect_block gt.2 true).1 = _
        rw [hf]
      omega
    have hu2 : u.2 = (enter_loop N_RETRIES (stm32_write_unprotect gt.2).2).2 := by
      show (unprotect_block gt.2 true).2 = _
      unfold unprotect_block
      simp only [if_true]
      rw [if_pos hw]
    obtain ⟨r, hr⟩ := enter_loop_sends 3 (stm32_write_unprotect gt.2).2
    refine ⟨k, r, hk1 (by decide), hk4, ?_⟩
    rw [hu2]
    show (enter_loop (3 + 1) (stm32_write_unprotect gt.2).2).2.tx = _
    rw [hr, (write_unprotect_fields gt.2).2.1, get_tx]
    show (enter_loop N_RETRIES g0).2.tx ++ _ ++ _ ++ _ = _
    rw [hk]
    simp [STM32_BEGIN, g0]

set_option maxRecDepth 100000 in
/-- The theorem at the file S4 and a target that is silent while the input is flushed and
then answers. -/
theorem check_after_entry_witness :
    (stm32_flash_from_local (globalsBoot (none :: target44 (acks 3))) (fun _ => 0) (fun _ => 0) 0
      (some hexS4)).rtc < 0 ∧
    (stm32_flash_from_local (globalsBoot (none :: target44 (acks 3))) (fun _ => 0) (fun _ => 0) 0
      (some hexS4)).g.wlog = [] := by
  have h := (check_after_entry (globalsBoot (none :: target44 (acks 3))) (fun _ => 0) (fun _ => 0) 0
    (some hexS4)).2 (by decide) (by decide) (by decide) (by decide)
  exact ⟨h.1, by rw [h.2.1]; decide⟩

/-! ## C28: a verify mismatch ends the write pass -/

theorem write_verify_cases (p : Page) :
    (write_verify p).1.errors = p.errors ∨
    ((write_verify p).2 = true ∧ StoppedAt p.errors (write_verify p).1) := by
  unfold write_verify
  simp only []
  split_ifs with h1 h2 h3
  · exact Or.inl rfl
  · exact Or.inl rfl
  · exact Or.inr ⟨rfl, p, rfl, ⟨h1, h2, h3⟩, rfl⟩
  · exact Or.inl rfl

theorem flush_page_cases (p : Page) :
    (flush_page true p).1.errors = p.errors ∨
    ((flush_page true p).2 = true ∧ StoppedAt p.errors (flush_page true p).1) := by
  have hv := write_verify_cases p
  have hfl : flush_page true p =
      if (write_verify p).2 then write_verify p
      else ({ (write_verify p).1 with
        pages_written := ((write_verify p).1.pages_written + 1) % U32 }, false) := rfl
  cases hb : (write_verify p).2 with
  | true =>
    have hf : flush_page true p = write_verify p := by rw [hfl, hb]; rfl
    rw [hf]
    exact hv
  | false =>
    have hf : flush_page true p = ({ (write_verify p).1 with
        pages_written := ((write_verify p).1.pages_written + 1) % U32 }, false) := by
      rw [hfl, hb]; rfl
    rw [hf]
    rcases hv with hv | ⟨hv, -⟩
    · exact Or.inl hv
    · rw [hb] at hv; exact absurd hv (by decide)

theorem page_byte_cases (a ch : Nat) (p : Page) :
    (page_byte true a ch p).1.errors = p.errors ∨
    ((page_byte true a ch p).2 = true ∧ StoppedAt p.errors (page_byte true a ch p).1) := by
  by_cases h1 : sub32 a p.pageaddr < PAGESIZE
  · rw [page_byte_in true a ch p h1]
    exact Or.inl rfl
  · have h1' : PAGESIZE ≤ sub32 a p.pageaddr := Nat.not_lt.1 h1
    by_cases hm : p.pageaddr = 0xffffffff
    · rw [page_byte_first true a ch p h1' hm]
      exact Or.inl rfl
    · have hf := flush_page_cases { p with pageidx := a }
      cases hb : (flush_page true { p with pageidx := a }).2 with
      | true =>
        rw [page_byte_cross_fail true a ch p h1' hm hb]
        exact hf
      | false =>
        rw [page_byte_cross_ok true a ch p h1' hm hb]
        rcases hf with hf | ⟨hf, -⟩
        · exact Or.inl hf
        · rw [hb] at hf; exact absurd hf (by decide)

theorem asm_fold_cases : ∀ (its : List (Nat × Nat)) (p : Page),
    (asm_fold true its p).1.errors = p.errors ∨
    ((asm_fold true its p).2 = true ∧ StoppedAt p.errors (asm_fold true its p).1) := by
  intro its
  induction its with
  | nil => intro p; exact Or.inl rfl
  | cons x rest ih =>
    intro p
    have hp := page_byte_cases x.1 x.2 p
    simp only [asm_fold]
    cases hb : (page_byte true x.1 x.2 p).2 with
    | true =>
      simp only [if_true]
      exact hp
    | false =>
      simp only [Bool.false_eq_true, if_false]
      rcases hp with hp | ⟨hp, -⟩
      · have := ih (page_byte true x.1 x.2 p).1
        rw [hp] at this
        exact this
      · rw [hb] at hp; exact absurd hp (by decide)

theorem eof_flush_cases (p : Page) :
    (eof_flush true p).errors = p.errors ∨ StoppedAt p.errors (eof_flush true p) := by
  unfold eof_flush
  by_cases hpos : sub32 p.pageidx p.pageaddr > 0
  · have hv := write_verify_cases { p with pageidx := (p.pageidx + 1) % U32 }
    simp only [hpos, if_true]
    cases hb : (write_verify { p with pageidx := (p.pageidx + 1) % U32 }).2 with
    | true =>
      simp only [if_true]
      rcases hv with hv | ⟨-, hv⟩
      · exact Or.inl hv
      · exact Or.inr hv
    | false =>
      simp only [Bool.false_eq_true, if_false]
      rcases hv with hv | ⟨hv, -⟩
      · exact Or.inl hv
      · rw [hb] at hv; exact absurd hv (by decide)
  · rw [if_neg hpos]
    exact Or.inl rfl

theorem stopped_rtc (e0 : Nat) (p : Page) (h : StoppedAt e0 p) : p.rtc = -1 := by
  obtain ⟨q, -, -, hp⟩ := h
  rw [hp]

theorem process_record_cases (s : Flash) (drlo rectype sum : Nat) (data : List Nat)
    (chcksum : Nat) :
    (process_record true s drlo rectype sum data chcksum).1.p.errors = s.p.errors ∨
    ((process_record true s drlo rectype sum data chcksum).2 = true ∧
      StoppedAt s.p.errors (process_record true s drlo rectype sum data chcksum).1.p) := by
  by_cases h0 : rectype = 0
  · subst h0
    have ha := data_loop_asm true drlo data 0 s sum
    have hf := asm_fold_cases (rec_items s.ulba drlo 0 data) s.p
    rw [← ha.1, ← ha.2.1] at hf
    rw [process_record_data]
    by_cases c1 : (data_loop true drlo data 0 s sum).1.p.rtc = -1
    · rw [if_pos c1]
      rcases hf with hf | ⟨-, hf⟩
      · exact Or.inl hf
      · exact Or.inr ⟨rfl, hf⟩
    · rw [if_neg c1]
      have hf' : (data_loop true drlo data 0 s sum).1.p.errors = s.p.errors := by
        rcases hf with hf | ⟨-, hf⟩
        · exact hf
        · exact absurd (stopped_rtc _ _ hf) c1
      by_cases c2 : checksum_fails (data_loop true drlo data 0 s sum).2.2 chcksum = true
      · rw [if_pos c2]
        exact Or.inl hf'
      · rw [if_neg c2]
        exact Or.inl hf'
  by_cases h1 : rectype = 1
  · subst h1
    rw [process_record_eof]
    rcases eof_flush_cases s.p with h | h
    · exact Or.inl h
    · exact Or.inr ⟨rfl, h⟩
  by_cases h4 : rectype = 4
  · subst h4
    rw [process_record_ela]
    split_ifs <;> exact Or.inl rfl
  by_cases h5 : rectype = 5
  · subst h5
    rw [process_record_sla]
    split_ifs <;> exact Or.inl rfl
  rw [process_record_other true s drlo rectype sum data chcksum h0 h1 h4 h5]
  exact Or.inl rfl

theorem line_loop_cases : ∀ (lines : List (List Nat)) (s : Flash),
    (line_loop true lines s).p.errors = s.p.errors ∨
    StoppedAt s.p.errors (line_loop true lines s).p := by
  intro lines
  induction lines with
  | nil => intro s; exact Or.inl rfl
  | cons l rest ih =>
    intro s
    have hstep : (process_line true (s.count_line l.length) l).1.p.errors = s.p.errors ∨
        ((process_line true (s.count_line l.length) l).2 = true ∧
          StoppedAt s.p.errors (process_line true (s.count_line l.length) l).1.p) := by
      cases hrec : is_record l with
      | false =>
        rw [process_line_not_record true _ l hrec]
        exact Or.inl rfl
      | true =>
        rw [process_line_of_record true _ l hrec]
        exact process_record_cases _ _ _ _ _ _
    simp only [line_loop]
    split_ifs with h0 hb
    · exact Or.inl rfl
    · rcases hstep with h | ⟨-, h⟩
      · exact Or.inl h
      · exact Or.inr h
    · rcases hstep with h | ⟨h, -⟩
      · have := ih (process_line true (s.count_line l.length) l).1
        rw [h] at this
        exact this
      · exact absurd h hb

/-- The write pass ends without a verify failure, or in the state in which the first
verify mismatch left it. -/
theorem flash_image_cases (g : Globals) (pagebuf0 : Nat → Nat) (sa : Nat)
    (file : Option (List Nat)) :
    (stm32_flash_image g pagebuf0 sa file true).p.errors = 0 ∨
    StoppedAt 0 (stm32_flash_image g pagebuf0 sa file true).p := by
  cases file with
  | none => exact Or.inl rfl
  | some text =>
    exact line_loop_cases (file_lines text []) (Flash.init g pagebuf0 sa)

/-- A flush whose write and read the target answers stage by stage, reading back the
bytes `back`: the outcome is decided by the comparison of the page payload with `back`. -/
theorem write_verify_target (p : Page) (back : List Nat) (tail : List (Option Nat))
    (hlen : sub32 p.pageidx p.pageaddr = back.length) (hn : back.length ≤ 256)
    (hb : ∀ b ∈ back, b < 256) (hrx : p.g.rx = page_replies back ++ tail) :
    (after_read p).rx = tail ∧
    (slice p.pagebuf back.length ≠ back →
      write_verify p =
        ({ p with g := after_read p, errors := p.errors + 1, rtc := -1 }, true)) ∧
    (slice p.pagebuf back.length = back →
      write_verify p =
        ({ p with g := after_read p,
                  bytes_written := (p.bytes_written + back.length) % U32 }, false)) := by
  have hrx' : p.g.rx = acks 3 ++ (acks 3 ++ (back.map some ++ tail)) := by
    rw [hrx, page_replies, acks_six]; simp
  obtain ⟨hw1, hw2⟩ := write_memory_ok p.g p.pagebuf p.pageaddr back.length _ hn hrx'
  obtain ⟨hr1, hr2, hr3⟩ := read_memory_ok
    (stm32_write_memory p.g p.pagebuf p.pageaddr back.length).2 p.pageaddr back tail hn hb hw2
  have hw1' : ¬ (stm32_write_memory p.g p.pagebuf p.pageaddr back.length).1 < 0 := by
    rw [hw1]; decide
  refine ⟨?_, ?_, ?_⟩
  · unfold after_read
    rw [hlen]
    exact hr2
  · intro hne
    unfold write_verify after_read
    simp only [hlen]
    rw [if_neg hw1', if_neg hr1, if_pos (by rw [hr3]; exact hne)]
  · intro heq
    unfold write_verify after_read
    simp only [hlen]
    rw [if_neg hw1', if_neg hr1, if_neg (by rw [hr3]; exact fun h => h heq)]

/-- C28 (a verify mismatch aborts the write pass): for every page whose write and
read-back the target answers, reading back the bytes `back`: when `back` differs from the
page payload `pagebuf[0..len)`, the flush adds one to `errors`, sets `rtc = -1` and
leaves with `break`, the bytes-written counter unchanged; when they are equal it adds
`len` to the bytes-written counter and goes on. And for every file and every behaviour
of the target, the write pass ends either without any verify failure, or in exactly the
state of the first mismatching page `q` right after its read-back, with `errors = 1` and
`rtc = -1`: nothing has been transmitted and no page written after it. -/
theorem verify_mismatch_aborts :
    (∀ (p : Page) (back : List Nat) (tail : List (Option Nat)),
      sub32 p.pageidx p.pageaddr = back.length → back.length ≤ 256 → (∀ b ∈ back, b < 256) →
      p.g.rx = page_replies back ++ tail →
      (slice p.pagebuf back.length ≠ back →
        write_verify p =
          ({ p with g := after_read p, errors := p.errors + 1, rtc := -1 }, true)) ∧
      (slice p.pagebuf back.length = back →
        write_verify p =
          ({ p with g := after_read p,
                    bytes_written := (p.bytes_written + back.length) % U32 }, false))) ∧
    (∀ (g : Globals) (pagebuf0 : Nat → Nat) (sa : Nat) (file : Option (List Nat)),
      (stm32_flash_image g pagebuf0 sa file true).p.errors = 0 ∨
      ∃ q : Page, q.errors = 0 ∧ Mismatch q ∧
        (stm32_flash_image g pagebuf0 sa file true).p =
          { q with g := after_read q, errors := 1, rtc := -1 }) := by
  constructor
  · intro p back tail hlen hn hb hrx
    exact (write_verify_target p back tail hlen hn hb hrx).2
  · intro g pagebuf0 sa file
    rcases flash_image_cases g pagebuf0 sa file with h | ⟨q, hq, hm, hp⟩
    · exact Or.inl h
    · refine Or.inr ⟨q, hq, hm, ?_⟩
      rw [hp, hq]

set_option maxHeartbeats 4000000 in
set_option maxRecDepth 1000000 in
theorem mismatch_errors : (write_pass globalsMismatch (fun _ => 0) hexTwoShort).p.errors = 1 := by
  decide

set_option maxHeartbeats 4000000 in
set_option maxRecDepth 1000000 in
theorem mismatch_rtc : (write_pass globalsMismatch (fun _ => 0) hexTwoShort).p.rtc = -1 := by
  decide

set_option maxHeartbeats 4000000 in
set_option maxRecDepth 1000000 in
theorem mismatch_wlog :
    (write_pass globalsMismatch (fun _ => 0) hexTwoShort).p.g.wlog.map Prod.fst = [0x08000000] := by
  decide

set_option maxHeartbeats 4000000 in
set_option maxRecDepth 1000000 in
theorem mismatch_rx :
    (write_pass globalsMismatch (fun _ => 0) hexTwoShort).p.g.rx = page_replies [5, 6, 7, 8] := by
  decide

set_option maxHeartbeats 4000000 in
set_option maxRecDepth 1000000 in
theorem mismatch_written :
    (write_pass globalsMismatch (fun _ => 0) hexTwoShort).p.bytes_written = 0 := by
  decide

/-- The theorem at a page of four bytes read back with a wrong third byte and read back
as written, and the write pass on a file of two pages whose first page is read back
wrong: one error, `-1`, the second page is never written and its answers stay unread. -/
theorem verify_mismatch_aborts_witness :
    ((write_verify (pageFour (page_replies [1, 2, 9, 4]))).2 = true ∧
     (write_verify (pageFour (page_replies [1, 2, 9, 4]))).1.errors = 1 ∧
     (write_verify (pageFour (page_replies [1, 2, 9, 4]))).1.rtc = -1 ∧
     (write_verify (pageFour (page_replies [1, 2, 9, 4]))).1.bytes_written = 256) ∧
    ((write_verify (pageFour (page_replies [1, 2, 3, 4]))).2 = false ∧
     (write_verify (pageFour (page_replies [1, 2, 3, 4]))).1.errors = 0 ∧
     (write_verify (pageFour (page_replies [1, 2, 3, 4]))).1.bytes_written = 260) ∧
    (write_pass globalsMismatch (fun _ => 0) hexTwoShort).p.errors = 1 ∧
    (write_pass globalsMismatch (fun _ => 0) hexTwoShort).p.rtc = -1 ∧
    (write_pass globalsMismatch (fun _ => 0) hexTwoShort).p.bytes_written = 0 ∧
    (write_pass globalsMismatch (fun _ => 0) hexTwoShort).p.g.wlog.map Prod.fst = [0x08000000] ∧
    (write_pass globalsMismatch (fun _ => 0) hexTwoShort).p.g.rx = page_replies [5, 6, 7, 8] := by
  have a := (verify_mismatch_aborts.1 (pageFour (page_replies [1, 2, 9, 4])) [1, 2, 9, 4] []
    (by decide) (by decide) (by decide) (by simp [pageFour, globals0])).1 (by decide)
  have b := (verify_mismatch_aborts.1 (pageFour (page_replies [1, 2, 3, 4])) [1, 2, 3, 4] []
    (by decide) (by decide) (by decide) (by simp [pageFour, globals0])).2 (by decide)
  refine ⟨?_, ?_, mismatch_errors, mismatch_rtc, mismatch_written, mismatch_wlog, mismatch_rx⟩
  · rw [a]; exact ⟨rfl, rfl, rfl, rfl⟩
  · rw [b]; exact ⟨rfl, rfl, rfl⟩

/-! ## C31: the offset field of the records of type 4 and 5 -/

/-- C31 (records of type 4 and 5 need offset 0): for every file in which a line that
passes the format and length tests, with no End-of-File record before it, has the record
type 4 or 5 and an offset field other than 0, the check pass returns `-1`, and the loop
fails at that very line. -/
theorem offset_required (g : Globals) (pagebuf0 : Nat → Nat) (text : List Nat)
    (pre : List (List Nat)) (l : List Nat) (post : List (List Nat))
    (hl : file_lines text [] = pre ++ l :: post)
    (hpre : ∀ m ∈ pre, is_eof_record m = false)
    (hrec : is_record l = true)
    (htype : rec_type l = 4 ∨ rec_type l = 5) (hoff : rec_drlo l ≠ 0) :
    (check_pass g pagebuf0 text).p.rtc = -1 ∧
    ∀ s : Flash, (line_loop false (l :: post) s).p.rtc = -1 ∧
      (line_loop false (l :: post) s).line = s.line + 1 := by
  have hf : ∀ t, process_line false t l = t.fail := by
    intro t
    rw [process_line_of_record false t l hrec]
    rcases htype with h | h
    · rw [h, process_record_ela, if_neg hoff]
    · rw [h, process_record_sla, if_neg hoff]
  have hne : l ≠ [] := by
    intro h
    subst h
    simp [is_record] at hrec
  have h1 : rec_type l ≠ 1 := by
    rcases htype with h | h <;> rw [h] <;> decide
  refine ⟨check_stops_fail g pagebuf0 text pre l post hl hpre
    (by simp [is_eof_record, h1])
    (Or.inr (fun t => by rw [hf]; rfl)), fun s => check_fail_at_line s l post hne hf⟩

/-- The theorem at a file that opens with a type-4 record at offset 1 and at S1 with a
type-5 record at offset `0x10` as its third line. -/
theorem offset_required_witness :
    (check_pass (globals0 []) (fun _ => 0) hexElaOffset).p.rtc = -1 ∧
    ((check_pass (globals0 []) (fun _ => 0) hexSlaOffset).p.rtc = -1 ∧
     (check_pass (globals0 []) (fun _ => 0) hexSlaOffset).line = 3) := by
  refine ⟨(offset_required (globals0 []) (fun _ => 0) hexElaOffset
      [] (bytes ":020001040800F1") [bytes ":00000001FF", []] (by decide) (by decide)
      (by decide) (by decide) (by decide)).1, ?_, by decide⟩
  exact (offset_required (globals0 []) (fun _ => 0) hexSlaOffset
      [bytes ":020000040800F2", bytes ":080000000102030405060708D4"]
      (bytes ":04001005080000C11E") [bytes ":00000001FF", []] (by decide) (by decide)
      (by decide) (by decide) (by decide)).1

/-! ## C38: the longest record -/

theorem file_lines_length : ∀ (text acc : List Nat), acc.length ≤ 255 →
    ∀ l ∈ file_lines text acc, l.length ≤ 255 := by
  intro text
  induction text with
  | nil =>
    intro acc h l hl
    simp only [file_lines, List.mem_singleton] at hl
    rw [hl]; exact h
  | cons ch rest ih =>
    intro acc h l hl
    simp only [file_lines] at hl
    split_ifs at hl with h1 h2 h3
    · rcases List.mem_cons.1 hl with hl | hl
      · rw [hl]; exact h
      · exact ih [] (by simp) l hl
    · refine ih (acc ++ [ch]) ?_ l hl
      simp only [LINE_BUFSIZE] at h3
      simp only [List.length_append, List.length_singleton]
      omega
    · exact ih acc h l hl
    · exact ih acc h l hl

theorem rec_datalen_nil : rec_datalen [] = 0 := by decide

set_option maxRecDepth 1000000 in
theorem hex123_lines :
    file_lines hex123 [] = [] ++ line123.take 255 :: [bytes ":00000001FF", []] := by
  decide

set_option maxRecDepth 1000000 in
theorem hex123_check : (check_pass (globals0 []) (fun _ => 0) hex123).line = 1 := by
  decide

/-- C38 (record length limit): a line as the reader delivers it has at most 255
characters, so for every file in which a line with no End-of-File record before it
declares a data length above 122, the length `11 + 2 * datalen` is at least 257 and
differs from the length of the line; the check pass returns `-1`, and the loop fails at
that very line, whatever else the line holds. -/
theorem record_length_limit (g : Globals) (pagebuf0 : Nat → Nat) (text : List Nat)
    (pre : List (List Nat)) (l : List Nat) (post : List (List Nat))
    (hl : file_lines text [] = pre ++ l :: post)
    (hpre : ∀ m ∈ pre, is_eof_record m = false)
    (hlen : 122 < rec_datalen l) :
    l.length ≤ 255 ∧ l.length ≠ 11 + 2 * rec_datalen l ∧
    (check_pass g pagebuf0 text).p.rtc = -1 ∧
    ∀ s : Flash, (line_loop false (l :: post) s).p.rtc = -1 ∧
      (line_loop false (l :: post) s).line = s.line + 1 := by
  have h255 : l.length ≤ 255 :=
    file_lines_length text [] (by simp) l (by rw [hl]; simp)
  have hne : l ≠ [] := by
    intro h
    subst h
    rw [rec_datalen_nil] at hlen
    omega
  have hr : is_record l = false := by
    simp only [is_record, decide_eq_false_iff_not]
    rintro ⟨-, h2⟩
    omega
  have hf : ∀ t, process_line false t l = t.fail := fun t => process_line_not_record false t l hr
  exact ⟨h255, by omega,
    check_stops_fail g pagebuf0 text pre l post hl hpre (by simp [is_eof_record, hr])
      (Or.inr (fun t => by rw [hf]; rfl)),
    fun s => check_fail_at_line s l post hne hf⟩

set_option maxRecDepth 1000000 in
/-- The theorem at a record of 123 bytes that is complete in the file (and cut to 255
characters by the reader), and at a short line that declares 255 bytes. -/
theorem record_length_limit_witness :
    ((check_pass (globals0 []) (fun _ => 0) hex123).p.rtc = -1 ∧
     (check_pass (globals0 []) (fun _ => 0) hex123).line = 1) ∧
    (check_pass (globals0 []) (fun _ => 0) hexDeclares255).p.rtc = -1 :=
  ⟨⟨(record_length_limit (globals0 []) (fun _ => 0) hex123 [] (line123.take 255)
      [bytes ":00000001FF", []] hex123_lines (by decide) (by decide)).2.2.1, hex123_check⟩,
   (record_length_limit (globals0 []) (fun _ => 0) hexDeclares255 [] (bytes ":FF00000001")
      [bytes ":00000001FF", []] (by decide) (by decide) (by decide)).2.2.1⟩

/-! ## C34: carriage returns -/

theorem file_lines_strip_cr : ∀ (text acc : List Nat),
    file_lines (strip_cr text) acc = file_lines text acc := by
  intro text
  induction text with
  | nil => intro acc; rfl
  | cons ch rest ih =>
    intro acc
    by_cases h : ch = 13
    · subst h
      have : strip_cr (13 :: rest) = strip_cr rest := by simp [strip_cr]
      rw [this, ih]
      simp [file_lines]
    · have : strip_cr (ch :: rest) = ch :: strip_cr rest := by simp [strip_cr, h]
      rw [this]
      simp only [file_lines, ih]

/-- C34 (carriage returns are discarded): for every file, every state of the target and
both passes, `stm32_flash_image` ends in the same state (return code, counters, bytes
transmitted, writes and reads logged) for the file and for the file without its `'\r'`
characters; so two files that differ only in `'\r'` characters, wherever these stand,
give the same result. -/
theorem carriage_returns_discarded (g : Globals) (pagebuf0 : Nat → Nat) (sa : Nat)
    (do_flash : Bool) (text : List Nat) :
    stm32_flash_image g pagebuf0 sa (some (strip_cr text)) do_flash =
      stm32_flash_image g pagebuf0 sa (some text) do_flash ∧
    ∀ text2 : List Nat, strip_cr text2 = strip_cr text →
      stm32_flash_image g pagebuf0 sa (some text2) do_flash =
        stm32_flash_image g pagebuf0 sa (some text) do_flash := by
  have h : ∀ t : List Nat, stm32_flash_image g pagebuf0 sa (some (strip_cr t)) do_flash =
      stm32_flash_image g pagebuf0 sa (some t) do_flash := by
    intro t
    unfold stm32_flash_image
    simp only [file_lines_strip_cr]
  refine ⟨h text, fun text2 h2 => ?_⟩
  rw [← h text2, ← h text, h2]

/-- The theorem at S1 with carriage returns at its line ends and inside its data line,
for the write pass against a target that answers the page. -/
theorem carriage_returns_discarded_witness :
    stm32_flash_image (globals0 (page_replies [1, 2, 3, 4, 5, 6, 7, 8])) (fun _ => 0) 0
        (some hexS1Cr) true =
      stm32_flash_image (globals0 (page_replies [1, 2, 3, 4, 5, 6, 7, 8])) (fun _ => 0) 0
        (some hexS1) true :=
  (carriage_returns_discarded (globals0 (page_replies [1, 2, 3, 4, 5, 6, 7, 8])) (fun _ => 0) 0
    true hexS1).2 hexS1Cr (by decide)

/-! ## C40: what GET stores -/

theorem getLoop_keeps (maxlen : Nat) : ∀ (n i : Nat) (g : Globals) (k : Nat),
    (k < i ∨ i + n ≤ k ∨ maxlen ≤ k) →
    (getLoop maxlen n i g).2.bootloader_info k = g.bootloader_info k := by
  intro n
  induction n with
  | zero => intro i g k _; rfl
  | succ n ih =>
    intro i g k hk
    simp only [getLoop, poll_state]
    split_ifs with h1 h2
    · rfl
    · rw [ih (i + 1) _ k (by omega)]
      have : k ≠ i := by omega
      simp [upd, this]
    · rw [ih (i + 1) _ k (by omega)]

theorem poll_nonneg (g : Globals) (h : ¬ (stm32_serial_poll g).1 < 0) :
    ∃ N t, g.rx = some N :: t ∧ (stm32_serial_poll g).1 = ((N % 256 : Nat) : Int) := by
  unfold stm32_serial_poll at h ⊢
  split at h <;> rename_i hr
  · exact absurd (show (-1 : Int) < 0 by omega) h
  · exact absurd (show (-1 : Int) < 0 by omega) h
  · rename_i ch r
    exact ⟨ch, r, hr, rfl⟩

/-- The table after `stm32_get` is the table before it, or, when a count byte `N`
arrived behind the first answer, the table that the receive loop of `N + 1` rounds
leaves. -/
theorem get_info (g : Globals) (maxlen : Nat) :
    (stm32_get g maxlen).2.bootloader_info = g.bootloader_info ∨
    ∃ a N t, g.rx = a :: some N :: t ∧
      (stm32_get g maxlen).2.bootloader_info =
        (getLoop maxlen (N % 256 + 1) 0
          { stm32_write_cmd g STM32_CMD_GET with rx := t }).2.bootloader_info := by
  have key : ∀ (G : Globals), G.rx = g.rx.tail → ¬ (stm32_serial_poll G).1 < 0 →
      ∃ a N t, g.rx = a :: some N :: t ∧ (stm32_serial_poll G).1.toNat = N % 256 ∧
        g.rx.tail.tail = t := by
    intro G hG hp
    obtain ⟨N, t, h1, h2⟩ := poll_nonneg G hp
    rw [hG] at h1
    cases hr : g.rx with
    | nil => rw [hr] at h1; simp at h1
    | cons a r =>
      rw [hr] at h1
      simp only [List.tail_cons] at h1
      subst h1
      exact ⟨a, N, t, rfl, by rw [h2]; exact Int.toNat_ofNat _, rfl⟩
  unfold stm32_get
  simp only [ack_state, poll_state]
  split_ifs with h1 h2 h3 h4
  · exact Or.inl rfl
  · exact Or.inl rfl
  · obtain ⟨a, N, t, e1, e2, e3⟩ := key _ rfl h2
    exact Or.inr ⟨a, N, t, e1, by rw [e2]; simp [stm32_write_cmd, serial_write_buf, e3, e1]⟩
  · obtain ⟨a, N, t, e1, e2, e3⟩ := key _ rfl h2
    exact Or.inr ⟨a, N, t, e1, by rw [e2]; simp [stm32_write_cmd, serial_write_buf, e3, e1]⟩
  · obtain ⟨a, N, t, e1, e2, e3⟩ := key _ rfl h2
    exact Or.inr ⟨a, N, t, e1, by rw [e2]; simp [stm32_write_cmd, serial_write_buf, e3, e1]⟩

theorem get_info_acked (g : Globals) (maxlen : Nat) (N : Nat) (t : List (Option Nat))
    (h : g.rx = some STM32_ACK :: some N :: t) :
    (stm32_get g maxlen).2.bootloader_info =
      (getLoop maxlen (N % 256 + 1) 0
        { stm32_write_cmd g STM32_CMD_GET with rx := t }).2.bootloader_info := by
  have hrx : (stm32_write_cmd g STM32_CMD_GET).rx = some STM32_ACK :: some N :: t := by
    rw [← h]; rfl
  have hp : (stm32_serial_poll { stm32_write_cmd g STM32_CMD_GET with rx := some N :: t }).1
      = ((N % 256 : Nat) : Int) := rfl
  unfold stm32_get
  simp only [ack_state, ack_neg, poll_state, hrx, acked_cons_ack, List.tail_cons, hp,
    Int.toNat_ofNat]
  have hn : ¬ (((N % 256 : Nat) : Int) < 0) := by omega
  simp only [Bool.true_eq_false, if_false, hn]
  split_ifs <;> rfl

/-- C40 (GET stays inside the capability table): whatever the target sends, `stm32_get`
leaves every entry at an index of `maxlen` or above as it was; when the count byte is `N`,
it leaves every entry at an index of `N + 1` or above as it was, and when no count byte
arrives it leaves the whole table as it was. When the first answer is ACK and the
`N + 1` payload bytes `pl` arrive, entry `i` is payload byte `i` for every
`i < min (N + 1, maxlen)`. So after a reply with fewer than 8 payload bytes the
erase-opcode entry (index 7) keeps its value. -/
theorem get_inside_table (g : Globals) (maxlen : Nat) :
    (∀ k, maxlen ≤ k →
      (stm32_get g maxlen).2.bootloader_info k = g.bootloader_info k) ∧
    (∀ a N t k, g.rx = a :: some N :: t → N < 256 → N + 1 ≤ k →
      (stm32_get g maxlen).2.bootloader_info k = g.bootloader_info k) ∧
    ((∀ a N t, g.rx ≠ a :: some N :: t) →
      (stm32_get g maxlen).2.bootloader_info = g.bootloader_info) ∧
    (∀ (N : Nat) (pl : List Nat) (r : List (Option Nat)) (i : Nat), g.rx = some STM32_ACK :: some N :: (pl.map some ++ r) → N < 256 →
      pl.length = N + 1 → (∀ b ∈ pl, b < 256) → i < N + 1 → i < maxlen →
      (stm32_get g maxlen).2.bootloader_info i = pl.getD i 0) ∧
    (∀ a N t, g.rx = a :: some N :: t → N + 1 < 8 →
      (stm32_get g maxlen).2.bootloader_info STM32_INFO_ERASE_CMD_IDX =
        g.bootloader_info STM32_INFO_ERASE_CMD_IDX) := by
  have hcount : ∀ a N t k, g.rx = a :: some N :: t → N < 256 → N + 1 ≤ k →
      (stm32_get g maxlen).2.bootloader_info k = g.bootloader_info k := by
    intro a N t k h hN hk
    rcases get_info g maxlen with hi | ⟨a2, N2, t2, e1, e2⟩
    · rw [hi]
    · rw [h] at e1
      simp only [List.cons.injEq, Option.some.injEq] at e1
      obtain ⟨-, rfl, rfl⟩ := e1
      rw [e2, getLoop_keeps maxlen _ 0 _ k (Or.inr (Or.inl (by
        rw [Nat.mod_eq_of_lt hN]; omega)))]
      rfl
  refine ⟨?_, hcount, ?_, ?_, ?_⟩
  · intro k hk
    rcases get_info g maxlen with hi | ⟨a, N, t, -, e2⟩
    · rw [hi]
    · rw [e2, getLoop_keeps maxlen _ 0 _ k (Or.inr (Or.inr hk))]
      rfl
  · intro hno
    rcases get_info g maxlen with hi | ⟨a, N, t, e1, -⟩
    · exact hi
    · exact absurd e1 (hno a N t)
  · intro N pl r i h hN hl hb hi1 hi2
    rw [get_info_acked g maxlen N _ h, Nat.mod_eq_of_lt hN, ← hl]
    have := (getLoop_ok maxlen pl 0 { stm32_write_cmd g STM32_CMD_GET with rx := pl.map some ++ r }
      r rfl hb).2.2.2.1 i (by omega) (by omega)
    simpa using this
  · intro a N t h hN
    exact hcount a N t 7 h (by omega) (by omega)

/-- The theorem at a table that holds the opcodes of `payload44` and a target that
answers GET with the count byte 2 and three payload bytes: the entries 0..2 are the
payload, the entries from 3 on, the erase opcode among them, are as before. -/
theorem get_inside_table_witness :
    (stm32_get (globals44 [some 0x79, some 2, some 0x10, some 0xAA, some 0xBB, some 0x79])
      STM32_INFO_SIZE).2.bootloader_info 7 = 0x44 ∧
    (stm32_get (globals44 [some 0x79, some 2, some 0x10, some 0xAA, some 0xBB, some 0x79])
      STM32_INFO_SIZE).2.bootloader_info 3 = 0x02 ∧
    (stm32_get (globals44 [some 0x79, some 2, some 0x10, some 0xAA, some 0xBB, some 0x79])
      STM32_INFO_SIZE).2.bootloader_info 2 = 0xBB := by
  have h := get_inside_table
    (globals44 [some 0x79, some 2, some 0x10, some 0xAA, some 0xBB, some 0x79]) STM32_INFO_SIZE
  refine ⟨?_, ?_, ?_⟩
  · exact (h.2.2.2.2 (some 0x79) 2 _ rfl (by decide)).trans rfl
  · exact (h.2.1 (some 0x79) 2 _ 3 rfl (by decide) (by decide)).trans rfl
  · exact (h.2.2.2.1 2 [0x10, 0xAA, 0xBB] [some 0x79] 2 rfl (by decide) rfl (by decide)
      (by decide) (by decide)).trans rfl

/-! ## C39: an erase opcode that is neither `0x43` nor `0x44` -/

theorem unprotect_block_info (g : Globals) (do_unprotect : Bool) :
    (unprotect_block g do_unprotect).2.bootloader_info = g.bootloader_info := by
  unfold unprotect_block
  cases do_unprotect with
  | false => rfl
  | true =>
    simp only [if_true]
    split_ifs
    · obtain ⟨k, -, -, he⟩ := enter_loop_fields N_RETRIES (stm32_write_unprotect g).2
      rw [he]
      exact (write_unprotect_fields g).2.2.2.1
    · exact (write_unprotect_fields g).2.2.2.1

theorem unprotect_block_wlog (g : Globals) (do_unprotect : Bool) :
    (unprotect_block g do_unprotect).2.wlog = g.wlog := by
  unfold unprotect_block
  cases do_unprotect with
  | false => rfl
  | true =>
    simp only [if_true]
    split_ifs
    · obtain ⟨k, -, -, he⟩ := enter_loop_fields N_RETRIES (stm32_write_unprotect g).2
      rw [he]
      exact (write_unprotect_fields g).2.2.2.2.1
    · exact (write_unprotect_fields g).2.2.2.2.1

theorem erase_block_unknown (g : Globals)
    (h43 : g.bootloader_info STM32_INFO_ERASE_CMD_IDX ≠ 0x43)
    (h44 : g.bootloader_info STM32_INFO_ERASE_CMD_IDX ≠ 0x44) : erase_block g = (-1, g) := by
  unfold erase_block
  rw [if_neg (show ¬ g.bootloader_info STM32_INFO_ERASE_CMD_IDX = STM32_CMD_ERASE from h43),
    if_neg (show ¬ g.bootloader_info STM32_INFO_ERASE_CMD_IDX = STM32_CMD_EXT_ERASE from h44)]

/-- With an unknown erase opcode the three blocks behind write-unprotect return a
negative code and leave the globals and the link as they were. -/
theorem flash_blocks_unknown (rtc : Int) (g : Globals) (pb1 pb2 : Nat → Nat) (sa : Nat)
    (file : Option (List Nat))
    (h43 : g.bootloader_info STM32_INFO_ERASE_CMD_IDX ≠ 0x43)
    (h44 : g.bootloader_info STM32_INFO_ERASE_CMD_IDX ≠ 0x44) :
    (flash_blocks rtc g pb1 pb2 sa file).rtc < 0 ∧ (flash_blocks rtc g pb1 pb2 sa file).g = g := by
  rw [flash_blocks_eq, erase_block_unknown g h43 h44]
  have hm : ¬ ((-1 : Int) ≥ 0) := by omega
  simp only [hm, if_false]
  split_ifs with h1 h2
  · exact ⟨by show (-1 : Int) < 0; omega, rfl⟩
  · exact ⟨by show (stm32_flash_image g pb1 sa file false).p.rtc < 0; omega, rfl⟩
  · exact ⟨by show rtc < 0; omega, rfl⟩

/-- C39 (unknown erase opcode): when the entry `bootloader_info[7]` that GET leaves is
neither `0x43` nor `0x44`, `stm32_bootloader` returns a negative code for every file and
every behaviour of the target; when the entry loop and GET succeed, the job ends in the
state that write-unprotect (with its re-entry loop) left, whether the check pass accepts
the file or not: nothing is transmitted after it, neither an erase command nor a write
command, and no write is logged. -/
theorem unknown_erase_opcode (g : Globals) (pb1 pb2 : Nat → Nat) (sa : Nat)
    (file : Option (List Nat)) (do_unprotect : Bool)
    (h43 : (stm32_get (enter_loop N_RETRIES g).2 STM32_INFO_SIZE).2.bootloader_info 7 ≠ 0x43)
    (h44 : (stm32_get (enter_loop N_RETRIES g).2 STM32_INFO_SIZE).2.bootloader_info 7 ≠ 0x44) :
    (stm32_bootloader g pb1 pb2 sa file do_unprotect).rtc < 0 ∧
    ((enter_loop N_RETRIES g).1 = true →
      ¬ (stm32_get (enter_loop N_RETRIES g).2 STM32_INFO_SIZE).1 < 0 →
      (stm32_bootloader g pb1 pb2 sa file do_unprotect).g =
        (unprotect_block (stm32_get (enter_loop N_RETRIES g).2 STM32_INFO_SIZE).2
          do_unprotect).2 ∧
      (stm32_bootloader g pb1 pb2 sa file do_unprotect).g.wlog =
        (stm32_get (enter_loop N_RETRIES g).2 STM32_INFO_SIZE).2.wlog) := by
  have hu := unprotect_block_info (stm32_get (enter_loop N_RETRIES g).2 STM32_INFO_SIZE).2
    do_unprotect
  have hb := flash_blocks_unknown
    (unprotect_block (stm32_get (enter_loop N_RETRIES g).2 STM32_INFO_SIZE).2 do_unprotect).1
    (unprotect_block (stm32_get (enter_loop N_RETRIES g).2 STM32_INFO_SIZE).2 do_unprotect).2
    pb1 pb2 sa file (by rw [hu]; exact h43) (by rw [hu]; exact h44)
  constructor
  · cases he : (enter_loop N_RETRIES g).1 with
    | false =>
      rw [bootloader_entry_fail g pb1 pb2 sa file do_unprotect he]
      show (-1 : Int) < 0
      omega
    | true =>
      by_cases hg : (stm32_get (enter_loop N_RETRIES g).2 STM32_INFO_SIZE).1 < 0
      · rw [bootloader_get_fail g pb1 pb2 sa file do_unprotect he hg]
        exact hg
      · rw [bootloader_after_get g pb1 pb2 sa file do_unprotect he hg]
        exact hb.1
  · intro he hg
    rw [bootloader_after_get g pb1 pb2 sa file do_unprotect he hg, hb.2]
    exact ⟨rfl, unprotect_block_wlog _ _⟩

/-- The theorem at a target whose GET payload lists the erase opcode `0x45`, for S1:
the job fails, and the last byte sent is the `0x7F` of the re-entry. -/
theorem unknown_erase_opcode_witness :
    (stm32_bootloader (globalsBoot (some STM32_ACK :: (get_reply payloadNoErase ++ acks 3)))
      (fun _ => 0) (fun _ => 0) 0 (some hexS1) true).rtc < 0 ∧
    (stm32_bootloader (globalsBoot (some STM32_ACK :: (get_reply payloadNoErase ++ acks 3)))
      (fun _ => 0) (fun _ => 0) 0 (some hexS1) true).g.tx =
        [0x7F, 0x00, 0xFF, 0x73, 0x8C, 0x7F] := by
  have h := unknown_erase_opcode
    (globalsBoot (some STM32_ACK :: (get_reply payloadNoErase ++ acks 3)))
    (fun _ => 0) (fun _ => 0) 0 (some hexS1) true (by decide) (by decide)
  refine ⟨h.1, ?_⟩
  rw [(h.2 (by decide) (by decide)).1]
  decide

/-! ## C35: the page count of the classic erase -/

/-- C35 (classic selective erase limit), evaluated at the failing input `n_pages = 256`:
the guard `n_pages > 256` lets 256 pass, `real_pages` (a `uint8_t`) becomes 0 and the
count byte `0xFF`, so the call does what the call with `n_pages = 0` does, for every
state and every page list: with a target that ACKs it sends the erase command and the
global-erase selector `[0xFF, 0x00]` and returns 0. -/
theorem erase_256_is_global (g : Globals) (pagenumbers : Nat → Nat) :
    stm32_erase g pagenumbers 256 = stm32_erase g pagenumbers 0 ∧
    (stm32_erase (globals0 (acks 2)) (fun i => i + 1) 256).1 = 0 ∧
    (stm32_erase (globals0 (acks 2)) (fun i => i + 1) 256).2.tx = [0x43, 0xBC, 0xFF, 0x00] ∧
    (stm32_erase (globals0 (acks 2)) (fun i => i + 1) 2).2.tx =
      [0x43, 0xBC, 0x01, 0x01, 0x02, 0x02] ∧
    (stm32_erase (globals0 (acks 2)) (fun i => i + 1) 257).2.tx = [] := by
  refine ⟨?_, by decide, by decide, by decide, by decide⟩
  unfold stm32_erase
  rfl

/-! ## C36, C37: the page marker `0xffffffff` -/

set_option maxRecDepth 1000000 in
/-- C36 (a file without data writes nothing), evaluated at two failing inputs: for the
file that holds only the End-of-File record, and for a type-4 record followed by the
End-of-File record, the check pass returns 0 and the write pass sends one write command:
two bytes to the address `0xFFFFFFFF`, which are the uninitialised `pagebuf[0..1]`
(here `A5 5A`). With a target that answers, it counts one page and two bytes. -/
theorem file_without_data_writes :
    (check_pass (globals0 []) stackbuf hexEofOnly).p.rtc = 0 ∧
    (write_pass (globals0 (page_replies [0xA5, 0x5A])) stackbuf hexEofOnly).p.g.wlog =
      [(0xFFFFFFFF, [0xA5, 0x5A])] ∧
    (write_pass (globals0 (page_replies [0xA5, 0x5A])) stackbuf hexEofOnly).p.g.tx =
      [0x31, 0xCE, 0xFF, 0xFF, 0xFF, 0xFF, 0x00, 0x01, 0xA5, 0x5A, 0xFE,
       0x11, 0xEE, 0xFF, 0xFF, 0xFF, 0xFF, 0x00, 0x01, 0xFE] ∧
    (write_pass (globals0 (page_replies [0xA5, 0x5A])) stackbuf hexEofOnly).p.pages_written = 1 ∧
    (write_pass (globals0 (page_replies [0xA5, 0x5A])) stackbuf hexEofOnly).p.bytes_written = 2 ∧
    (write_pass (globals0 (page_replies [0xA5, 0x5A])) stackbuf hexEofOnly).p.rtc = 0 ∧
    (check_pass (globals0 []) stackbuf hexNoData).p.rtc = 0 ∧
    (write_pass (globals0 (page_replies [0xA5, 0x5A])) stackbuf hexNoData).p.g.wlog =
      [(0xFFFFFFFF, [0xA5, 0x5A])] ∧
    (write_pass (globals0 (page_replies [0xA5, 0x5A])) stackbuf hexNoData).p.pages_written = 1 := by
  decide

theorem sub32_marker (A : Nat) : sub32 (A % 255) 0xffffffff = A % 255 + 1 := by
  have h : A % 255 < 255 := Nat.mod_lt _ (by decide)
  unfold sub32 U32
  omega

set_option maxRecDepth 1000000 in
theorem low_edge_eval :
    (check_pass (globals0 []) stackbuf hexLowEdge).p.rtc = 0 ∧
    (check_pass (globals0 []) stackbuf hexLowEdge).items = [(0xFE, 0x11), (0xFF, 0x22), (0x100, 0x33)] ∧
    (write_pass (globals0 (page_replies [0x22, 0x33])) stackbuf hexLowEdge).p.g.wlog =
      [(0xFF, [0x22, 0x33])] ∧
    (write_pass (globals0 (page_replies [0x22, 0x33])) stackbuf hexLowEdge).p.rtc = 0 := by
  decide

/-- C37 (the first data byte always opens a page), refuted for every first address
below `0xFF`: from the state at entry, a data byte `ch` at the address `A % 255` (any of
`0 .. 0xFE`) starts no page: the base stays the marker `0xffffffff`, the buffer is not
filled with `0xFF`, and the byte is stored at offset `A % 255 + 1`. At the file
`hexLowEdge` (bytes `11 22 33` at `0xFE`), which the check pass accepts, the byte at
`0xFE` is never written: the byte at `0xFF` opens the first page, and the only write
sent is `22 33` to `0xFF`. -/
theorem first_byte_opens_no_page (do_flash : Bool) (g : Globals) (pagebuf0 : Nat → Nat)
    (A ch : Nat) :
    page_byte do_flash (A % 255) ch (Page.init g pagebuf0) =
      ({ g := g, pagebuf := upd pagebuf0 (A % 255 + 1) ch, pageaddr := 0xffffffff,
         pageidx := A % 255, bytes_written := 0, pages_written := 0, errors := 0, rtc := 0 },
       false) ∧
    (check_pass (globals0 []) stackbuf hexLowEdge).p.rtc = 0 ∧
    (check_pass (globals0 []) stackbuf hexLowEdge).items = [(0xFE, 0x11), (0xFF, 0x22), (0x100, 0x33)] ∧
    (write_pass (globals0 (page_replies [0x22, 0x33])) stackbuf hexLowEdge).p.g.wlog =
      [(0xFF, [0x22, 0x33])] ∧
    (write_pass (globals0 (page_replies [0x22, 0x33])) stackbuf hexLowEdge).p.rtc = 0 := by
  have e : sub32 (A % 255) (Page.init g pagebuf0).pageaddr = A % 255 + 1 := sub32_marker A
  have hlt : sub32 (A % 255) (Page.init g pagebuf0).pageaddr < PAGESIZE := by
    rw [e]
    have : A % 255 < 255 := Nat.mod_lt _ (by decide)
    show A % 255 + 1 < 256
    omega
  refine ⟨?_, low_edge_eval⟩
  rw [page_byte_in do_flash (A % 255) ch (Page.init g pagebuf0) hlt, e]
  rfl

/-! ## C32: the data length of a type-4 record -/

/-- C32 as stated, refuted: a type-4 record that declares one data byte (`08`), none, or
three (`01 08 00`) is accepted by the check pass, which derives the upper address
`0x00080000`, `0` and `0x08000000` from it and places the data that follow there. -/
theorem short_ela_accepted :
    ((check_pass (globals0 []) (fun _ => 0) hexEla1).p.rtc = 0 ∧
     (check_pass (globals0 []) (fun _ => 0) hexEla1).ulba = 0x00080000 ∧
     (check_pass (globals0 []) (fun _ => 0) hexEla1).items =
       [(0x00080000, 1), (0x00080001, 2), (0x00080002, 3), (0x00080003, 4)]) ∧
    ((check_pass (globals0 []) (fun _ => 0) hexEla0).p.rtc = 0 ∧
     (check_pass (globals0 []) (fun _ => 0) hexEla0).ulba = 0) ∧
    ((check_pass (globals0 []) (fun _ => 0) hexEla3).p.rtc = 0 ∧
     (check_pass (globals0 []) (fun _ => 0) hexEla3).ulba = 0x08000000) := by
  decide

theorem line_sum_ok (l : List Nat) (h : line_sum l % 256 = 0) :
    checksum_fails (rec_datalen l + rec_addrh l + rec_addrl l + rec_type l + (rec_data l).sum)
      (rec_chcksum l) = false := by
  have hc : rec_chcksum l < 256 := data_at_lt _ _
  rw [checksum_fails_eq_false _ _ hc]
  exact h

/-- C32, what the code does: a type-4 record is accepted with any declared data length.
For every line that passes the format and length tests, has type 4, offset 0 and a sum
of 0 modulo 256, both passes go on behind the line with the upper address
`(v << 16) mod 2^32`, `v` being the data bytes read as one big-endian number: 0 for no
data byte, `b0 << 16` for one, `(b0 << 24) | (b1 << 16)` for two. -/
theorem ela_any_length (do_flash : Bool) (s : Flash) (l : List Nat)
    (hrec : is_record l = true) (htype : rec_type l = 4) (hoff : rec_drlo l = 0)
    (hsum : line_sum l % 256 = 0) :
    process_line do_flash s l =
      ({ s with ulba := (shift_in (rec_data l) <<< 16) % U32 }, false) ∧
    (rec_datalen l = 0 → (process_line do_flash s l).1.ulba = 0) ∧
    (rec_datalen l = 1 → (process_line do_flash s l).1.ulba = data_at l 0 <<< 16) ∧
    (rec_datalen l = 2 →
      (process_line do_flash s l).1.ulba = (data_at l 0 <<< 24) ||| (data_at l 1 <<< 16)) := by
  have h : process_line do_flash s l =
      ({ s with ulba := (shift_in (rec_data l) <<< 16) % U32 }, false) := by
    rw [process_line_of_record do_flash s l hrec, htype, process_record_ela, if_pos hoff]
    have := line_sum_ok l hsum
    rw [htype] at this
    rw [if_neg (by rw [this]; decide)]
  refine ⟨h, ?_, ?_, ?_⟩
  · intro hd
    rw [h]
    show (shift_in (rec_data l) <<< 16) % U32 = 0
    simp [rec_data, hd, shift_in]
  · intro hd
    rw [h]
    show (shift_in (rec_data l) <<< 16) % U32 = data_at l 0 <<< 16
    have hb := data_at_lt l 0
    have e : rec_data l = [data_at l 0] := by
      unfold rec_data
      rw [hd]
      rfl
    rw [e]
    simp only [shift_in, List.foldl, Nat.shiftLeft_eq, U32]
    norm_num
    omega
  · intro hd
    rw [h]
    show (shift_in (rec_data l) <<< 16) % U32 = _
    have e : rec_data l = [data_at l 0, data_at l 1] := by
      unfold rec_data
      rw [hd]
      rfl
    rw [e]
    exact ela_value _ _ (data_at_lt l 0) (data_at_lt l 1)

/-- The theorem at the line `:0100000408F3`, a type-4 record with the one data byte
`08`: the upper address becomes `0x00080000`. -/
theorem ela_any_length_witness :
    (process_line false (Flash.init (globals0 []) (fun _ => 0) 0) (bytes ":0100000408F3")).2
      = false ∧
    (process_line false (Flash.init (globals0 []) (fun _ => 0) 0) (bytes ":0100000408F3")).1.ulba
      = 0x00080000 := by
  have h := ela_any_length false (Flash.init (globals0 []) (fun _ => 0) 0) (bytes ":0100000408F3")
    (by decide) (by decide) (by decide) (by decide)
  refine ⟨by rw [h.1], ?_⟩
  rw [h.2.2.1 (by decide)]
  decide

/-! ## C33: characters that are not hex digits -/

set_option maxRecDepth 1000000 in
/-- C33 as stated, refuted: S1 with the last data byte written `G8` is accepted by the
check pass, which reads the `G` as the digit 0 and places the same data as for S1. -/
theorem nonhex_accepted :
    (check_pass (globals0 []) (fun _ => 0) hexNonHex).p.rtc = 0 ∧
    (check_pass (globals0 []) (fun _ => 0) hexNonHex).items =
      (check_pass (globals0 []) (fun _ => 0) hexS1).items ∧
    (check_pass (globals0 []) (fun _ => 0) hexNonHex).items.map Prod.snd =
      [1, 2, 3, 4, 5, 6, 7, 8] := by
  decide

theorem read_as_zero_zero (c : Nat) : read_as_zero c = 0 ↔ c = 0 := by
  unfold read_as_zero
  split_ifs with h
  · simp [h.2]
  · rfl

theorem read_as_zero_hexval (c : Nat) : hexval (read_as_zero c % 256) = hexval (c % 256) := by
  unfold read_as_zero
  split_ifs with h
  · rw [h.1]; rfl
  · rfl

theorem getD_map_zero (buf : List Nat) (i : Nat) :
    (buf.map read_as_zero).getD i 0 = read_as_zero (buf.getD i 0) := by
  by_cases h : i < buf.length
  · simp [List.getD_eq_getElem?_getD, List.getElem?_map, List.getElem?_eq_getElem h]
  · have h' : buf.length ≤ i := Nat.le_of_not_lt h
    simp [List.getD_eq_getElem?_getD, List.getElem?_eq_none h', read_as_zero]

theorem hex2toi_map_zero (buf : List Nat) : hex2toi (buf.map read_as_zero) = hex2toi buf := by
  unfold hex2toi htoi
  simp only [htoiLoop, getD_map_zero, read_as_zero_hexval, read_as_zero_zero]

theorem zero_fill_drop (l : List Nat) (k : Nat) :
    (zero_fill l).drop (k + 1) = (l.drop (k + 1)).map read_as_zero := by
  cases l with
  | nil => simp [zero_fill]
  | cons c t => simp [zero_fill, List.map_drop]

theorem zero_fill_length (l : List Nat) : (zero_fill l).length = l.length := by
  cases l with
  | nil => rfl
  | cons c t => simp [zero_fill]

theorem zero_fill_head (l : List Nat) : (zero_fill l).getD 0 0 = l.getD 0 0 := by
  cases l with
  | nil => rfl
  | cons c t => simp [zero_fill]

theorem zero_fill_data_at (l : List Nat) (dri : Nat) :
    data_at (zero_fill l) dri = data_at l dri := by
  unfold data_at
  rw [show 9 + 2 * dri = (8 + 2 * dri) + 1 by omega, zero_fill_drop, hex2toi_map_zero]

theorem zero_fill_fields (l : List Nat) :
    rec_datalen (zero_fill l) = rec_datalen l ∧ rec_addrh (zero_fill l) = rec_addrh l ∧
    rec_addrl (zero_fill l) = rec_addrl l ∧ rec_type (zero_fill l) = rec_type l ∧
    rec_drlo (zero_fill l) = rec_drlo l ∧ rec_data (zero_fill l) = rec_data l ∧
    rec_chcksum (zero_fill l) = rec_chcksum l := by
  have h1 : rec_datalen (zero_fill l) = rec_datalen l := by
    unfold rec_datalen
    rw [zero_fill_drop l 0, hex2toi_map_zero]
  have h3 : rec_addrh (zero_fill l) = rec_addrh l := by
    unfold rec_addrh
    rw [zero_fill_drop l 2, hex2toi_map_zero]
  have h5 : rec_addrl (zero_fill l) = rec_addrl l := by
    unfold rec_addrl
    rw [zero_fill_drop l 4, hex2toi_map_zero]
  have h7 : rec_type (zero_fill l) = rec_type l := by
    unfold rec_type
    rw [zero_fill_drop l 6, hex2toi_map_zero]
  refine ⟨h1, h3, h5, h7, ?_, ?_, ?_⟩
  · unfold rec_drlo
    rw [h3, h5]
  · unfold rec_data
    rw [h1]
    exact List.map_congr_left (fun dri _ => zero_fill_data_at l dri)
  · unfold rec_chcksum
    rw [h1, zero_fill_data_at]

theorem process_line_zero_fill (do_flash : Bool) (s : Flash) (l : List Nat) :
    process_line do_flash s (zero_fill l) = process_line do_flash s l := by
  obtain ⟨h1, h3, h5, h7, hd, hdata, hc⟩ := zero_fill_fields l
  unfold process_line
  rw [zero_fill_head, zero_fill_length, h1, h3, h5, h7, hd, hdata, hc]

theorem line_loop_zero_fill (do_flash : Bool) : ∀ (lines : List (List Nat)) (s : Flash),
    line_loop do_flash (lines.map zero_fill) s = line_loop do_flash lines s := by
  intro lines
  induction lines with
  | nil => intro s; rfl
  | cons l rest ih =>
    intro s
    simp only [List.map_cons, line_loop, zero_fill_length, process_line_zero_fill, ih]

/-- C33, what the code does: a character that is not a hex digit is read as the digit 0.
Replacing, behind the first character of a line, every character that `htoi` reads as 0
(NUL apart) by `'0'` changes nothing: every line is processed alike in both passes and
from every state, so is every sequence of lines, and two files whose lines differ in
such replacements only end `stm32_flash_image` in the same state. A line with non-hex
characters is therefore accepted exactly when the line with `'0'` in their places is. -/
theorem nonhex_read_as_zero (do_flash : Bool) :
    (∀ (s : Flash) (l : List Nat),
      process_line do_flash s (zero_fill l) = process_line do_flash s l) ∧
    (∀ (lines : List (List Nat)) (s : Flash),
      line_loop do_flash (lines.map zero_fill) s = line_loop do_flash lines s) ∧
    (∀ (g : Globals) (pagebuf0 : Nat → Nat) (sa : Nat) (text text2 : List Nat),
      file_lines text2 [] = (file_lines text []).map zero_fill →
      stm32_flash_image g pagebuf0 sa (some text2) do_flash =
        stm32_flash_image g pagebuf0 sa (some text) do_flash) := by
  refine ⟨process_line_zero_fill do_flash, line_loop_zero_fill do_flash, ?_⟩
  intro g pagebuf0 sa text text2 h
  unfold stm32_flash_image
  simp only [h, line_loop_zero_fill]

set_option maxRecDepth 1000000 in
/-- The theorem at S1 with `G8` for `08`: the file is processed as S1 is. -/
theorem nonhex_read_as_zero_witness :
    stm32_flash_image (globals0 []) (fun _ => 0) 0 (some hexS1) false =
      stm32_flash_image (globals0 []) (fun _ => 0) 0 (some hexNonHex) false :=
  (nonhex_read_as_zero false).2.2 (globals0 []) (fun _ => 0) 0 hexNonHex hexS1 (by decide)

/-! ## C3: the address of a write is the address of the byte that opened the page -/

theorem base_after_snoc (its : List (Nat × Nat)) (x : Nat × Nat) :
    base_after (its ++ [x]) =
      if PAGESIZE ≤ sub32 x.1 (base_after its) then x.1 else base_after its := by
  simp [base_after, List.foldl_append]

/-- The base in force is the marker, or the address of a stored byte that lay 256 or
more from the base in force when it arrived. -/
theorem base_after_opened : ∀ (its : List (Nat × Nat)),
    base_after its = 0xffffffff ∨
    ∃ pre c post, its = pre ++ (base_after its, c) :: post ∧
      PAGESIZE ≤ sub32 (base_after its) (base_after pre) := by
  intro its
  induction its using List.reverseRecOn with
  | nil => exact Or.inl rfl
  | append_singleton l x ih =>
    rw [base_after_snoc]
    by_cases h : PAGESIZE ≤ sub32 x.1 (base_after l)
    · rw [if_pos h]
      exact Or.inr ⟨l, x.2, [], rfl, h⟩
    · rw [if_neg h]
      rcases ih with ih | ⟨pre, c, post, e, hp⟩
      · exact Or.inl ih
      · refine Or.inr ⟨pre, c, post ++ [x], ?_, hp⟩
        conv_lhs => rw [e]
        simp

theorem Track.keep_same {w0 : List (Nat × List Nat)} {s t : Flash} (h : Track w0 s)
    (h1 : t.items = s.items) (h2 : t.p.g.wlog = s.p.g.wlog) (h3 : t.p.pageaddr = s.p.pageaddr) :
    Track w0 t := by
  obtain ⟨hb, ext, hext, hw⟩ := h
  exact ⟨by rw [h3, h1, hb], ext, by rw [h2, hext], by rw [h1]; exact hw⟩

theorem data_byte_track (w0 : List (Nat × List Nat)) (do_flash : Bool) (drlo dri ch : Nat)
    (s : Flash) (h : Track w0 s) : Track w0 (data_byte do_flash drlo dri ch s).1 := by
  obtain ⟨hb, ext, hext, hw⟩ := h
  obtain ⟨h2, hp, hi, -, -, -⟩ := data_byte_fields do_flash drlo dri ch s
  obtain ⟨⟨ext2, hext2, hgood⟩, -, hbr⟩ :=
    page_byte_log do_flash ((s.ulba + drlo + dri) % U32) ch s.p
  have hnew : ∀ w ∈ ext ++ ext2, ∃ pre post, s.items = pre ++ post ∧ w.1 = base_after pre := by
    intro w hm
    rcases List.mem_append.1 hm with hm | hm
    · exact hw w hm
    · exact ⟨s.items, [], by simp, by rw [(hgood w hm).1, hb]⟩
  cases hbrk : (page_byte do_flash ((s.ulba + drlo + dri) % U32) ch s.p).2 with
  | true =>
    rw [hbrk] at hi
    simp only [if_true] at hi
    refine ⟨by rw [hp, hi, hbr hbrk, hb], ext ++ ext2, by rw [hp, hext2, hext, List.append_assoc], ?_⟩
    rw [hi]
    exact hnew
  | false =>
    rw [hbrk] at hi
    simp only [Bool.false_eq_true, if_false] at hi
    refine ⟨?_, ext ++ ext2, by rw [hp, hext2, hext, List.append_assoc], ?_⟩
    · rw [hp, hi, base_after_snoc, page_byte_pageaddr do_flash _ ch s.p hbrk, hb]
    · intro w hm
      obtain ⟨pre, post, e, hwa⟩ := hnew w hm
      exact ⟨pre, post ++ [((s.ulba + drlo + dri) % U32, ch)], by rw [hi, e, List.append_assoc], hwa⟩

theorem data_loop_track (w0 : List (Nat × List Nat)) (do_flash : Bool) (drlo : Nat)
    (data : List Nat) : ∀ (dri : Nat) (s : Flash) (sum : Nat), Track w0 s →
      Track w0 (data_loop do_flash drlo data dri s sum).1 := by
  induction data with
  | nil => intro dri s sum h; exact h
  | cons ch rest ih =>
    intro dri s sum h
    have hd := data_byte_track w0 do_flash drlo dri ch s h
    simp only [data_loop]
    split_ifs
    · exact hd
    · exact ih _ _ _ hd

theorem eof_flush_addr (do_flash : Bool) (p : Page) :
    (eof_flush do_flash p).pageaddr = p.pageaddr ∧
    ∃ ext, (eof_flush do_flash p).g.wlog = p.g.wlog ++ ext ∧ ∀ w ∈ ext, w.1 = p.pageaddr := by
  unfold eof_flush
  by_cases hpos : sub32 p.pageidx p.pageaddr > 0
  · simp only [hpos, if_true]
    have hf := write_verify_fields { p with pageidx := (p.pageidx + 1) % U32 }
    obtain ⟨ext, hext, hgood⟩ := write_verify_log { p with pageidx := (p.pageidx + 1) % U32 }
    have hgood' : ∀ w ∈ ext, w.1 = p.pageaddr := fun w hw => (hgood w hw).1
    cases do_flash with
    | false => exact ⟨rfl, [], by simp, by simp⟩
    | true =>
      simp only [if_true]
      split_ifs
      · exact ⟨hf.1, ext, hext, hgood'⟩
      · exact ⟨hf.1, ext, hext, hgood'⟩
  · rw [if_neg hpos]
    exact ⟨rfl, [], by simp, by simp⟩

theorem eof_record_track (w0 : List (Nat × List Nat)) (do_flash : Bool) (s : Flash)
    (h : Track w0 s) : Track w0 (eof_record do_flash s) := by
  obtain ⟨hb, ext, hext, hw⟩ := h
  obtain ⟨ha, ext2, hext2, hgood⟩ := eof_flush_addr do_flash s.p
  refine ⟨?_, ext ++ ext2, ?_, ?_⟩
  · show (eof_flush do_flash s.p).pageaddr = base_after s.items
    rw [ha, hb]
  · show (eof_flush do_flash s.p).g.wlog = _
    rw [hext2, hext, List.append_assoc]
  · intro w hm
    show ∃ pre post, s.items = pre ++ post ∧ w.1 = base_after pre
    rcases List.mem_append.1 hm with hm | hm
    · exact hw w hm
    · exact ⟨s.items, [], by simp, by rw [hgood w hm, hb]⟩

theorem fail_track (w0 : List (Nat × List Nat)) (s : Flash) (h : Track w0 s) :
    Track w0 s.fail.1 :=
  h.keep_same rfl rfl rfl

theorem process_record_track (w0 : List (Nat × List Nat)) (do_flash : Bool) (s : Flash)
    (drlo rectype sum : Nat) (data : List Nat) (chcksum : Nat) (h : Track w0 s) :
    Track w0 (process_record do_flash s drlo rectype sum data chcksum).1 := by
  by_cases h0 : rectype = 0
  · subst h0
    have hd := data_loop_track w0 do_flash drlo data 0 s sum h
    rw [process_record_data]
    split_ifs
    · exact hd
    · exact fail_track w0 _ hd
    · exact hd
  by_cases h1 : rectype = 1
  · subst h1
    rw [process_record_eof]
    exact eof_record_track w0 do_flash s h
  by_cases h4 : rectype = 4
  · subst h4
    rw [process_record_ela]
    split_ifs
    · exact fail_track w0 _ (h.keep_same rfl rfl rfl)
    · exact h.keep_same rfl rfl rfl
    · exact fail_track w0 _ h
  by_cases h5 : rectype = 5
  · subst h5
    rw [process_record_sla]
    split_ifs
    · exact fail_track w0 _ (h.keep_same rfl rfl rfl)
    · exact h.keep_same rfl rfl rfl
    · exact fail_track w0 _ h
  rw [process_record_other do_flash s drlo rectype sum data chcksum h0 h1 h4 h5]
  exact fail_track w0 _ h

theorem process_line_track (w0 : List (Nat × List Nat)) (do_flash : Bool) (s : Flash)
    (l : List Nat) (h : Track w0 s) : Track w0 (process_line do_flash s l).1 := by
  cases hrec : is_record l with
  | false =>
    rw [process_line_not_record do_flash s l hrec]
    exact fail_track w0 _ h
  | true =>
    rw [process_line_of_record do_flash s l hrec]
    exact process_record_track w0 do_flash s _ _ _ _ _ h

theorem line_loop_track (w0 : List (Nat × List Nat)) (do_flash : Bool) :
    ∀ (lines : List (List Nat)) (s : Flash), Track w0 s →
      Track w0 (line_loop do_flash lines s) := by
  intro lines
  induction lines with
  | nil => intro s h; exact h
  | cons l rest ih =>
    intro s h
    have hc : Track w0 (s.count_line l.length) := h.keep_same rfl rfl rfl
    have hp := process_line_track w0 do_flash (s.count_line l.length) l hc
    simp only [line_loop]
    split_ifs
    · exact h
    · exact hp
    · exact ih _ hp

theorem write_pass_track (g : Globals) (pagebuf0 : Nat → Nat) (text : List Nat) :
    Track g.wlog (write_pass g pagebuf0 text) := by
  have h0 : Track g.wlog (Flash.init g pagebuf0 0) :=
    ⟨rfl, [], by simp [Flash.init, Page.init], by simp⟩
  exact line_loop_track g.wlog true (file_lines text []) _ h0

theorem page_byte_opens (do_flash : Bool) (a ch : Nat) (p : Page)
    (h : (page_byte do_flash a ch p).2 = false) (hfar : PAGESIZE ≤ sub32 a p.pageaddr) :
    (page_byte do_flash a ch p).1.pageaddr = a ∧
    (page_byte do_flash a ch p).1.pagebuf = upd (fun _ => 0xFF) 0 ch := by
  by_cases hm : p.pageaddr = 0xffffffff
  · rw [page_byte_first do_flash a ch p hfar hm]
    exact ⟨rfl, by show upd (fun _ => 0xFF) (sub32 a a) ch = _; rw [sub32_self]⟩
  · cases hf : (flush_page do_flash { p with pageidx := a }).2 with
    | true =>
      rw [page_byte_cross_fail do_flash a ch p hfar hm hf, hf] at h
      exact absurd h (by decide)
    | false =>
      rw [page_byte_cross_ok do_flash a ch p hfar hm hf]
      refine ⟨rfl, ?_⟩
      show upd (fun _ => 0xFF) (sub32 (flush_page do_flash { p with pageidx := a }).1.pageidx a) ch = _
      rw [(flush_page_log do_flash { p with pageidx := a }).2.1]
      show upd (fun _ => 0xFF) (sub32 a a) ch = _
      rw [sub32_self]

/-- C3, as amended: for every HEX file and every behaviour of the target, each write
command of the write pass whose address is not the initial marker `0xffffffff` has the
address of the data byte that opened its page: the stored bytes split as
`pre ++ (address, c) :: post`, where the byte `(address, c)` arrived 256 or more (in
`uint32_t`) from the page base in force after `pre`. Such a byte makes the code set
`pageaddr` to its own unmasked address `ulba + drlo + dri`, fill the buffer with `0xFF`
and store the byte at offset 0; `base_after` is the page base the write pass ends with.
No `& ~0xFF` is applied, so the address of a write is a multiple of 256 only when the
address of that byte is. -/
theorem write_address_is_opening_byte (g : Globals) (pagebuf0 : Nat → Nat) (text : List Nat) :
    (∃ ext, (write_pass g pagebuf0 text).p.g.wlog = g.wlog ++ ext ∧
      ∀ w ∈ ext, w.1 ≠ 0xffffffff →
        ∃ pre c post, (write_pass g pagebuf0 text).items = pre ++ (w.1, c) :: post ∧
          PAGESIZE ≤ sub32 w.1 (base_after pre)) ∧
    (write_pass g pagebuf0 text).p.pageaddr = base_after (write_pass g pagebuf0 text).items ∧
    (∀ (do_flash : Bool) (a ch : Nat) (p : Page), (page_byte do_flash a ch p).2 = false →
      PAGESIZE ≤ sub32 a p.pageaddr →
      (page_byte do_flash a ch p).1.pageaddr = a ∧
      (page_byte do_flash a ch p).1.pagebuf = upd (fun _ => 0xFF) 0 ch) := by
  obtain ⟨hb, ext, hext, hw⟩ := write_pass_track g pagebuf0 text
  refine ⟨⟨ext, hext, fun w hm hne => ?_⟩, hb, page_byte_opens⟩
  obtain ⟨pre2, post2, e, hwa⟩ := hw w hm
  rcases base_after_opened pre2 with h | ⟨pre, c, post, e2, hp⟩
  · rw [hwa] at hne
    exact absurd h hne
  · refine ⟨pre, c, post ++ post2, ?_, by rw [hwa]; exact hp⟩
    rw [e, hwa]
    conv_lhs => rw [e2]
    simp

set_option maxRecDepth 1000000 in
theorem unaligned_wlog :
    (write_pass (globals0 (page_replies [1, 2, 3, 4])) (fun _ => 0) hexUnaligned).p.g.wlog =
      [(0x08000004, [1, 2, 3, 4])] := by
  decide

/-- The theorem at four bytes at `0x08000004`: the one write goes to `0x08000004`, the
address of the first data byte, which opened the page from the marker. -/
theorem write_address_is_opening_byte_witness :
    ∃ pre c post,
      (write_pass (globals0 (page_replies [1, 2, 3, 4])) (fun _ => 0) hexUnaligned).items =
        pre ++ (0x08000004, c) :: post ∧
      PAGESIZE ≤ sub32 0x08000004 (base_after pre) := by
  obtain ⟨ext, hext, h⟩ := (write_address_is_opening_byte
    (globals0 (page_replies [1, 2, 3, 4])) (fun _ => 0) hexUnaligned).1
  rw [unaligned_wlog] at hext
  have he : ext = [(0x08000004, [1, 2, 3, 4])] := by
    simpa [globals0] using hext.symm
  exact h (0x08000004, [1, 2, 3, 4]) (by rw [he]; simp) (by decide)

/-! ## C24: the bytes `0x7F` of the job -/

end STM32
